import Mathlib

/-! # so_stdio: a buffered stream layer over a raw descriptor

A shallow embedding of `src/Linux/so_stdio.c` (namespace `Linux`) and of the
top-level variant `src/so_stdio.c` (namespace `Win`), together with a small
model of the operating system calls they issue.

Conventions of the embedding.

* A C `int` is a Lean `Int`; where the C code increments an `int` or narrows a
  wider value to `int`, the result is reduced with `wrap32` (two's complement,
  32 bits).  A `size_t` is a `Nat` reduced modulo `2 ^ 64`.
* A byte is a `Fin 256` (the unsigned value of the `char`).
* The stream record is the structure `SoFile`; its `buffer` is a function from
  cell index to byte.  Cells `0 .. FILE_BUFF_LEN - 1` are the C array; an index
  outside that range is undefined behaviour in C and is given a cell of its
  own here, so that the functions stay total.
* The operating system is the structure `Os`: one file, the state of the
  open file description behind the stream's descriptor, the outcome that the
  next system calls will have (`rsched`, `wsched`, ...), and the log of the
  calls issued so far.
* `so_fflush` loops until the pending bytes are transferred; a device that
  keeps transferring zero bytes makes the C loop spin forever.  The loop takes a
  bound `fuel` on its number of iterations and yields `none` when the bound is
  hit.
* The process calls of `so_popen` and `so_pclose` (`pipe`, `fork`, `waitpid`)
  answer as the structure `Procs` says; `so_popen` is followed in the calling
  process, the child's branch never returns to the caller.
-/

/-- One byte, as the unsigned value of a C `char`. -/
abbrev Byte := Fin 256

/-- Capacity of the stream buffer, `#define FILE_BUFF_LEN 4096`. -/
def FILE_BUFF_LEN : Nat := 4096

/-- Modelled from the spec: the header `so_stdio.h` is not among the sources; its
end-of-stream sentinel `SO_EOF` is the value `-1`, the same value `so_ftell`
reports once the end of file is reached. -/
def SO_EOF : Int := -1

/-- Narrowing to a 32-bit two's complement `int`. -/
def wrap32 (x : Int) : Int := (x + 2 ^ 31) % 2 ^ 32 - 2 ^ 31

/-- The first byte in memory of a little-endian `int`: what `memcpy(dst, &c, 1)`
copies. -/
def byteOfInt (c : Int) : Byte := ⟨(c % 256).toNat, by omega⟩

/-- The `int` read through `*(int *)(ptr + i)`: four consecutive bytes of the
memory `ptr`, little-endian, signed. -/
def loadInt (ptr : Nat → Byte) (i : Nat) : Int :=
  wrap32 ((ptr i).val + 256 * (ptr (i + 1)).val + 65536 * (ptr (i + 2)).val
    + 16777216 * (ptr (i + 3)).val)

/-- The `char` read through `*(char *)(ptr + i)`, promoted to `int`
(`char` is signed). -/
def loadChar (ptr : Nat → Byte) (i : Nat) : Int :=
  if (ptr i).val < 128 then (ptr i).val else (ptr i).val - 256

/-- The bytes of `count` cells of a memory starting at cell `start`. -/
def memRange (mem : Nat → Byte) (start count : Nat) : List Byte :=
  (List.range count).map (fun i => mem (start + i))

/-- The effect of `memset(buffer, 0, FILE_BUFF_LEN)`. -/
def memset0 (buf : Nat → Byte) : Nat → Byte :=
  fun i => if i < FILE_BUFF_LEN then 0 else buf i

/-- The effect of the kernel copying the bytes `bs` to the start of a buffer. -/
def blit (buf : Nat → Byte) (bs : List Byte) : Nat → Byte :=
  fun i => if h : i < bs.length then bs.get ⟨i, h⟩ else buf i

/-! ## The operating system -/

/-- A call issued to the operating system or to the allocator, with its result. -/
inductive Call where
  | open (path : String) (flags : Nat) (ret : Int)
  | close (fd : Int) (ret : Int)
  | read (fd : Int) (count : Nat) (ret : Int)
  | write (fd : Int) (offered : List Byte) (ret : Int)
  | lseek (fd : Int) (offset : Int) (whence : Int) (ret : Int)
  | calloc (ok : Bool)
  | free
  | pipe (ret : Int)
  | fork (ret : Int)
  | waitpid (pid : Int) (options : Int) (ret : Int)
  deriving DecidableEq

/-- The file behind the stream, the open file description, what the next calls
will answer, and the calls issued so far. -/
structure Os where
  /-- whether the file exists -/
  present : Bool
  /-- content of the file -/
  data : List Byte
  /-- offset of the open file description -/
  off : Nat
  readable : Bool
  writable : Bool
  /-- `O_APPEND`: every write goes to the end of the file -/
  append : Bool
  /-- whether the descriptor can be repositioned (false for a pipe) -/
  seekable : Bool
  /-- whether the next `open` is permitted -/
  openOk : Bool
  /-- the descriptor number the next `open` hands out -/
  newfd : Nat
  /-- whether the next `calloc` succeeds -/
  callocOk : Bool
  /-- whether the next `close` succeeds -/
  closeOk : Bool
  /-- answer to the i-th `read`: `none` is an error, `some r` delivers at most
  `r + 1` bytes -/
  rsched : Nat → Option Nat
  /-- number of `read` calls issued -/
  nread : Nat
  /-- answer to the i-th `write`: `none` is an error, `some r` accepts at most
  `r` bytes -/
  wsched : Nat → Option Nat
  /-- number of `write` calls issued -/
  nwrite : Nat
  /-- the calls issued, oldest first -/
  log : List Call

/-- Content of a file after `bs` is written at offset `off` (a hole past the end
reads as zero). -/
def pwrite (data : List Byte) (off : Nat) (bs : List Byte) : List Byte :=
  (data ++ List.replicate (off - data.length) 0).take off ++ bs ++ data.drop (off + bs.length)

/-- Result of a system call that only returns a number. -/
structure SysRet where
  ret : Int
  os : Os

/-- Result of `read`: the number returned and the bytes delivered. -/
structure SysRead where
  ret : Int
  bytes : List Byte
  os : Os

/-- Access-mode and creation flags of `open`, with their Linux values. -/
def O_RDONLY : Nat := 0
def O_WRONLY : Nat := 1
def O_RDWR : Nat := 2
def O_CREAT : Nat := 64
def O_TRUNC : Nat := 512
def O_APPEND : Nat := 1024

/-- Values of `whence`. -/
def SEEK_SET : Int := 0
def SEEK_CUR : Int := 1
def SEEK_END : Int := 2

/-- The call `open(path, flags)`: fails when it is not permitted or when the
file is absent and `O_CREAT` is not given. -/
def sys_open (os : Os) (path : String) (flags : Nat) : SysRet :=
  if os.openOk && (os.present || flags.testBit 6) then
    { ret := os.newfd
      os := { os with
        present := true
        data := if flags.testBit 9 then [] else os.data
        off := 0
        readable := flags % 4 != 1
        writable := flags % 4 != 0
        append := flags.testBit 10
        log := os.log ++ [Call.open path flags os.newfd] } }
  else
    { ret := -1, os := { os with log := os.log ++ [Call.open path flags (-1)] } }

/-- The call `close(fd)`. -/
def sys_close (os : Os) (fd : Int) : SysRet :=
  let ret : Int := if os.closeOk then 0 else -1
  { ret := ret, os := { os with log := os.log ++ [Call.close fd ret] } }

/-- The call `read(fd, buf, count)`: an error, or the next bytes of the file, at
least one of them when any is left and `count` is positive. -/
def sys_read (os : Os) (fd : Int) (count : Nat) : SysRead :=
  match (if os.readable then os.rsched os.nread else none) with
  | none =>
    { ret := -1, bytes := []
      os := { os with nread := os.nread + 1, log := os.log ++ [Call.read fd count (-1)] } }
  | some r =>
    let bs := ((os.data.drop os.off).take count).take (r + 1)
    { ret := bs.length, bytes := bs
      os := { os with
        off := os.off + bs.length
        nread := os.nread + 1
        log := os.log ++ [Call.read fd count bs.length] } }

/-- The call `write(fd, buf, count)` where `offered` are the `count` bytes at
`buf`: an error, or a prefix of the offered bytes is transferred. -/
def sys_write (os : Os) (fd : Int) (offered : List Byte) : SysRet :=
  match (if os.writable then os.wsched os.nwrite else none) with
  | none =>
    { ret := -1
      os := { os with nwrite := os.nwrite + 1, log := os.log ++ [Call.write fd offered (-1)] } }
  | some r =>
    let k := min r offered.length
    let pos := if os.append then os.data.length else os.off
    { ret := k
      os := { os with
        data := pwrite os.data pos (offered.take k)
        off := pos + k
        nwrite := os.nwrite + 1
        log := os.log ++ [Call.write fd offered k] } }

/-- The call `lseek(fd, offset, whence)`, returning the new offset as a 64-bit
`off_t`. -/
def sys_lseek (os : Os) (fd : Int) (offset whence : Int) : SysRet :=
  let base : Option Int :=
    if whence = SEEK_SET then some 0
    else if whence = SEEK_CUR then some (os.off : Int)
    else if whence = SEEK_END then some (os.data.length : Int)
    else none
  match base with
  | none => { ret := -1, os := { os with log := os.log ++ [Call.lseek fd offset whence (-1)] } }
  | some b =>
    if os.seekable = true ∧ 0 ≤ b + offset ∧ b + offset < 2 ^ 63 then
      { ret := b + offset
        os := { os with
          off := (b + offset).toNat
          log := os.log ++ [Call.lseek fd offset whence (b + offset)] } }
    else { ret := -1, os := { os with log := os.log ++ [Call.lseek fd offset whence (-1)] } }

/-- The call `calloc(1, sizeof(struct _so_file))`: whether a zeroed record is
obtained. -/
def sys_calloc (os : Os) : Bool × Os :=
  (os.callocOk, { os with log := os.log ++ [Call.calloc os.callocOk] })

/-- The call `free(stream)`. -/
def sys_free (os : Os) : Os :=
  { os with log := os.log ++ [Call.free] }

/-- What the process calls will answer: whether `pipe` succeeds and the two
descriptors it hands out, the value `fork` returns in the calling process
(`-1`, or `0` in the child, or the child's process identifier in the parent),
and for each process identifier the value `waitpid` returns and the status it
stores. -/
structure Procs where
  pipeOk : Bool
  pipeRead : Int
  pipeWrite : Int
  forkRet : Int
  waitRet : Int → Int
  waitStatus : Int → Int

/-- The call `pipe(pdes)`; on success `pdes[0]` is `pipeRead` and `pdes[1]` is
`pipeWrite`. -/
def sys_pipe (os : Os) (pr : Procs) : SysRet :=
  let ret : Int := if pr.pipeOk then 0 else -1
  { ret := ret, os := { os with log := os.log ++ [Call.pipe ret] } }

/-- The call `fork()`, as seen by the calling process. -/
def sys_fork (os : Os) (pr : Procs) : SysRet :=
  { ret := pr.forkRet, os := { os with log := os.log ++ [Call.fork pr.forkRet] } }

/-- The call `waitpid(pid, &pstat, options)`; the status stored in `pstat` is
`pr.waitStatus pid`. -/
def sys_waitpid (os : Os) (pr : Procs) (pid options : Int) : SysRet :=
  { ret := pr.waitRet pid
    os := { os with log := os.log ++ [Call.waitpid pid options (pr.waitRet pid)] } }

/-- The open file description behind the stream's descriptor when that
descriptor is one end of a pipe: the read end can only be read, the write end
only be written, and neither can be repositioned. -/
def Os.pipeEnd (os : Os) (readEnd : Bool) : Os :=
  { os with readable := readEnd, writable := !readEnd, append := false, seekable := false }

/-- The bytes a logged call transferred to the descriptor. -/
def Call.transferred : Call → List Byte
  | Call.write _ offered ret => offered.take ret.toNat
  | _ => []

/-- All bytes transferred to the descriptor by the `write` calls of a log, in
order. -/
def handed : List Call → List Byte
  | [] => []
  | c :: cs => c.transferred ++ handed cs

/-- Whether a logged call is a `read`. -/
def Call.isRead : Call → Bool
  | Call.read _ _ _ => true
  | _ => false

/-- Whether a logged call is a `write`. -/
def Call.isWrite : Call → Bool
  | Call.write _ _ _ => true
  | _ => false

/-- Whether a logged call is a `write` that reported an error. -/
def Call.isFailedWrite : Call → Bool
  | Call.write _ _ ret => ret == -1
  | _ => false

/-- Whether a logged call is an `lseek`. -/
def Call.isLseek : Call → Bool
  | Call.lseek _ _ _ _ => true
  | _ => false

/-- Number of `read` calls in a log. -/
def readCalls (log : List Call) : Nat := log.countP Call.isRead

/-- Number of `write` calls in a log. -/
def writeCalls (log : List Call) : Nat := log.countP Call.isWrite

/-- Number of failed `write` calls in a log. -/
def failedWrites (log : List Call) : Nat := log.countP Call.isFailedWrite

/-- Number of `lseek` calls in a log. -/
def lseekCalls (log : List Call) : Nat := log.countP Call.isLseek

/-! ## The stream record -/

/-- The record `struct _so_file` of `src/Linux/so_stdio.c`. -/
structure SoFile where
  was_written : Nat
  fd : Int
  ferror : Int
  cursor_fd : Int
  cursor_buf_read : Int
  cursor_buf_write : Int
  buffer_size : Int
  feof : Int
  pid : Int
  buffer : Nat → Byte

/-- The record `calloc` returns: every field zero. -/
def SoFile.zero : SoFile :=
  { was_written := 0, fd := 0, ferror := 0, cursor_fd := 0, cursor_buf_read := 0
    cursor_buf_write := 0, buffer_size := 0, feof := 0, pid := 0, buffer := fun _ => 0 }

/-- The bytes pending in the buffer: cells `0 .. cursor_buf_write - 1`. -/
def pending (s : SoFile) : List Byte :=
  memRange s.buffer 0 s.cursor_buf_write.toNat

/-- The output of a stream: the bytes transferred to the descriptor followed
by the bytes pending in the buffer. -/
def output (s : SoFile) (os : Os) : List Byte :=
  handed os.log ++ pending s

/-- Result of a stream operation: the value returned, the record and the
operating system afterwards. -/
structure Ret (α : Type) where
  val : α
  stream : SoFile
  os : Os

/-- Result of `so_fread`: the value returned, the destination block, the
record and the operating system afterwards. -/
structure RetMem where
  val : Nat
  mem : Nat → Byte
  stream : SoFile
  os : Os

/-! ## `src/Linux/so_stdio.c` -/

namespace Linux

/-- Flags `so_fopen` passes to `open` for each mode string, `none` for an
unsupported mode. -/
def modeFlags (mode : String) : Option Nat :=
  if mode = "r" then some O_RDONLY
  else if mode = "r+" then some O_RDWR
  else if mode = "w" then some (O_WRONLY + O_CREAT + O_TRUNC)
  else if mode = "w+" then some (O_RDWR + O_CREAT + O_TRUNC)
  else if mode = "a" then some (O_WRONLY + O_CREAT + O_APPEND)
  else if mode = "a+" then some (O_RDWR + O_CREAT + O_APPEND)
  else none

/-- `so_fopen(pathname, mode)`: `none` is the `NULL` result. -/
def so_fopen (pathname mode : String) (os : Os) : Option SoFile × Os :=
  match modeFlags mode with
  | none => (none, os)
  | some flags =>
    let o := sys_open os pathname flags
    if o.ret = -1 then (none, o.os)
    else
      let a := sys_calloc o.os
      if a.1 = false then (none, a.2)
      else (some { SoFile.zero with fd := o.ret }, a.2)

/-- `so_fileno(stream)`. -/
def so_fileno (s : SoFile) : Int := s.fd

/-- The `while` loop of `so_fflush`: `written` bytes are transferred already.
The result is `true` when the loop ran to its end and `false` when a `write`
returned `-1`; `none` when the bound on iterations is hit. -/
def so_fflush_loop (s : SoFile) : Nat → Int → Os → Option (Bool × Os)
  | 0, written, os =>
    if written < s.cursor_buf_write then none else some (true, os)
  | fuel + 1, written, os =>
    if written < s.cursor_buf_write then
      let w := sys_write os s.fd
        (memRange s.buffer written.toNat (s.cursor_buf_write - written).toNat)
      if w.ret = -1 then some (false, w.os)
      else so_fflush_loop s fuel (written + w.ret) w.os
    else some (true, os)

/-- `so_fflush(stream)`. -/
def so_fflush (fuel : Nat) (s : SoFile) (os : Os) : Option (Ret Int) :=
  match so_fflush_loop s fuel 0 os with
  | none => none
  | some (false, os1) => some { val := SO_EOF, stream := s, os := os1 }
  | some (true, os1) =>
    some { val := 0
           stream := { s with buffer := memset0 s.buffer, cursor_buf_write := 0 }
           os := os1 }

/-- The second half of `so_fseek`: the call of `lseek`, whose value is stored
in an `int`, and what follows it. -/
def reposition (s : SoFile) (os : Os) (offset whence : Int) : Ret Int :=
  let l := sys_lseek os s.fd offset whence
  let ret := wrap32 l.ret
  if ret = -1 then { val := SO_EOF, stream := { s with ferror := 1 }, os := l.os }
  else { val := 0, stream := { s with cursor_fd := ret }, os := l.os }

/-- `so_fseek(stream, offset, whence)`. -/
def so_fseek (fuel : Nat) (s : SoFile) (os : Os) (offset whence : Int) : Option (Ret Int) :=
  if s.was_written ≠ 0 then
    match so_fflush fuel s os with
    | none => none
    | some r => some (reposition r.stream r.os offset whence)
  else
    some (reposition
      { s with buffer := memset0 s.buffer, cursor_buf_read := 0, buffer_size := 0 } os
      offset whence)

/-- `so_ftell(stream)`. -/
def so_ftell (s : SoFile) : Int :=
  if s.feof ≠ 0 then -1 else s.cursor_fd

/-- The last two statements of `so_fgetc`: advance the position and return the
cell under the read cursor. -/
def fetch (s : SoFile) (os : Os) : Ret Int :=
  { val := ((s.buffer s.cursor_buf_read.toNat).val : Int)
    stream := { s with
      cursor_fd := wrap32 (s.cursor_fd + 1)
      cursor_buf_read := wrap32 (s.cursor_buf_read + 1) }
    os := os }

/-- `so_fgetc(stream)`. -/
def so_fgetc (s : SoFile) (os : Os) : Ret Int :=
  let s := { s with was_written := 0 }
  if s.feof ≠ 0 then { val := SO_EOF, stream := s, os := os }
  else if s.cursor_buf_read = 0 ∨ s.cursor_buf_read = s.buffer_size then
    let r := sys_read os s.fd FILE_BUFF_LEN
    if r.ret < 0 then { val := SO_EOF, stream := { s with ferror := 1 }, os := r.os }
    else if r.ret = 0 then { val := SO_EOF, stream := { s with feof := 1 }, os := r.os }
    else
      fetch { s with buffer := blit s.buffer r.bytes, cursor_buf_read := 0, buffer_size := r.ret }
        r.os
  else fetch s os

/-- The last statements of `so_fputc`: copy the first byte of `c` under the
write cursor, advance both cursors, return `c`. -/
def store (c : Int) (s : SoFile) (os : Os) : Ret Int :=
  { val := c
    stream := { s with
      buffer := Function.update s.buffer s.cursor_buf_write.toNat (byteOfInt c)
      cursor_buf_write := wrap32 (s.cursor_buf_write + 1)
      cursor_fd := wrap32 (s.cursor_fd + 1) }
    os := os }

/-- `so_fputc(c, stream)`. -/
def so_fputc (fuel : Nat) (c : Int) (s : SoFile) (os : Os) : Option (Ret Int) :=
  let s := { s with was_written := 1 }
  if s.cursor_buf_write = (FILE_BUFF_LEN : Int) then
    match so_fflush fuel s os with
    | none => none
    | some r =>
      if r.val = SO_EOF then
        some { val := SO_EOF, stream := { r.stream with ferror := 1 }, os := r.os }
      else some (store c r.stream r.os)
  else some (store c s os)

/-- The `while` loop of `so_fread` with `todo = bytes_to_read - bytes_read`
iterations left. -/
def so_fread_loop : Nat → Nat → (Nat → Byte) → SoFile → Os → RetMem
  | 0, bytes_read, ptr, s, os => { val := bytes_read, mem := ptr, stream := s, os := os }
  | todo + 1, bytes_read, ptr, s, os =>
    let r := so_fgetc s os
    if r.val = SO_EOF then { val := bytes_read, mem := ptr, stream := r.stream, os := r.os }
    else
      so_fread_loop todo (bytes_read + 1) (Function.update ptr bytes_read (byteOfInt r.val))
        r.stream r.os

/-- `so_fread(ptr, size, nmemb, stream)`; `ptr` is the destination memory.
With `size = 0` the C code divides by zero; here the quotient is 0. -/
def so_fread (ptr : Nat → Byte) (size nmemb : Nat) (s : SoFile) (os : Os) : RetMem :=
  let s := { s with was_written := 0 }
  if s.feof ≠ 0 then { val := 0, mem := ptr, stream := s, os := os }
  else
    let r := so_fread_loop (nmemb * size % 2 ^ 64) 0 ptr s os
    { r with val := r.val / size }

/-- The `while` loop of `so_fwrite` with `todo = bytes_to_write - bytes_written`
iterations left. The argument of `so_fputc` is the `int` found at
`ptr + bytes_written`. -/
def so_fwrite_loop (fuel : Nat) (ptr : Nat → Byte) :
    Nat → Nat → SoFile → Os → Option (Ret Nat)
  | 0, bytes_written, s, os => some { val := bytes_written, stream := s, os := os }
  | todo + 1, bytes_written, s, os =>
    match so_fputc fuel (loadInt ptr bytes_written) s os with
    | none => none
    | some r =>
      if r.val = SO_EOF then some { val := bytes_written, stream := r.stream, os := r.os }
      else so_fwrite_loop fuel ptr todo (bytes_written + 1) r.stream r.os

/-- `so_fwrite(ptr, size, nmemb, stream)`; `ptr` is the source memory.
With `size = 0` the C code divides by zero; here the quotient is 0. -/
def so_fwrite (fuel : Nat) (ptr : Nat → Byte) (size nmemb : Nat) (s : SoFile) (os : Os) :
    Option (Ret Nat) :=
  let s := { s with was_written := 1 }
  if s.feof ≠ 0 then some { val := 0, stream := s, os := os }
  else
    match so_fwrite_loop fuel ptr (nmemb * size % 2 ^ 64) 0 s os with
    | none => none
    | some r => some { r with val := r.val / size }

/-- `so_feof(stream)`. -/
def so_feof (s : SoFile) : Int := s.feof

/-- `so_ferror(stream)`. -/
def so_ferror (s : SoFile) : Int := s.ferror

/-- The tail of `so_fclose`: close the descriptor and free the record. -/
def closeAndFree (s : SoFile) (os : Os) : SysRet :=
  let c := sys_close os s.fd
  if c.ret ≠ 0 then { ret := SO_EOF, os := sys_free c.os }
  else { ret := c.ret, os := sys_free c.os }

/-- `so_fclose(stream)`; the record does not survive the call. -/
def so_fclose (fuel : Nat) (s : SoFile) (os : Os) : Option SysRet :=
  if s.cursor_buf_write > 0 then
    match so_fflush fuel s os with
    | none => none
    | some r =>
      if r.val = SO_EOF then
        some { ret := SO_EOF, os := sys_free (sys_close r.os r.stream.fd).os }
      else some (closeAndFree r.stream r.os)
  else some (closeAndFree s os)

/-- `so_popen(command, type)` in the calling process.  The outer `none` is the
child's branch of the `switch`, which ends in `execl` or `exit` and never
returns to the caller; `some (none, _)` is the `NULL` result.  In the parent
the record holds the end of the pipe selected by the first character of
`type`, and the value `fork` returned; the command is used by the child only. -/
def so_popen (_command type : String) (os : Os) (pr : Procs) : Option (Option SoFile × Os) :=
  let p := sys_pipe os pr
  if p.ret < 0 then some (none, p.os)
  else
    let f := sys_fork p.os pr
    if f.ret = -1 then
      some (none, (sys_close (sys_close f.os pr.pipeRead).os pr.pipeWrite).os)
    else if f.ret = 0 then none
    else
      let a := sys_calloc f.os
      if a.1 = false then some (none, a.2)
      else if type.front = 'r' then
        some (some { SoFile.zero with fd := pr.pipeRead, pid := f.ret },
          (sys_close (a.2.pipeEnd true) pr.pipeWrite).os)
      else
        some (some { SoFile.zero with fd := pr.pipeWrite, pid := f.ret },
          (sys_close (a.2.pipeEnd false) pr.pipeRead).os)

/-- `so_pclose(stream)`: the process identifier is read from the record before
`so_fclose` frees it. -/
def so_pclose (fuel : Nat) (s : SoFile) (os : Os) (pr : Procs) : Option SysRet :=
  let curr_pid := s.pid
  match so_fclose fuel s os with
  | none => none
  | some c =>
    if c.ret = SO_EOF then some { ret := SO_EOF, os := c.os }
    else
      let w := sys_waitpid c.os pr curr_pid 0
      if w.ret < 0 then some { ret := -1, os := w.os }
      else some { ret := pr.waitStatus curr_pid, os := w.os }

/-- A call of one of the operations that keep the stream open. -/
inductive Op where
  | fgetc
  | fputc (c : Int)
  | fread (ptr : Nat → Byte) (size nmemb : Nat)
  | fwrite (ptr : Nat → Byte) (size nmemb : Nat)
  | fflush
  | fseek (offset whence : Int)
  | ftell
  | feof
  | ferror
  | fileno

/-- The record and the operating system after one operation. -/
def step (fuel : Nat) (op : Op) (s : SoFile) (os : Os) : Option (SoFile × Os) :=
  match op with
  | Op.fgetc => some ((so_fgetc s os).stream, (so_fgetc s os).os)
  | Op.fputc c => (so_fputc fuel c s os).map (fun r => (r.stream, r.os))
  | Op.fread ptr size nmemb =>
    some ((so_fread ptr size nmemb s os).stream, (so_fread ptr size nmemb s os).os)
  | Op.fwrite ptr size nmemb => (so_fwrite fuel ptr size nmemb s os).map (fun r => (r.stream, r.os))
  | Op.fflush => (so_fflush fuel s os).map (fun r => (r.stream, r.os))
  | Op.fseek offset whence => (so_fseek fuel s os offset whence).map (fun r => (r.stream, r.os))
  | Op.ftell => some (s, os)
  | Op.feof => some (s, os)
  | Op.ferror => some (s, os)
  | Op.fileno => some (s, os)

/-- The record and the operating system after a sequence of operations. -/
def run (fuel : Nat) : List Op → SoFile → Os → Option (SoFile × Os)
  | [], s, os => some (s, os)
  | op :: ops, s, os =>
    match step fuel op s os with
    | none => none
    | some (s1, os1) => run fuel ops s1 os1

/-- Calling `so_fputc` once for each argument of a list, in order; the values
returned are collected. -/
def putInts (fuel : Nat) : List Int → SoFile → Os → Option (Ret (List Int))
  | [], s, os => some { val := [], stream := s, os := os }
  | c :: cs, s, os =>
    match so_fputc fuel c s os with
    | none => none
    | some r =>
      match putInts fuel cs r.stream r.os with
      | none => none
      | some r2 => some { r2 with val := r.val :: r2.val }

/-- Writing the bytes `bs` one by one with `so_fputc`. -/
def putBytes (fuel : Nat) (bs : List Byte) (s : SoFile) (os : Os) : Option (Ret (List Int)) :=
  putInts fuel (bs.map (fun b => (b.val : Int))) s os

/-- Calling `so_fgetc` `n` times; the values returned are collected. -/
def getBytes : Nat → SoFile → Os → Ret (List Int)
  | 0, s, os => { val := [], stream := s, os := os }
  | n + 1, s, os =>
    let r := so_fgetc s os
    let r2 := getBytes n r.stream r.os
    { r2 with val := r.val :: r2.val }

end Linux

/-! ## `src/so_stdio.c`

The top-level variant issues the Windows calls `CreateFile`, `CloseHandle`,
`ReadFile`, `WriteFile` and `SetFilePointer`.  They are modelled by the same
`Os`: `WriteFile` and `ReadFile` report failure (`FALSE`) exactly when
`sys_write` and `sys_read` return `-1` and otherwise report the number of bytes
through their out parameter; `SetFilePointer` is `sys_lseek` with its value
kept in an `int`. -/

namespace Win

/-- The record `struct _so_file` of `src/so_stdio.c`. -/
structure SoFile where
  buffer : Nat → Byte
  cursor_fd : Int
  fd : Int
  ferror : Int
  cursor_buf_read : Int
  cursor_buf_write : Int
  buffer_size : Int
  feof : Int
  was_written : Nat

/-- The record `calloc` returns: every field zero. -/
def SoFile.zero : SoFile :=
  { buffer := fun _ => 0, cursor_fd := 0, fd := 0, ferror := 0, cursor_buf_read := 0
    cursor_buf_write := 0, buffer_size := 0, feof := 0, was_written := 0 }

/-- The bytes pending in the buffer: cells `0 .. cursor_buf_write - 1`. -/
def pending (s : SoFile) : List Byte :=
  memRange s.buffer 0 s.cursor_buf_write.toNat

/-- Result of a stream operation: the value returned, the record and the
operating system afterwards. -/
structure Ret (α : Type) where
  val : α
  stream : SoFile
  os : Os

/-- Result of `so_fread`. -/
structure RetMem where
  val : Nat
  mem : Nat → Byte
  stream : SoFile
  os : Os

/-- Access and disposition `so_fopen` passes to `CreateFile` for each mode
string, written as the `open` flags with the same meaning (`OPEN_EXISTING` is no
flag, `CREATE_ALWAYS` is create and truncate, `OPEN_ALWAYS` is create,
`FILE_APPEND_DATA` is append); `none` for an unsupported mode. -/
def modeFlags (mode : String) : Option Nat :=
  if mode = "r" then some O_RDONLY
  else if mode = "r+" then some O_RDWR
  else if mode = "w" then some (O_WRONLY + O_CREAT + O_TRUNC)
  else if mode = "w+" then some (O_RDWR + O_CREAT + O_TRUNC)
  else if mode = "a" then some (O_WRONLY + O_CREAT + O_APPEND)
  else if mode = "a+" then some (O_RDWR + O_CREAT + O_APPEND)
  else none

/-- `so_fopen(pathname, mode)`: `none` is the `NULL` result. -/
def so_fopen (pathname mode : String) (os : Os) : Option SoFile × Os :=
  match modeFlags mode with
  | none => (none, os)
  | some flags =>
    let o := sys_open os pathname flags
    if o.ret = -1 then (none, o.os)
    else
      let a := sys_calloc o.os
      if a.1 = false then (none, a.2)
      else (some { SoFile.zero with fd := o.ret }, a.2)

/-- `so_fileno(stream)`. -/
def so_fileno (s : SoFile) : Int := s.fd

/-- The `while` loop of `so_fflush`: `total_written` bytes are transferred
already.  The result is `true` when the loop ran to its end and `false` when
`WriteFile` failed; `none` when the bound on iterations is hit. -/
def so_fflush_loop (s : SoFile) : Nat → Int → Os → Option (Bool × Os)
  | 0, total_written, os =>
    if total_written < s.cursor_buf_write then none else some (true, os)
  | fuel + 1, total_written, os =>
    if total_written < s.cursor_buf_write then
      let w := sys_write os s.fd
        (memRange s.buffer total_written.toNat (s.cursor_buf_write - total_written).toNat)
      if w.ret = -1 then some (false, w.os)
      else so_fflush_loop s fuel (total_written + w.ret) w.os
    else some (true, os)

/-- `so_fflush(stream)`. -/
def so_fflush (fuel : Nat) (s : SoFile) (os : Os) : Option (Ret Int) :=
  match so_fflush_loop s fuel 0 os with
  | none => none
  | some (false, os1) => some { val := SO_EOF, stream := { s with ferror := 1 }, os := os1 }
  | some (true, os1) =>
    some { val := 0
           stream := { s with
             buffer := memset0 s.buffer, cursor_buf_write := 0, buffer_size := 0 }
           os := os1 }

/-- The second half of `so_fseek`: the call of `SetFilePointer`, whose value is
stored in an `int`, and what follows it. -/
def reposition (s : SoFile) (os : Os) (offset whence : Int) : Ret Int :=
  let l := sys_lseek os s.fd offset whence
  let ret := wrap32 l.ret
  if ret = -1 then { val := SO_EOF, stream := { s with ferror := 1 }, os := l.os }
  else { val := 0, stream := { s with cursor_fd := ret }, os := l.os }

/-- `so_fseek(stream, offset, whence)`. -/
def so_fseek (fuel : Nat) (s : SoFile) (os : Os) (offset whence : Int) : Option (Ret Int) :=
  if s.was_written ≠ 0 then
    match so_fflush fuel s os with
    | none => none
    | some r =>
      if r.val = SO_EOF then
        some { val := SO_EOF, stream := { r.stream with ferror := 1 }, os := r.os }
      else some (reposition r.stream r.os offset whence)
  else
    some (reposition
      { s with buffer := memset0 s.buffer, cursor_buf_read := 0, buffer_size := 0 } os
      offset whence)

/-- `so_ftell(stream)`. -/
def so_ftell (s : SoFile) : Int :=
  if s.feof ≠ 0 then -1 else s.cursor_fd

/-- The last two statements of `so_fgetc`. -/
def fetch (s : SoFile) (os : Os) : Ret Int :=
  { val := ((s.buffer s.cursor_buf_read.toNat).val : Int)
    stream := { s with
      cursor_fd := wrap32 (s.cursor_fd + 1)
      cursor_buf_read := wrap32 (s.cursor_buf_read + 1) }
    os := os }

/-- `so_fgetc(stream)`. -/
def so_fgetc (s : SoFile) (os : Os) : Ret Int :=
  let s := { s with was_written := 0 }
  if s.feof ≠ 0 then { val := SO_EOF, stream := s, os := os }
  else if s.cursor_buf_read = 0 ∨ s.cursor_buf_read = s.buffer_size then
    let r := sys_read os s.fd FILE_BUFF_LEN
    if r.ret = -1 then { val := SO_EOF, stream := { s with ferror := 1 }, os := r.os }
    else if r.ret = 0 then { val := SO_EOF, stream := { s with feof := 1 }, os := r.os }
    else
      fetch { s with buffer := blit s.buffer r.bytes, cursor_buf_read := 0, buffer_size := r.ret }
        r.os
  else fetch s os

/-- The last statements of `so_fputc`: copy the first byte of `c` under the
write cursor, advance both cursors, return `(unsigned char)c`. -/
def store (c : Int) (s : SoFile) (os : Os) : Ret Int :=
  { val := ((byteOfInt c).val : Int)
    stream := { s with
      buffer := Function.update s.buffer s.cursor_buf_write.toNat (byteOfInt c)
      cursor_buf_write := wrap32 (s.cursor_buf_write + 1)
      cursor_fd := wrap32 (s.cursor_fd + 1) }
    os := os }

/-- `so_fputc(c, stream)`. -/
def so_fputc (fuel : Nat) (c : Int) (s : SoFile) (os : Os) : Option (Ret Int) :=
  let s := { s with was_written := 1 }
  if s.cursor_buf_write = (FILE_BUFF_LEN : Int) then
    match so_fflush fuel s os with
    | none => none
    | some r =>
      if r.val = SO_EOF then
        some { val := SO_EOF, stream := { r.stream with ferror := 1 }, os := r.os }
      else some (store c r.stream r.os)
  else some (store c s os)

/-- The `while` loop of `so_fread` with `todo = bytes_to_read - bytes_read`
iterations left. -/
def so_fread_loop : Nat → Nat → (Nat → Byte) → SoFile → Os → RetMem
  | 0, bytes_read, ptr, s, os => { val := bytes_read, mem := ptr, stream := s, os := os }
  | todo + 1, bytes_read, ptr, s, os =>
    let r := so_fgetc s os
    if r.val = SO_EOF then { val := bytes_read, mem := ptr, stream := r.stream, os := r.os }
    else
      so_fread_loop todo (bytes_read + 1) (Function.update ptr bytes_read (byteOfInt r.val))
        r.stream r.os

/-- `so_fread(ptr, size, nmemb, stream)`; `ptr` is the destination memory.
With `size = 0` the C code divides by zero; here the quotient is 0. -/
def so_fread (ptr : Nat → Byte) (size nmemb : Nat) (s : SoFile) (os : Os) : RetMem :=
  let s := { s with was_written := 0 }
  if s.feof ≠ 0 then { val := 0, mem := ptr, stream := s, os := os }
  else
    let r := so_fread_loop (nmemb * size % 2 ^ 64) 0 ptr s os
    { r with val := r.val / size }

/-- The `while` loop of `so_fwrite` with `todo = bytes_to_write - bytes_written`
iterations left. The argument of `so_fputc` is the `char` found at
`ptr + bytes_written`. -/
def so_fwrite_loop (fuel : Nat) (ptr : Nat → Byte) :
    Nat → Nat → SoFile → Os → Option (Ret Nat)
  | 0, bytes_written, s, os => some { val := bytes_written, stream := s, os := os }
  | todo + 1, bytes_written, s, os =>
    match so_fputc fuel (loadChar ptr bytes_written) s os with
    | none => none
    | some r =>
      if r.val = SO_EOF then some { val := bytes_written, stream := r.stream, os := r.os }
      else so_fwrite_loop fuel ptr todo (bytes_written + 1) r.stream r.os

/-- `so_fwrite(ptr, size, nmemb, stream)`; `ptr` is the source memory.
With `size = 0` the C code divides by zero; here the quotient is 0. -/
def so_fwrite (fuel : Nat) (ptr : Nat → Byte) (size nmemb : Nat) (s : SoFile) (os : Os) :
    Option (Ret Nat) :=
  let s := { s with was_written := 1 }
  match so_fwrite_loop fuel ptr (nmemb * size % 2 ^ 64) 0 s os with
  | none => none
  | some r => some { r with val := r.val / size }

/-- `so_feof(stream)`. -/
def so_feof (s : SoFile) : Int := s.feof

/-- `so_ferror(stream)`. -/
def so_ferror (s : SoFile) : Int := s.ferror

/-- The tail of `so_fclose`: `CloseHandle` (modelled by `sys_close`, whose `0`
is success) and `free`. -/
def closeAndFree (s : SoFile) (os : Os) : SysRet :=
  let c := sys_close os s.fd
  if c.ret ≠ 0 then { ret := SO_EOF, os := sys_free c.os }
  else { ret := 0, os := sys_free c.os }

/-- `so_fclose(stream)`; the record does not survive the call. -/
def so_fclose (fuel : Nat) (s : SoFile) (os : Os) : Option SysRet :=
  if s.cursor_buf_write > 0 then
    match so_fflush fuel s os with
    | none => none
    | some r =>
      if r.val = SO_EOF then
        some { ret := SO_EOF, os := sys_free (sys_close r.os r.stream.fd).os }
      else some (closeAndFree r.stream r.os)
  else some (closeAndFree s os)

/-- A call of one of the operations that keep the stream open. -/
inductive Op where
  | fgetc
  | fputc (c : Int)
  | fread (ptr : Nat → Byte) (size nmemb : Nat)
  | fwrite (ptr : Nat → Byte) (size nmemb : Nat)
  | fflush
  | fseek (offset whence : Int)
  | ftell
  | feof
  | ferror
  | fileno

/-- The record and the operating system after one operation. -/
def step (fuel : Nat) (op : Op) (s : SoFile) (os : Os) : Option (SoFile × Os) :=
  match op with
  | Op.fgetc => some ((so_fgetc s os).stream, (so_fgetc s os).os)
  | Op.fputc c => (so_fputc fuel c s os).map (fun r => (r.stream, r.os))
  | Op.fread ptr size nmemb =>
    some ((so_fread ptr size nmemb s os).stream, (so_fread ptr size nmemb s os).os)
  | Op.fwrite ptr size nmemb => (so_fwrite fuel ptr size nmemb s os).map (fun r => (r.stream, r.os))
  | Op.fflush => (so_fflush fuel s os).map (fun r => (r.stream, r.os))
  | Op.fseek offset whence => (so_fseek fuel s os offset whence).map (fun r => (r.stream, r.os))
  | Op.ftell => some (s, os)
  | Op.feof => some (s, os)
  | Op.ferror => some (s, os)
  | Op.fileno => some (s, os)

/-- The record and the operating system after a sequence of operations. -/
def run (fuel : Nat) : List Op → SoFile → Os → Option (SoFile × Os)
  | [], s, os => some (s, os)
  | op :: ops, s, os =>
    match step fuel op s os with
    | none => none
    | some (s1, os1) => run fuel ops s1 os1

/-- Calling `so_fputc` once for each argument of a list, in order; the values
returned are collected. -/
def putInts (fuel : Nat) : List Int → SoFile → Os → Option (Ret (List Int))
  | [], s, os => some { val := [], stream := s, os := os }
  | c :: cs, s, os =>
    match so_fputc fuel c s os with
    | none => none
    | some r =>
      match putInts fuel cs r.stream r.os with
      | none => none
      | some r2 => some { r2 with val := r.val :: r2.val }

end Win

/-! ## Auxiliary definitions for the proofs -/

/-- The drain loop shared by both variants of `so_fflush`, as a function of the
descriptor, the buffer and the write cursor only. -/
def drain (fd : Int) (buf : Nat → Byte) (cw : Int) : Nat → Int → Os → Option (Bool × Os)
  | 0, written, os =>
    if written < cw then none else some (true, os)
  | fuel + 1, written, os =>
    if written < cw then
      let w := sys_write os fd (memRange buf written.toNat (cw - written).toNat)
      if w.ret = -1 then some (false, w.os)
      else drain fd buf cw fuel (written + w.ret) w.os
    else some (true, os)

/-- The arguments `so_fwrite` of `src/Linux/so_stdio.c` passes to `so_fputc` for
`count` bytes of a source block, from byte `start` on. -/
def Linux.srcInts (ptr : Nat → Byte) (start count : Nat) : List Int :=
  (List.range count).map (fun i => loadInt ptr (start + i))

/-- The arguments `so_fwrite` of `src/so_stdio.c` passes to `so_fputc` for
`count` bytes of a source block, from byte `start` on. -/
def Win.srcChars (ptr : Nat → Byte) (start count : Nat) : List Int :=
  (List.range count).map (fun i => loadChar ptr (start + i))

/-- The operating system after some `write` calls: new content and offset, `n`
more calls counted, the calls `calls` appended to the log. -/
def Os.wrote (os : Os) (content : List Byte) (offset n : Nat) (calls : List Call) : Os :=
  { os with data := content, off := offset, nwrite := os.nwrite + n, log := os.log ++ calls }

/-- Every `write` call the device answers succeeds and transfers at least one
byte. -/
def WritesSucceed (os : Os) : Prop :=
  ∀ i, ∃ k, os.wsched i = some k ∧ 1 ≤ k

/-- No `read` call the device answers reports an error. -/
def ReadsSucceed (os : Os) : Prop :=
  ∀ i, ∃ k, os.rsched i = some k

/-- No `write` call transfers zero bytes: each one fails or makes progress. -/
def WritesProgress (os : Os) : Prop :=
  ∀ i, os.wsched i ≠ some 0

/-- Invariant of a stream of `src/Linux/so_stdio.c` that has only been written
to, over a device where writes and reads succeed: the file followed by the
pending bytes is `acc`, the bytes written so far. -/
structure Linux.WriterInv (s : SoFile) (os : Os) (acc : List Byte) : Prop where
  feof : s.feof = 0
  cbr : s.cursor_buf_read = 0
  bsz : s.buffer_size = 0
  cw0 : 0 ≤ s.cursor_buf_write
  cw1 : s.cursor_buf_write ≤ (FILE_BUFF_LEN : Int)
  idle : s.was_written = 0 → s.cursor_buf_write = 0
  writable : os.writable = true
  readable : os.readable = true
  seekable : os.seekable = true
  writes : WritesSucceed os
  reads : ReadsSucceed os
  atEnd : os.off = os.data.length
  content : os.data ++ pending s = acc

/-- Invariant of a stream of `src/Linux/so_stdio.c` that is only read from, over
a device where reads succeed: the unconsumed bytes of the buffer followed by
the rest of the file are `rest`, the bytes still to be read. -/
structure Linux.ReaderInv (s : SoFile) (os : Os) (rest : List Byte) : Prop where
  feof : s.feof = 0
  cbr0 : 0 ≤ s.cursor_buf_read
  cbr1 : s.cursor_buf_read ≤ s.buffer_size
  bsz : s.buffer_size ≤ (FILE_BUFF_LEN : Int)
  empty : s.cursor_buf_read = 0 → s.buffer_size = 0
  readable : os.readable = true
  reads : ReadsSucceed os
  content : rest = memRange s.buffer s.cursor_buf_read.toNat
      (s.buffer_size - s.cursor_buf_read).toNat ++ os.data.drop os.off

/-- The index of the buffer cell that `so_fgetc` of `src/Linux/so_stdio.c`
reads in its `return` statement: the read cursor, which is 0 after a refill;
`none` when the function returns before that statement. -/
def Linux.so_fgetc_index (s : SoFile) (os : Os) : Option Int :=
  if s.feof ≠ 0 then none
  else if s.cursor_buf_read = 0 ∨ s.cursor_buf_read = s.buffer_size then
    let r := sys_read os s.fd FILE_BUFF_LEN
    if r.ret < 0 then none
    else if r.ret = 0 then none
    else some 0
  else some s.cursor_buf_read

/-- The index of the buffer cell that `so_fputc` of `src/Linux/so_stdio.c`
writes in its `memcpy`: the write cursor, which is 0 after a flush; the inner
`none` when the function returns before that statement, the outer `none` when
the flush does not return. -/
def Linux.so_fputc_index (fuel : Nat) (s : SoFile) (os : Os) : Option (Option Int) :=
  let s := { s with was_written := 1 }
  if s.cursor_buf_write = (FILE_BUFF_LEN : Int) then
    match Linux.so_fflush fuel s os with
    | none => none
    | some r => if r.val = SO_EOF then some none else some (some r.stream.cursor_buf_write)
  else some (some s.cursor_buf_write)

/-- The index of the buffer cell that `so_fgetc` of `src/so_stdio.c` reads in
its `return` statement; `none` when the function returns before that
statement. -/
def Win.so_fgetc_index (s : Win.SoFile) (os : Os) : Option Int :=
  if s.feof ≠ 0 then none
  else if s.cursor_buf_read = 0 ∨ s.cursor_buf_read = s.buffer_size then
    let r := sys_read os s.fd FILE_BUFF_LEN
    if r.ret = -1 then none
    else if r.ret = 0 then none
    else some 0
  else some s.cursor_buf_read

/-- Calling `so_fgetc` of `src/so_stdio.c` `n` times; the values returned are
collected. -/
def Win.getBytes : Nat → Win.SoFile → Os → Win.Ret (List Int)
  | 0, s, os => { val := [], stream := s, os := os }
  | n + 1, s, os =>
    let r := Win.so_fgetc s os
    let r2 := Win.getBytes n r.stream r.os
    { r2 with val := r.val :: r2.val }

/-- The cursors of a record of `src/Linux/so_stdio.c` are within their bounds:
the write cursor is between 0 and the capacity of the buffer, and the read
cursor is between 0 and the valid-byte count, which is at most the capacity. -/
structure Linux.CursorsInBounds (s : SoFile) : Prop where
  cw0 : 0 ≤ s.cursor_buf_write
  cw1 : s.cursor_buf_write ≤ (FILE_BUFF_LEN : Int)
  cbr0 : 0 ≤ s.cursor_buf_read
  cbr1 : s.cursor_buf_read ≤ s.buffer_size
  bsz1 : s.buffer_size ≤ (FILE_BUFF_LEN : Int)

/-- The implicit flushes performed by consecutive calls of `so_fputc` of
`src/Linux/so_stdio.c`, one call for each argument of the list: a call flushes
when it finds the write cursor equal to `FILE_BUFF_LEN`, and the entry for that
flush is the number of bytes it transferred to the descriptor. -/
def Linux.flushSizes (fuel : Nat) : List Int → SoFile → Os → Option (List Nat)
  | [], _, _ => some []
  | c :: cs, s, os =>
    match Linux.so_fputc fuel c s os with
    | none => none
    | some r =>
      match Linux.flushSizes fuel cs r.stream r.os with
      | none => none
      | some l =>
        if s.cursor_buf_write = (FILE_BUFF_LEN : Int) then
          some (((handed r.os.log).length - (handed os.log).length) :: l)
        else some l

/-- The implicit flushes performed by consecutive calls of `so_fputc` of
`src/so_stdio.c`, as `Linux.flushSizes`. -/
def Win.flushSizes (fuel : Nat) : List Int → Win.SoFile → Os → Option (List Nat)
  | [], _, _ => some []
  | c :: cs, s, os =>
    match Win.so_fputc fuel c s os with
    | none => none
    | some r =>
      match Win.flushSizes fuel cs r.stream r.os with
      | none => none
      | some l =>
        if s.cursor_buf_write = (FILE_BUFF_LEN : Int) then
          some (((handed r.os.log).length - (handed os.log).length) :: l)
        else some l

/-- How the caller has been using a stream: nothing to undo (`idle`, after
opening, a seek, or a flush of written bytes), reading, or writing. -/
inductive Linux.Dir where
  | idle
  | reading
  | writing
  deriving DecidableEq

/-- The use of the stream after an operation, or `none` when the operation
switches direction without the call the C standard asks for in between: a
read right after a write (no `so_fflush` or `so_fseek` since), or a write right
after a read (no `so_fseek` since). -/
def Linux.Dir.next (d : Linux.Dir) : Linux.Op → Option Linux.Dir
  | Linux.Op.fgetc => if d = Linux.Dir.writing then none else some Linux.Dir.reading
  | Linux.Op.fread _ _ _ => if d = Linux.Dir.writing then none else some Linux.Dir.reading
  | Linux.Op.fputc _ => if d = Linux.Dir.reading then none else some Linux.Dir.writing
  | Linux.Op.fwrite _ _ _ => if d = Linux.Dir.reading then none else some Linux.Dir.writing
  | Linux.Op.fflush => some (if d = Linux.Dir.writing then Linux.Dir.idle else d)
  | Linux.Op.fseek _ _ => some Linux.Dir.idle
  | Linux.Op.ftell => some d
  | Linux.Op.feof => some d
  | Linux.Op.ferror => some d
  | Linux.Op.fileno => some d

/-- A sequence of operations in which every switch of direction goes through
`so_fseek` (or, from writing to reading, through `so_fflush`). -/
def Linux.disciplined : Linux.Dir → List Linux.Op → Bool
  | _, [] => true
  | d, op :: ops =>
    match d.next op with
    | none => false
    | some d1 => Linux.disciplined d1 ops

/-- What the record looks like in each use of the stream. -/
def Linux.DirInv : Linux.Dir → SoFile → Prop
  | Linux.Dir.idle, s => s.cursor_buf_write = 0 ∧ ¬ s.cursor_buf_read < s.buffer_size
  | Linux.Dir.reading, s => s.cursor_buf_write = 0 ∧ s.was_written = 0
  | Linux.Dir.writing, s => ¬ s.cursor_buf_read < s.buffer_size ∧ s.was_written ≠ 0

/-! ## Concrete devices and streams used as examples -/

/-- An existing empty file, not opened yet, on a device where every call
succeeds; `write` transfers at most two bytes per call and `read` delivers at
most three. -/
def healthyOs : Os :=
  { present := true, data := [], off := 0, readable := false, writable := false
    append := false, seekable := true, openOk := true, newfd := 3, callocOk := true
    closeOk := true, rsched := fun _ => some 2, nread := 0, wsched := fun _ => some 2
    nwrite := 0, log := [] }

/-- The same file on a device where every `write` fails. -/
def brokenOs : Os :=
  { healthyOs with wsched := fun _ => none }

/-- The same file on a device that accepts ten bytes in its first `write` and
fails every later one. -/
def tenByteOs : Os :=
  { healthyOs with wsched := fun i => if i = 0 then some 10 else none }

/-- An existing file holding the eight bytes `ABCDEFGH`, on a device where
every call succeeds and transfers all it is asked for. -/
def lettersOs : Os :=
  { healthyOs with
    data := [65, 66, 67, 68, 69, 70, 71, 72]
    rsched := fun _ => some 4095, wsched := fun _ => some 4096 }

/-- The record `so_fopen` of `src/Linux/so_stdio.c` returns on these devices. -/
def Linux.fresh : SoFile :=
  { SoFile.zero with fd := 3 }

/-- The healthy device after `so_fopen("f", "w+")` of `src/Linux/so_stdio.c`. -/
def Linux.openedOs : Os :=
  (Linux.so_fopen "f" "w+" healthyOs).2

/-- The device whose writes fail after `so_fopen("f", "w+")`. -/
def Linux.openedBrokenOs : Os :=
  (Linux.so_fopen "f" "w+" brokenOs).2

/-- The device that accepts ten bytes after `so_fopen("f", "w+")`. -/
def Linux.openedTenByteOs : Os :=
  (Linux.so_fopen "f" "w+" tenByteOs).2

/-- The device holding `ABCDEFGH` after `so_fopen("f", "r+")`. -/
def Linux.openedLettersOs : Os :=
  (Linux.so_fopen "f" "r+" lettersOs).2

/-- The first `so_fgetc` on the stream just opened `w+` on the empty file: it
meets the end of the file. -/
def Linux.atEof : Ret Int :=
  Linux.so_fgetc Linux.fresh Linux.openedOs

/-- The first `so_fgetc` on the stream just opened `r+` on `ABCDEFGH`. -/
def Linux.afterReadA : Ret Int :=
  Linux.so_fgetc Linux.fresh Linux.openedLettersOs

/-- A stream of `src/Linux/so_stdio.c` after 4086 calls `so_fputc('A', stream)`:
room for ten more bytes is left in the buffer. -/
def Linux.nearlyFull : SoFile :=
  { SoFile.zero with
    fd := 3, was_written := 1, cursor_fd := 4086, cursor_buf_write := 4086
    buffer := fun i => if i < 4086 then 65 else 0 }

/-- The same stream when a `so_fgetc` on the empty file came before the 4086
writes: the end-of-file flag is set. -/
def Linux.nearlyFullAtEof : SoFile :=
  { Linux.nearlyFull with feof := 1 }

/-- A stream of `src/Linux/so_stdio.c` after `so_fputc` of `A`, `B` and `C`. -/
def Linux.threePending : SoFile :=
  { SoFile.zero with
    fd := 3, was_written := 1, cursor_fd := 3, cursor_buf_write := 3
    buffer := fun i => if i = 0 then 65 else if i = 1 then 66 else if i = 2 then 67 else 0 }

/-- The record `so_fopen` of `src/so_stdio.c` returns on these devices. -/
def Win.fresh : Win.SoFile :=
  { Win.SoFile.zero with fd := 3 }

/-- The healthy device after `so_fopen("f", "w+")` of `src/so_stdio.c`. -/
def Win.openedOs : Os :=
  (Win.so_fopen "f" "w+" healthyOs).2

/-- The device whose writes fail after `so_fopen("f", "w+")` of `src/so_stdio.c`. -/
def Win.openedBrokenOs : Os :=
  (Win.so_fopen "f" "w+" brokenOs).2

/-- The device that accepts ten bytes after `so_fopen("f", "w+")` of
`src/so_stdio.c`. -/
def Win.openedTenByteOs : Os :=
  (Win.so_fopen "f" "w+" tenByteOs).2

/-- A stream of `src/so_stdio.c` after 4086 calls `so_fputc('A', stream)`. -/
def Win.nearlyFull : Win.SoFile :=
  { Win.SoFile.zero with
    fd := 3, was_written := 1, cursor_fd := 4086, cursor_buf_write := 4086
    buffer := fun i => if i < 4086 then 65 else 0 }

/-- A stream of `src/so_stdio.c` after `so_fputc` of `A`, `B` and `C`. -/
def Win.threePending : Win.SoFile :=
  { Win.SoFile.zero with
    fd := 3, was_written := 1, cursor_fd := 3, cursor_buf_write := 3
    buffer := fun i => if i = 0 then 65 else if i = 1 then 66 else if i = 2 then 67 else 0 }

/-- A source block of bytes `B`. -/
def blockOfB : Nat → Byte := fun _ => 66

/-- A source block of bytes `0xFF`. -/
def blockOfFF : Nat → Byte := fun _ => 255

/-- Both flags that are set in `s` are set in `s1`. -/
def Linux.FlagsKept (s s1 : SoFile) : Prop :=
  (s.feof ≠ 0 → s1.feof ≠ 0) ∧ (s.ferror ≠ 0 → s1.ferror ≠ 0)

/-- The first `so_fgetc` of `src/so_stdio.c` on the stream just opened `w+` on
the empty file: it meets the end of the file. -/
def Win.atEof : Win.Ret Int :=
  Win.so_fgetc Win.fresh Win.openedOs

/-- Whether a logged call is a `close`. -/
def Call.isClose : Call → Bool
  | Call.close _ _ => true
  | _ => false

/-- Whether a logged call is a `free`. -/
def Call.isFree : Call → Bool
  | Call.free => true
  | _ => false

/-- Number of `close` calls in a log. -/
def closeCalls (log : List Call) : Nat := log.countP Call.isClose

/-- Number of `free` calls in a log. -/
def freeCalls (log : List Call) : Nat := log.countP Call.isFree

/-- The healthy device with an allocator that has no memory left. -/
def noMemoryOs : Os :=
  { healthyOs with callocOk := false }

/-- The healthy device after `so_fopen("f", "w+")`, when the next `close` is
going to fail. -/
def stuckCloseOs : Os :=
  { (Linux.so_fopen "f" "w+" healthyOs).2 with closeOk := false }

/-- Whether a logged call is a `waitpid`. -/
def Call.isWait : Call → Bool
  | Call.waitpid _ _ _ => true
  | _ => false

/-- Number of `waitpid` calls in a log. -/
def waitCalls (log : List Call) : Nat := log.countP Call.isWait

/-- Process calls that succeed: the pipe is the descriptors 3 and 4, the child
is process 100 and it ends with status 0. -/
def healthyProcs : Procs :=
  { pipeOk := true, pipeRead := 3, pipeWrite := 4, forkRet := 100
    waitRet := fun pid => pid, waitStatus := fun _ => 0 }

/-- The same, except that every `waitpid` fails. -/
def lostChildProcs : Procs :=
  { healthyProcs with waitRet := fun _ => -1 }

/-- The record `so_popen("true", "r")` returns with these process calls. -/
def Linux.piped : SoFile :=
  { SoFile.zero with fd := 3, pid := 100 }

/-- The healthy device after `so_popen("true", "r")`. -/
def Linux.pipedOs : Os :=
  (sys_close ((sys_calloc (sys_fork (sys_pipe healthyOs healthyProcs).os healthyProcs).os).2.pipeEnd
    true) 4).os

/-- The device holding `ABCDEFGH` after `so_fopen("f", "r+")` of
`src/so_stdio.c`. -/
def Win.openedLettersOs : Os :=
  (Win.so_fopen "f" "r+" lettersOs).2

/-- The first `so_fgetc` of `src/so_stdio.c` on the stream just opened `r+` on
`ABCDEFGH`. -/
def Win.afterReadA : Win.Ret Int :=
  Win.so_fgetc Win.fresh Win.openedLettersOs

/-- An empty file on a device where every call succeeds and `write` transfers
at most 1000 bytes per call. -/
def thousandOs : Os :=
  { healthyOs with wsched := fun _ => some 1000 }

/-- A stream of `src/Linux/so_stdio.c` after `n` calls `so_fputc('A', stream)`
on the freshly opened stream, for `n` between 1 and 4096. -/
def Linux.filled (n : Nat) : SoFile :=
  { SoFile.zero with
    fd := 3, was_written := 1, cursor_fd := (n : Int), cursor_buf_write := (n : Int)
    buffer := fun i => if i < n then 65 else 0 }

/-- A stream of `src/so_stdio.c` after `n` calls `so_fputc('A', stream)` on the
freshly opened stream, for `n` between 1 and 4096. -/
def Win.filled (n : Nat) : Win.SoFile :=
  { Win.SoFile.zero with
    fd := 3, was_written := 1, cursor_fd := (n : Int), cursor_buf_write := (n : Int)
    buffer := fun i => if i < n then 65 else 0 }

/-! # Theorems -/

/-! ## Arithmetic and memory lemmas -/

theorem wrap32_of_range (x : Int) (h1 : -(2 ^ 31) ≤ x) (h2 : x < 2 ^ 31) : wrap32 x = x := by
  unfold wrap32
  omega

theorem byteOfInt_val (b : Byte) : byteOfInt (b.val : Int) = b := by
  apply Fin.ext
  simp only [byteOfInt]
  have := b.isLt
  omega

theorem memRange_length (mem : Nat → Byte) (a n : Nat) : (memRange mem a n).length = n := by
  simp [memRange]

theorem memRange_zero (mem : Nat → Byte) (a : Nat) : memRange mem a 0 = [] := by
  simp [memRange]

theorem memRange_add (mem : Nat → Byte) (a m n : Nat) :
    memRange mem a (m + n) = memRange mem a m ++ memRange mem (a + m) n := by
  induction n with
  | zero => simp [memRange]
  | succ n ih =>
    have e : m + (n + 1) = (m + n) + 1 := by omega
    rw [e]
    simp only [memRange, List.range_succ, List.map_append, List.map_cons, List.map_nil] at ih ⊢
    rw [ih]
    simp [Nat.add_assoc]

theorem memRange_succ_last (mem : Nat → Byte) (a n : Nat) :
    memRange mem a (n + 1) = memRange mem a n ++ [mem (a + n)] := by
  rw [memRange_add]
  simp [memRange, List.range_succ]

theorem memRange_take (mem : Nat → Byte) (a n k : Nat) (h : k ≤ n) :
    (memRange mem a n).take k = memRange mem a k := by
  obtain ⟨d, rfl⟩ := Nat.exists_eq_add_of_le h
  rw [memRange_add, List.take_left' (memRange_length mem a k)]

theorem memRange_congr (f g : Nat → Byte) (a n : Nat)
    (h : ∀ i, a ≤ i → i < a + n → f i = g i) :
    memRange f a n = memRange g a n := by
  unfold memRange
  apply List.map_congr_left
  intro i hi
  rw [List.mem_range] at hi
  exact h (a + i) (by omega) (by omega)

/-! ## Lemmas on the log of calls -/

theorem handed_append (l1 l2 : List Call) : handed (l1 ++ l2) = handed l1 ++ handed l2 := by
  induction l1 with
  | nil => simp [handed]
  | cons c cs ih => simp [handed, ih]

theorem handed_nil : handed [] = [] := rfl

theorem handed_single (c : Call) : handed [c] = c.transferred := by
  simp [handed]

theorem readCalls_append (l1 l2 : List Call) :
    readCalls (l1 ++ l2) = readCalls l1 + readCalls l2 := by
  simp [readCalls, List.countP_append]

theorem failedWrites_append (l1 l2 : List Call) :
    failedWrites (l1 ++ l2) = failedWrites l1 + failedWrites l2 := by
  simp [failedWrites, List.countP_append]

theorem lseekCalls_append (l1 l2 : List Call) :
    lseekCalls (l1 ++ l2) = lseekCalls l1 + lseekCalls l2 := by
  simp [lseekCalls, List.countP_append]

theorem writeCalls_append (l1 l2 : List Call) :
    writeCalls (l1 ++ l2) = writeCalls l1 + writeCalls l2 := by
  simp [writeCalls, List.countP_append]

theorem readCalls_of_writes (l : List Call) (h : ∀ c ∈ l, c.isWrite = true) :
    readCalls l = 0 := by
  unfold readCalls
  rw [List.countP_eq_zero]
  intro c hc
  have := h c hc
  cases c <;> simp_all [Call.isWrite, Call.isRead]

theorem lseekCalls_of_writes (l : List Call) (h : ∀ c ∈ l, c.isWrite = true) :
    lseekCalls l = 0 := by
  unfold lseekCalls
  rw [List.countP_eq_zero]
  intro c hc
  have := h c hc
  cases c <;> simp_all [Call.isWrite, Call.isLseek]

theorem failedWrites_write_nat (fd : Int) (offered : List Byte) (k : Nat) :
    failedWrites [Call.write fd offered (k : Int)] = 0 := by
  have : ((k : Int) == -1) = false := by
    simp only [beq_eq_false_iff_ne, ne_eq]; omega
  simp only [failedWrites, Call.isFailedWrite, List.countP_cons, List.countP_nil, this]
  rfl

theorem failedWrites_write_fail (fd : Int) (offered : List Byte) :
    failedWrites [Call.write fd offered (-1)] = 1 := by
  simp [failedWrites, Call.isFailedWrite]

/-! ## The drain loop -/

theorem Os.wrote_wrote (os : Os) (d1 d2 : List Byte) (o1 o2 n1 n2 : Nat) (l1 l2 : List Call) :
    (os.wrote d1 o1 n1 l1).wrote d2 o2 n2 l2 = os.wrote d2 o2 (n1 + n2) (l1 ++ l2) := by
  simp [Os.wrote, Nat.add_assoc]

theorem Os.wrote_nil (os : Os) : os.wrote os.data os.off 0 [] = os := by
  simp [Os.wrote]

theorem pwrite_end (d bs : List Byte) : pwrite d d.length bs = d ++ bs := by
  simp [pwrite]

theorem sys_write_fail (os : Os) (fd : Int) (offered : List Byte)
    (h : (if os.writable then os.wsched os.nwrite else none) = none) :
    sys_write os fd offered
      = { ret := -1, os := os.wrote os.data os.off 1 [Call.write fd offered (-1)] } := by
  simp only [sys_write, h, Os.wrote]

theorem sys_write_ok (os : Os) (fd : Int) (offered : List Byte) (r : Nat)
    (h : (if os.writable then os.wsched os.nwrite else none) = some r) :
    sys_write os fd offered
      = { ret := (min r offered.length : Nat)
          os := os.wrote
            (pwrite os.data (if os.append then os.data.length else os.off)
              (offered.take (min r offered.length)))
            ((if os.append then os.data.length else os.off) + min r offered.length) 1
            [Call.write fd offered (min r offered.length : Nat)] } := by
  simp only [sys_write, h, Os.wrote]

theorem drain_shape (fd : Int) (buf : Nat → Byte) (cw : Int) :
    ∀ (fuel : Nat) (written : Int) (os : Os) (ok : Bool) (os' : Os), 0 ≤ written →
      drain fd buf cw fuel written os = some (ok, os') →
      ∃ D O n L, os' = os.wrote D O n L ∧ (∀ c ∈ L, c.isWrite = true) ∧
        (ok = true → failedWrites L = 0 ∧
          handed L = memRange buf written.toNat (cw - written).toNat ∧
          (os.off = os.data.length →
            D = os.data ++ memRange buf written.toNat (cw - written).toNat ∧ O = D.length)) ∧
        (ok = false → failedWrites L = 1) := by
  intro fuel
  induction fuel with
  | zero =>
    intro written os ok os' h0 h
    simp only [drain] at h
    split at h
    · simp at h
    · rename_i hlt
      simp only [Option.some.injEq, Prod.mk.injEq] at h
      obtain ⟨rfl, rfl⟩ := h
      refine ⟨os.data, os.off, 0, [], (Os.wrote_nil os).symm, by simp, ?_, by simp⟩
      intro _
      have e : (cw - written).toNat = 0 := by omega
      simp [e, memRange_zero, failedWrites, handed]
  | succ fuel ih =>
    intro written os ok os' h0 h
    simp only [drain] at h
    split at h
    · rename_i hlt
      cases hw : (if os.writable then os.wsched os.nwrite else none) with
      | none =>
        rw [sys_write_fail os fd _ hw] at h
        simp only [↓reduceIte, Option.some.injEq, Prod.mk.injEq] at h
        obtain ⟨rfl, rfl⟩ := h
        refine ⟨_, _, _, _, rfl, by simp [Call.isWrite], by simp, ?_⟩
        intro _
        exact failedWrites_write_fail _ _
      | some r =>
        rw [sys_write_ok os fd _ r hw] at h
        simp only [memRange_length] at h
        have hk : ((min r (cw - written).toNat : Nat) : Int) ≠ -1 := by omega
        simp only [hk, ↓reduceIte] at h
        obtain ⟨D, O, n, L, hos, hL, hok, hfail⟩ := ih _ _ ok os' (by omega) h
        rw [Os.wrote_wrote] at hos
        refine ⟨D, O, 1 + n, _, hos, ?_, ?_, ?_⟩
        · intro c hc
          simp only [List.singleton_append, List.mem_cons] at hc
          rcases hc with rfl | hc
          · rfl
          · exact hL c hc
        · intro hT
          obtain ⟨h1, h2, h3⟩ := hok hT
          set m := (cw - written).toNat with hm
          set k := min r m with hkdef
          have hkm : k ≤ m := Nat.min_le_right _ _
          have e1 : (written + (k : Int)).toNat = written.toNat + k := by omega
          have e2 : (cw - (written + (k : Int))).toNat = m - k := by omega
          have esplit : memRange buf written.toNat m
              = memRange buf written.toNat k ++ memRange buf (written.toNat + k) (m - k) := by
            rw [← memRange_add]; congr 1; omega
          refine ⟨?_, ?_, ?_⟩
          · rw [failedWrites_append, h1, failedWrites_write_nat]
          · rw [handed_append, h2, e1, e2, handed_single]
            simp only [Call.transferred, Int.toNat_ofNat]
            rw [memRange_take _ _ _ _ hkm, esplit]
          · intro hoff
            simp only [Os.wrote] at h3
            have hpos : (if os.append = true then os.data.length else os.off) = os.data.length := by
              split <;> simp [hoff]
            rw [hpos, pwrite_end, memRange_take _ _ _ _ hkm] at h3
            have := h3 (by simp [memRange_length])
            rw [e1, e2] at this
            obtain ⟨hD, hO⟩ := this
            refine ⟨?_, hO⟩
            rw [hD, esplit, List.append_assoc]
        · intro hF
          rw [failedWrites_append, hfail hF, failedWrites_write_nat]
    · rename_i hlt
      simp only [Option.some.injEq, Prod.mk.injEq] at h
      obtain ⟨rfl, rfl⟩ := h
      refine ⟨os.data, os.off, 0, [], (Os.wrote_nil os).symm, by simp, ?_, by simp⟩
      intro _
      have e : (cw - written).toNat = 0 := by omega
      simp [e, memRange_zero, failedWrites, handed]

theorem drain_terminates (fd : Int) (buf : Nat → Byte) (cw : Int) :
    ∀ (fuel : Nat) (written : Int) (os : Os), WritesProgress os →
      (cw - written).toNat ≤ fuel → ∃ r, drain fd buf cw fuel written os = some r := by
  intro fuel
  induction fuel with
  | zero =>
    intro written os _ hf
    have : ¬ written < cw := by omega
    exact ⟨(true, os), by simp [drain, this]⟩
  | succ fuel ih =>
    intro written os hp hf
    simp only [drain]
    split
    · rename_i hlt
      cases hw : (if os.writable then os.wsched os.nwrite else none) with
      | none =>
        rw [sys_write_fail os fd _ hw]
        simp only [↓reduceIte]
        exact ⟨_, rfl⟩
      | some r =>
        rw [sys_write_ok os fd _ r hw]
        simp only [memRange_length]
        have hr : r ≠ 0 := by
          intro h0
          subst h0
          split at hw
          · exact hp _ hw
          · simp at hw
        have hk : ((min r (cw - written).toNat : Nat) : Int) ≠ -1 := by omega
        simp only [hk, ↓reduceIte]
        apply ih
        · intro i
          exact hp i
        · omega
    · exact ⟨_, rfl⟩

theorem Linux.so_fflush_loop_eq_drain (s : SoFile) :
    ∀ (fuel : Nat) (written : Int) (os : Os),
      Linux.so_fflush_loop s fuel written os
        = drain s.fd s.buffer s.cursor_buf_write fuel written os := by
  intro fuel
  induction fuel with
  | zero => intro written os; rfl
  | succ fuel ih =>
    intro written os
    simp only [Linux.so_fflush_loop, drain, ih]

theorem Win.so_fflush_loop_eq_drain_toplevel (s : Win.SoFile) :
    ∀ (fuel : Nat) (written : Int) (os : Os),
      Win.so_fflush_loop s fuel written os
        = drain s.fd s.buffer s.cursor_buf_write fuel written os := by
  intro fuel
  induction fuel with
  | zero => intro written os; rfl
  | succ fuel ih =>
    intro written os
    simp only [Win.so_fflush_loop, drain, ih]

/-- What a returning `so_fflush` does (Linux): either a `write` failed and the
record is untouched, or every pending byte was transferred and the buffer is
reset. -/
theorem Linux.so_fflush_cases (fuel : Nat) (s : SoFile) (os : Os) (r : Ret Int)
    (h : Linux.so_fflush fuel s os = some r) :
    ∃ D O n L, r.os = os.wrote D O n L ∧ (∀ c ∈ L, c.isWrite = true) ∧
      ((r.val = SO_EOF ∧ r.stream = s ∧ failedWrites L = 1) ∨
       (r.val = 0 ∧
        r.stream = { s with buffer := memset0 s.buffer, cursor_buf_write := 0 } ∧
        failedWrites L = 0 ∧ handed L = pending s ∧
        (os.off = os.data.length → D = os.data ++ pending s ∧ O = D.length))) := by
  unfold Linux.so_fflush at h
  rw [Linux.so_fflush_loop_eq_drain] at h
  cases hd : drain s.fd s.buffer s.cursor_buf_write fuel 0 os with
  | none => rw [hd] at h; simp at h
  | some res =>
    obtain ⟨ok, os1⟩ := res
    obtain ⟨D, O, n, L, hos, hL, hok, hfail⟩ := drain_shape _ _ _ _ _ _ _ _ (le_refl 0) hd
    rw [hd] at h
    cases ok with
    | false =>
      simp only [Option.some.injEq] at h
      subst h
      exact ⟨D, O, n, L, hos, hL, Or.inl ⟨rfl, rfl, hfail rfl⟩⟩
    | true =>
      simp only [Option.some.injEq] at h
      subst h
      obtain ⟨h1, h2, h3⟩ := hok rfl
      simp only [Int.toNat_zero, sub_zero] at h2 h3
      exact ⟨D, O, n, L, hos, hL, Or.inr ⟨rfl, rfl, h1, h2, h3⟩⟩

/-- What a returning `so_fflush` does (top-level variant). -/
theorem Win.so_fflush_cases_toplevel (fuel : Nat) (s : Win.SoFile) (os : Os) (r : Win.Ret Int)
    (h : Win.so_fflush fuel s os = some r) :
    ∃ D O n L, r.os = os.wrote D O n L ∧ (∀ c ∈ L, c.isWrite = true) ∧
      ((r.val = SO_EOF ∧ r.stream = { s with ferror := 1 } ∧ failedWrites L = 1) ∨
       (r.val = 0 ∧
        r.stream = { s with
          buffer := memset0 s.buffer, cursor_buf_write := 0, buffer_size := 0 } ∧
        failedWrites L = 0 ∧ handed L = Win.pending s ∧
        (os.off = os.data.length → D = os.data ++ Win.pending s ∧ O = D.length))) := by
  unfold Win.so_fflush at h
  rw [Win.so_fflush_loop_eq_drain_toplevel] at h
  cases hd : drain s.fd s.buffer s.cursor_buf_write fuel 0 os with
  | none => rw [hd] at h; simp at h
  | some res =>
    obtain ⟨ok, os1⟩ := res
    obtain ⟨D, O, n, L, hos, hL, hok, hfail⟩ := drain_shape _ _ _ _ _ _ _ _ (le_refl 0) hd
    rw [hd] at h
    cases ok with
    | false =>
      simp only [Option.some.injEq] at h
      subst h
      exact ⟨D, O, n, L, hos, hL, Or.inl ⟨rfl, rfl, hfail rfl⟩⟩
    | true =>
      simp only [Option.some.injEq] at h
      subst h
      obtain ⟨h1, h2, h3⟩ := hok rfl
      simp only [Int.toNat_zero, sub_zero] at h2 h3
      exact ⟨D, O, n, L, hos, hL, Or.inr ⟨rfl, rfl, h1, h2, h3⟩⟩

theorem Linux.so_fflush_terminates (fuel : Nat) (s : SoFile) (os : Os)
    (hp : WritesProgress os) (hf : s.cursor_buf_write.toNat ≤ fuel) :
    ∃ r, Linux.so_fflush fuel s os = some r := by
  obtain ⟨⟨ok, os1⟩, hd⟩ :=
    drain_terminates s.fd s.buffer s.cursor_buf_write fuel 0 os hp (by simpa using hf)
  unfold Linux.so_fflush
  rw [Linux.so_fflush_loop_eq_drain, hd]
  cases ok <;> exact ⟨_, rfl⟩

theorem Win.so_fflush_terminates_toplevel (fuel : Nat) (s : Win.SoFile) (os : Os)
    (hp : WritesProgress os) (hf : s.cursor_buf_write.toNat ≤ fuel) :
    ∃ r, Win.so_fflush fuel s os = some r := by
  obtain ⟨⟨ok, os1⟩, hd⟩ :=
    drain_terminates s.fd s.buffer s.cursor_buf_write fuel 0 os hp (by simpa using hf)
  unfold Win.so_fflush
  rw [Win.so_fflush_loop_eq_drain_toplevel, hd]
  cases ok <;> exact ⟨_, rfl⟩

theorem memset0_zero (buf : Nat → Byte) (i : Nat) (h : i < FILE_BUFF_LEN) :
    memset0 buf i = 0 := by
  simp [memset0, h]

theorem Os.wrote_log (os : Os) (D : List Byte) (O n : Nat) (L : List Call) :
    (os.wrote D O n L).log = os.log ++ L := rfl

/-! ## `so_fputc` -/

/-- The three ways a returning `so_fputc` runs (Linux): the implicit flush
failed; the implicit flush succeeded and the byte was stored in the emptied
buffer; no flush was needed and the byte was stored. -/
theorem Linux.so_fputc_cases (fuel : Nat) (c : Int) (s : SoFile) (os : Os) (r : Ret Int)
    (h : Linux.so_fputc fuel c s os = some r) :
    (∃ D O n L, s.cursor_buf_write = (FILE_BUFF_LEN : Int) ∧
      r = { val := SO_EOF, stream := { s with was_written := 1, ferror := 1 }
            os := os.wrote D O n L } ∧
      (∀ c ∈ L, c.isWrite = true) ∧ failedWrites L = 1) ∨
    (∃ D O n L, s.cursor_buf_write = (FILE_BUFF_LEN : Int) ∧
      r = Linux.store c
            { s with was_written := 1, buffer := memset0 s.buffer, cursor_buf_write := 0 }
            (os.wrote D O n L) ∧
      (∀ c ∈ L, c.isWrite = true) ∧ failedWrites L = 0 ∧ handed L = pending s ∧
      (os.off = os.data.length → D = os.data ++ pending s ∧ O = D.length)) ∨
    (s.cursor_buf_write ≠ (FILE_BUFF_LEN : Int) ∧
      r = Linux.store c { s with was_written := 1 } os) := by
  unfold Linux.so_fputc at h
  simp only at h
  split at h
  · rename_i hfull
    cases hfl : Linux.so_fflush fuel { s with was_written := 1 } os with
    | none => rw [hfl] at h; simp at h
    | some fr =>
      rw [hfl] at h
      obtain ⟨D, O, n, L, hos, hL, hcase⟩ := Linux.so_fflush_cases fuel _ os fr hfl
      rcases hcase with ⟨hv, hs, hF⟩ | ⟨hv, hs, hF, hh, hd⟩
      · left
        simp only [hv, ↓reduceIte, Option.some.injEq] at h
        refine ⟨D, O, n, L, hfull, ?_, hL, hF⟩
        rw [← h, hs, hos]
      · right; left
        have hne : fr.val ≠ SO_EOF := by rw [hv]; decide
        simp only [hne, ↓reduceIte, Option.some.injEq] at h
        refine ⟨D, O, n, L, hfull, ?_, hL, hF, hh, hd⟩
        rw [← h, hs, hos]
  · rename_i hnot
    right; right
    simp only [Option.some.injEq] at h
    exact ⟨hnot, h.symm⟩

/-- The three ways a returning `so_fputc` runs (top-level variant). -/
theorem Win.so_fputc_cases_toplevel (fuel : Nat) (c : Int) (s : Win.SoFile) (os : Os)
    (r : Win.Ret Int)
    (h : Win.so_fputc fuel c s os = some r) :
    (∃ D O n L, s.cursor_buf_write = (FILE_BUFF_LEN : Int) ∧
      r = { val := SO_EOF, stream := { s with was_written := 1, ferror := 1 }
            os := os.wrote D O n L } ∧
      (∀ c ∈ L, c.isWrite = true) ∧ failedWrites L = 1) ∨
    (∃ D O n L, s.cursor_buf_write = (FILE_BUFF_LEN : Int) ∧
      r = Win.store c
            { s with
              was_written := 1, buffer := memset0 s.buffer, cursor_buf_write := 0
              buffer_size := 0 }
            (os.wrote D O n L) ∧
      (∀ c ∈ L, c.isWrite = true) ∧ failedWrites L = 0 ∧ handed L = Win.pending s ∧
      (os.off = os.data.length → D = os.data ++ Win.pending s ∧ O = D.length)) ∨
    (s.cursor_buf_write ≠ (FILE_BUFF_LEN : Int) ∧
      r = Win.store c { s with was_written := 1 } os) := by
  unfold Win.so_fputc at h
  simp only at h
  split at h
  · rename_i hfull
    cases hfl : Win.so_fflush fuel { s with was_written := 1 } os with
    | none => rw [hfl] at h; simp at h
    | some fr =>
      rw [hfl] at h
      obtain ⟨D, O, n, L, hos, hL, hcase⟩ := Win.so_fflush_cases_toplevel fuel _ os fr hfl
      rcases hcase with ⟨hv, hs, hF⟩ | ⟨hv, hs, hF, hh, hd⟩
      · left
        simp only [hv, ↓reduceIte, Option.some.injEq] at h
        refine ⟨D, O, n, L, hfull, ?_, hL, hF⟩
        rw [← h, hs, hos]
      · right; left
        have hne : fr.val ≠ SO_EOF := by rw [hv]; decide
        simp only [hne, ↓reduceIte, Option.some.injEq] at h
        refine ⟨D, O, n, L, hfull, ?_, hL, hF, hh, hd⟩
        rw [← h, hs, hos]
  · rename_i hnot
    right; right
    simp only [Option.some.injEq] at h
    exact ⟨hnot, h.symm⟩

theorem Linux.so_fputc_terminates (fuel : Nat) (c : Int) (s : SoFile) (os : Os)
    (hp : WritesProgress os) (hf : FILE_BUFF_LEN ≤ fuel) :
    ∃ r, Linux.so_fputc fuel c s os = some r := by
  unfold Linux.so_fputc
  simp only
  split
  · rename_i hfull
    obtain ⟨fr, hfr⟩ := Linux.so_fflush_terminates fuel { s with was_written := 1 } os hp
      (by simp only [hfull]; simpa using hf)
    rw [hfr]
    simp only
    split <;> exact ⟨_, rfl⟩
  · exact ⟨_, rfl⟩

theorem Win.so_fputc_terminates_toplevel (fuel : Nat) (c : Int) (s : Win.SoFile) (os : Os)
    (hp : WritesProgress os) (hf : FILE_BUFF_LEN ≤ fuel) :
    ∃ r, Win.so_fputc fuel c s os = some r := by
  unfold Win.so_fputc
  simp only
  split
  · rename_i hfull
    obtain ⟨fr, hfr⟩ := Win.so_fflush_terminates_toplevel fuel { s with was_written := 1 } os hp
      (by simp only [hfull]; simpa using hf)
    rw [hfr]
    simp only
    split <;> exact ⟨_, rfl⟩
  · exact ⟨_, rfl⟩

theorem memRange_update_last (buf : Nat → Byte) (n : Nat) (b : Byte) :
    memRange (Function.update buf n b) 0 (n + 1) = memRange buf 0 n ++ [b] := by
  rw [memRange_succ_last]
  congr 1
  · apply memRange_congr
    intro i _ hi
    rw [Function.update_noteq (by omega)]
  · show [Function.update buf n b (0 + n)] = [b]
    rw [Nat.zero_add, Function.update_same]

/-- Storing a byte under a write cursor that lies inside the buffer appends it
to the pending bytes. -/
theorem Linux.store_pending (c : Int) (s : SoFile) (os : Os)
    (h0 : 0 ≤ s.cursor_buf_write) (h1 : s.cursor_buf_write < (FILE_BUFF_LEN : Int)) :
    pending (Linux.store c s os).stream = pending s ++ [byteOfInt c] ∧
    (Linux.store c s os).stream.cursor_buf_write = s.cursor_buf_write + 1 := by
  have hF : (FILE_BUFF_LEN : Int) = 4096 := by simp [FILE_BUFF_LEN]
  have hw : wrap32 (s.cursor_buf_write + 1) = s.cursor_buf_write + 1 :=
    wrap32_of_range _ (by omega) (by omega)
  refine ⟨?_, hw⟩
  simp only [pending, Linux.store, hw]
  have e : (s.cursor_buf_write + 1).toNat = s.cursor_buf_write.toNat + 1 := by omega
  rw [e, memRange_update_last]

theorem Win.store_pending_toplevel (c : Int) (s : Win.SoFile) (os : Os)
    (h0 : 0 ≤ s.cursor_buf_write) (h1 : s.cursor_buf_write < (FILE_BUFF_LEN : Int)) :
    Win.pending (Win.store c s os).stream = Win.pending s ++ [byteOfInt c] ∧
    (Win.store c s os).stream.cursor_buf_write = s.cursor_buf_write + 1 := by
  have hF : (FILE_BUFF_LEN : Int) = 4096 := by simp [FILE_BUFF_LEN]
  have hw : wrap32 (s.cursor_buf_write + 1) = s.cursor_buf_write + 1 :=
    wrap32_of_range _ (by omega) (by omega)
  refine ⟨?_, hw⟩
  simp only [Win.pending, Win.store, hw]
  have e : (s.cursor_buf_write + 1).toNat = s.cursor_buf_write.toNat + 1 := by omega
  rw [e, memRange_update_last]

theorem Os.wrote_wsched (os : Os) (D : List Byte) (O n : Nat) (L : List Call) :
    (os.wrote D O n L).wsched = os.wsched := rfl

theorem WritesProgress.wrote {os : Os} (h : WritesProgress os) (D : List Byte) (O n : Nat)
    (L : List Call) : WritesProgress (os.wrote D O n L) := h

theorem handed_prefix_wrote (os : Os) (D : List Byte) (O n : Nat) (L : List Call) :
    handed os.log <+: handed (os.wrote D O n L).log := by
  rw [Os.wrote_log, handed_append]
  exact List.prefix_append _ _

/-- What a returning `so_fputc` does to a stream whose write cursor lies within
the buffer (Linux): either the implicit flush failed, and then the pending bytes
and the bytes transferred so far are kept; or the byte was stored and the
output grew by exactly that byte. -/
theorem Linux.so_fputc_effect (fuel : Nat) (c : Int) (s : SoFile) (os : Os) (r : Ret Int)
    (h0 : 0 ≤ s.cursor_buf_write) (h1 : s.cursor_buf_write ≤ (FILE_BUFF_LEN : Int))
    (h : Linux.so_fputc fuel c s os = some r) :
    r.os.wsched = os.wsched ∧
    ((r.val = SO_EOF ∧ failedWrites r.os.log = failedWrites os.log + 1 ∧
        r.stream = { s with was_written := 1, ferror := 1 } ∧
        handed os.log <+: handed r.os.log) ∨
     (r.val = c ∧ failedWrites r.os.log = failedWrites os.log ∧
        output r.stream r.os = output s os ++ [byteOfInt c] ∧
        0 ≤ r.stream.cursor_buf_write ∧ r.stream.cursor_buf_write ≤ (FILE_BUFF_LEN : Int) ∧
        r.stream.feof = s.feof)) := by
  have hF : (FILE_BUFF_LEN : Int) = 4096 := by simp [FILE_BUFF_LEN]
  rcases Linux.so_fputc_cases fuel c s os r h with
    ⟨D, O, n, L, _, hr, _, hfw⟩ | ⟨D, O, n, L, hfull, hr, _, hfw, hh, _⟩ | ⟨hne, hr⟩
  · subst hr
    refine ⟨rfl, Or.inl ⟨rfl, ?_, rfl, handed_prefix_wrote _ _ _ _ _⟩⟩
    simp only [Os.wrote_log, failedWrites_append, hfw]
  · subst hr
    refine ⟨rfl, Or.inr ⟨rfl, ?_, ?_, ?_, ?_, rfl⟩⟩
    · simp only [Linux.store, Os.wrote_log, failedWrites_append, hfw, Nat.add_zero]
    · obtain ⟨hp, _⟩ := Linux.store_pending c
        { s with was_written := 1, buffer := memset0 s.buffer, cursor_buf_write := 0 }
        (os.wrote D O n L) (le_refl 0) (by simp [FILE_BUFF_LEN])
      simp only [output, hp]
      simp only [Linux.store, Os.wrote_log, handed_append, hh, pending, Int.toNat_zero,
        memRange_zero, List.nil_append, List.append_assoc]
    · obtain ⟨_, hc⟩ := Linux.store_pending c
        { s with was_written := 1, buffer := memset0 s.buffer, cursor_buf_write := 0 }
        (os.wrote D O n L) (le_refl 0) (by simp [FILE_BUFF_LEN])
      rw [hc]; simp
    · obtain ⟨_, hc⟩ := Linux.store_pending c
        { s with was_written := 1, buffer := memset0 s.buffer, cursor_buf_write := 0 }
        (os.wrote D O n L) (le_refl 0) (by simp [FILE_BUFF_LEN])
      rw [hc]; simp [FILE_BUFF_LEN]
  · subst hr
    have hlt : s.cursor_buf_write < (FILE_BUFF_LEN : Int) := lt_of_le_of_ne h1 hne
    obtain ⟨hp, hc⟩ := Linux.store_pending c { s with was_written := 1 } os h0 hlt
    refine ⟨rfl, Or.inr ⟨rfl, rfl, ?_, ?_, ?_, rfl⟩⟩
    · simp only [output, hp]
      simp only [Linux.store, pending, List.append_assoc]
    · rw [hc]; simp only; omega
    · rw [hc]; simp only; omega

/-- What a returning `so_fputc` does to a stream whose write cursor lies within
the buffer (top-level variant). -/
theorem Win.so_fputc_effect_toplevel (fuel : Nat) (c : Int) (s : Win.SoFile) (os : Os)
    (r : Win.Ret Int)
    (h0 : 0 ≤ s.cursor_buf_write) (h1 : s.cursor_buf_write ≤ (FILE_BUFF_LEN : Int))
    (h : Win.so_fputc fuel c s os = some r) :
    r.os.wsched = os.wsched ∧
    ((r.val = SO_EOF ∧ failedWrites r.os.log = failedWrites os.log + 1 ∧
        r.stream = { s with was_written := 1, ferror := 1 } ∧
        handed os.log <+: handed r.os.log) ∨
     (r.val = ((byteOfInt c).val : Int) ∧ failedWrites r.os.log = failedWrites os.log ∧
        handed r.os.log ++ Win.pending r.stream
          = handed os.log ++ Win.pending s ++ [byteOfInt c] ∧
        0 ≤ r.stream.cursor_buf_write ∧ r.stream.cursor_buf_write ≤ (FILE_BUFF_LEN : Int) ∧
        r.stream.feof = s.feof)) := by
  have hF : (FILE_BUFF_LEN : Int) = 4096 := by simp [FILE_BUFF_LEN]
  rcases Win.so_fputc_cases_toplevel fuel c s os r h with
    ⟨D, O, n, L, _, hr, _, hfw⟩ | ⟨D, O, n, L, hfull, hr, _, hfw, hh, _⟩ | ⟨hne, hr⟩
  · subst hr
    refine ⟨rfl, Or.inl ⟨rfl, ?_, rfl, handed_prefix_wrote _ _ _ _ _⟩⟩
    simp only [Os.wrote_log, failedWrites_append, hfw]
  · subst hr
    refine ⟨rfl, Or.inr ⟨rfl, ?_, ?_, ?_, ?_, rfl⟩⟩
    · simp only [Win.store, Os.wrote_log, failedWrites_append, hfw, Nat.add_zero]
    · obtain ⟨hp, _⟩ := Win.store_pending_toplevel c
        { s with
          was_written := 1, buffer := memset0 s.buffer, cursor_buf_write := 0
          buffer_size := 0 }
        (os.wrote D O n L) (le_refl 0) (by simp [FILE_BUFF_LEN])
      simp only [hp]
      simp only [Win.store, Os.wrote_log, handed_append, hh, Win.pending, Int.toNat_zero,
        memRange_zero, List.nil_append, List.append_assoc]
    · obtain ⟨_, hc⟩ := Win.store_pending_toplevel c
        { s with
          was_written := 1, buffer := memset0 s.buffer, cursor_buf_write := 0
          buffer_size := 0 }
        (os.wrote D O n L) (le_refl 0) (by simp [FILE_BUFF_LEN])
      rw [hc]; simp
    · obtain ⟨_, hc⟩ := Win.store_pending_toplevel c
        { s with
          was_written := 1, buffer := memset0 s.buffer, cursor_buf_write := 0
          buffer_size := 0 }
        (os.wrote D O n L) (le_refl 0) (by simp [FILE_BUFF_LEN])
      rw [hc]; simp [FILE_BUFF_LEN]
  · subst hr
    have hlt : s.cursor_buf_write < (FILE_BUFF_LEN : Int) := lt_of_le_of_ne h1 hne
    obtain ⟨hp, hc⟩ := Win.store_pending_toplevel c { s with was_written := 1 } os h0 hlt
    refine ⟨rfl, Or.inr ⟨rfl, rfl, ?_, ?_, ?_, rfl⟩⟩
    · simp only [hp]
      simp only [Win.store, Win.pending, List.append_assoc]
    · rw [hc]; simp only; omega
    · rw [hc]; simp only; omega

theorem byteOfInt_loadInt (ptr : Nat → Byte) (i : Nat) : byteOfInt (loadInt ptr i) = ptr i := by
  apply Fin.ext
  simp only [byteOfInt, loadInt, wrap32]
  have := (ptr i).isLt
  omega

theorem byteOfInt_loadChar (ptr : Nat → Byte) (i : Nat) : byteOfInt (loadChar ptr i) = ptr i := by
  apply Fin.ext
  simp only [byteOfInt, loadChar]
  have := (ptr i).isLt
  split <;> omega

theorem memRange_succ_first (mem : Nat → Byte) (a n : Nat) :
    memRange mem a (n + 1) = mem a :: memRange mem (a + 1) n := by
  have e : n + 1 = 1 + n := by omega
  rw [e, memRange_add]
  simp [memRange, List.range_succ]

/-! ## `so_fwrite` -/

theorem map_range_succ_shift {α : Type} (f : Nat → α) (a n : Nat) :
    (List.range (n + 1)).map (fun i => f (a + i))
      = f a :: (List.range n).map (fun i => f (a + 1 + i)) := by
  rw [List.range_succ_eq_map, List.map_cons, List.map_map, Nat.add_zero]
  refine congrArg (List.cons (f a)) ?_
  apply List.map_congr_left
  intro i _
  show f (a + (i + 1)) = f (a + 1 + i)
  rw [show a + (i + 1) = a + 1 + i by omega]

theorem Linux.srcInts_succ (ptr : Nat → Byte) (a n : Nat) :
    Linux.srcInts ptr a (n + 1) = loadInt ptr a :: Linux.srcInts ptr (a + 1) n :=
  map_range_succ_shift (loadInt ptr) a n

theorem Win.srcChars_succ (ptr : Nat → Byte) (a n : Nat) :
    Win.srcChars ptr a (n + 1) = loadChar ptr a :: Win.srcChars ptr (a + 1) n :=
  map_range_succ_shift (loadChar ptr) a n

/-- The loop of `so_fwrite` (Linux) on a stream whose write cursor lies within
the buffer, when no source position holds the `int` `SO_EOF`: it returns, and
if no `write` failed meanwhile it stored every byte. -/
theorem Linux.so_fwrite_loop_spec (fuel : Nat) (ptr : Nat → Byte) (hf : FILE_BUFF_LEN ≤ fuel) :
    ∀ (todo bw : Nat) (s : SoFile) (os : Os),
      0 ≤ s.cursor_buf_write → s.cursor_buf_write ≤ (FILE_BUFF_LEN : Int) →
      WritesProgress os →
      (∀ i, bw ≤ i → i < bw + todo → loadInt ptr i ≠ SO_EOF) →
      ∃ r, Linux.so_fwrite_loop fuel ptr todo bw s os = some r ∧
        failedWrites os.log ≤ failedWrites r.os.log ∧
        (failedWrites r.os.log = failedWrites os.log →
          r.val = bw + todo ∧
          output r.stream r.os = output s os ++ memRange ptr bw todo ∧
          ∃ p, Linux.putInts fuel (Linux.srcInts ptr bw todo) s os = some p ∧
            p.stream = r.stream ∧ p.os = r.os) := by
  intro todo
  induction todo with
  | zero =>
    intro bw s os _ _ _ _
    refine ⟨_, rfl, le_refl _, fun _ => ⟨rfl, ?_, _, rfl, rfl, rfl⟩⟩
    simp [memRange_zero]
  | succ todo ih =>
    intro bw s os h0 h1 hp hslip
    obtain ⟨q, hq⟩ := Linux.so_fputc_terminates fuel (loadInt ptr bw) s os hp hf
    obtain ⟨hws, hcase⟩ := Linux.so_fputc_effect fuel _ s os q h0 h1 hq
    simp only [Linux.so_fwrite_loop, hq]
    rcases hcase with ⟨hv, hfw, _, _⟩ | ⟨hv, hfw, hout, hc0, hc1, _⟩
    · simp only [hv, ↓reduceIte]
      refine ⟨_, rfl, by simp only; omega, ?_⟩
      intro hcontra
      simp only at hcontra
      omega
    · have hne : q.val ≠ SO_EOF := by
        rw [hv]; exact hslip bw (le_refl _) (by omega)
      simp only [hne, ↓reduceIte]
      have hp' : WritesProgress q.os := by
        intro i; rw [hws]; exact hp i
      obtain ⟨r, hr, hmono, hgood⟩ := ih (bw + 1) q.stream q.os hc0 hc1 hp'
        (fun i hi1 hi2 => hslip i (by omega) (by omega))
      refine ⟨r, hr, by omega, ?_⟩
      intro hsame
      obtain ⟨hval, hout2, p, hp2, hps, hpo⟩ := hgood (by omega)
      refine ⟨by omega, ?_, ?_⟩
      · rw [hout2, hout, byteOfInt_loadInt, memRange_succ_first]
        simp
      · rw [Linux.srcInts_succ]
        simp only [Linux.putInts, hq, hp2]
        exact ⟨_, rfl, hps, hpo⟩

/-- If `so_fputc` accepts the first `k` source bytes and fails on the next one,
the loop of `so_fwrite` (Linux) stops there with `bytes_written` advanced by
`k`, in the state the failing `so_fputc` left. -/
theorem Linux.so_fwrite_loop_stops (fuel : Nat) (ptr : Nat → Byte) :
    ∀ (k todo bw : Nat) (s : SoFile) (os : Os) (r1 : Ret (List Int)) (r2 : Ret Int),
      k < todo →
      Linux.putInts fuel (Linux.srcInts ptr bw k) s os = some r1 →
      (∀ v ∈ r1.val, v ≠ SO_EOF) →
      Linux.so_fputc fuel (loadInt ptr (bw + k)) r1.stream r1.os = some r2 →
      r2.val = SO_EOF →
      Linux.so_fwrite_loop fuel ptr todo bw s os
        = some { val := bw + k, stream := r2.stream, os := r2.os } := by
  intro k
  induction k with
  | zero =>
    intro todo bw s os r1 r2 hk h1 _ h2 hv
    obtain ⟨t, rfl⟩ : ∃ t, todo = t + 1 := ⟨todo - 1, by omega⟩
    simp only [Linux.srcInts, List.range_zero, List.map_nil, Linux.putInts,
      Option.some.injEq] at h1
    subst h1
    simp only [Nat.add_zero] at h2
    simp only [Linux.so_fwrite_loop, h2, hv, ↓reduceIte, Nat.add_zero]
  | succ k ih =>
    intro todo bw s os r1 r2 hk h1 hall h2 hv
    obtain ⟨t, rfl⟩ : ∃ t, todo = t + 1 := ⟨todo - 1, by omega⟩
    rw [Linux.srcInts_succ] at h1
    simp only [Linux.putInts] at h1
    cases hq : Linux.so_fputc fuel (loadInt ptr bw) s os with
    | none => rw [hq] at h1; simp at h1
    | some q =>
      rw [hq] at h1
      simp only at h1
      cases hq2 : Linux.putInts fuel (Linux.srcInts ptr (bw + 1) k) q.stream q.os with
      | none => rw [hq2] at h1; simp at h1
      | some q2 =>
        rw [hq2] at h1
        simp only [Option.some.injEq] at h1
        subst h1
        have hqv : q.val ≠ SO_EOF := hall q.val (by simp)
        have hrest : ∀ v ∈ q2.val, v ≠ SO_EOF := fun v hv' => hall v (by simp [hv'])
        simp only [Linux.so_fwrite_loop, hq, hqv, ↓reduceIte]
        have e : bw + (k + 1) = bw + 1 + k := by omega
        rw [e] at h2 ⊢
        exact ih t (bw + 1) q.stream q.os q2 r2 (by omega) hq2 hrest h2 hv

/-- The same for the top-level variant. -/
theorem Win.so_fwrite_loop_stops_toplevel (fuel : Nat) (ptr : Nat → Byte) :
    ∀ (k todo bw : Nat) (s : Win.SoFile) (os : Os) (r1 : Win.Ret (List Int)) (r2 : Win.Ret Int),
      k < todo →
      Win.putInts fuel (Win.srcChars ptr bw k) s os = some r1 →
      (∀ v ∈ r1.val, v ≠ SO_EOF) →
      Win.so_fputc fuel (loadChar ptr (bw + k)) r1.stream r1.os = some r2 →
      r2.val = SO_EOF →
      Win.so_fwrite_loop fuel ptr todo bw s os
        = some { val := bw + k, stream := r2.stream, os := r2.os } := by
  intro k
  induction k with
  | zero =>
    intro todo bw s os r1 r2 hk h1 _ h2 hv
    obtain ⟨t, rfl⟩ : ∃ t, todo = t + 1 := ⟨todo - 1, by omega⟩
    simp only [Win.srcChars, List.range_zero, List.map_nil, Win.putInts,
      Option.some.injEq] at h1
    subst h1
    simp only [Nat.add_zero] at h2
    simp only [Win.so_fwrite_loop, h2, hv, ↓reduceIte, Nat.add_zero]
  | succ k ih =>
    intro todo bw s os r1 r2 hk h1 hall h2 hv
    obtain ⟨t, rfl⟩ : ∃ t, todo = t + 1 := ⟨todo - 1, by omega⟩
    rw [Win.srcChars_succ] at h1
    simp only [Win.putInts] at h1
    cases hq : Win.so_fputc fuel (loadChar ptr bw) s os with
    | none => rw [hq] at h1; simp at h1
    | some q =>
      rw [hq] at h1
      simp only at h1
      cases hq2 : Win.putInts fuel (Win.srcChars ptr (bw + 1) k) q.stream q.os with
      | none => rw [hq2] at h1; simp at h1
      | some q2 =>
        rw [hq2] at h1
        simp only [Option.some.injEq] at h1
        subst h1
        have hqv : q.val ≠ SO_EOF := hall q.val (by simp)
        have hrest : ∀ v ∈ q2.val, v ≠ SO_EOF := fun v hv' => hall v (by simp [hv'])
        simp only [Win.so_fwrite_loop, hq, hqv, ↓reduceIte]
        have e : bw + (k + 1) = bw + 1 + k := by omega
        rw [e] at h2 ⊢
        exact ih t (bw + 1) q.stream q.os q2 r2 (by omega) hq2 hrest h2 hv

/-- Bytes accepted by `so_fputc` are appended to the output (Linux). -/
theorem Linux.putInts_output (fuel : Nat) :
    ∀ (cs : List Int) (s : SoFile) (os : Os) (r : Ret (List Int)),
      0 ≤ s.cursor_buf_write → s.cursor_buf_write ≤ (FILE_BUFF_LEN : Int) →
      Linux.putInts fuel cs s os = some r → (∀ v ∈ r.val, v ≠ SO_EOF) →
      output r.stream r.os = output s os ++ cs.map byteOfInt ∧
      0 ≤ r.stream.cursor_buf_write ∧ r.stream.cursor_buf_write ≤ (FILE_BUFF_LEN : Int) := by
  intro cs
  induction cs with
  | nil =>
    intro s os r h0 h1 h _
    simp only [Linux.putInts, Option.some.injEq] at h
    subst h
    simp [h0, h1]
  | cons c cs ih =>
    intro s os r h0 h1 h hall
    simp only [Linux.putInts] at h
    cases hq : Linux.so_fputc fuel c s os with
    | none => rw [hq] at h; simp at h
    | some q =>
      rw [hq] at h
      simp only at h
      cases hq2 : Linux.putInts fuel cs q.stream q.os with
      | none => rw [hq2] at h; simp at h
      | some q2 =>
        rw [hq2] at h
        simp only [Option.some.injEq] at h
        subst h
        have hqv : q.val ≠ SO_EOF := hall q.val (by simp)
        have hrest : ∀ v ∈ q2.val, v ≠ SO_EOF := fun v hv' => hall v (by simp [hv'])
        obtain ⟨_, hcase⟩ := Linux.so_fputc_effect fuel c s os q h0 h1 hq
        rcases hcase with ⟨hv, _⟩ | ⟨_, _, hout, hc0, hc1, _⟩
        · exact absurd hv hqv
        · obtain ⟨hout2, hd0, hd1⟩ := ih q.stream q.os q2 hc0 hc1 hq2 hrest
          refine ⟨?_, hd0, hd1⟩
          show output q2.stream q2.os = _
          rw [hout2, hout]
          simp

/-- Bytes accepted by `so_fputc` are appended to the output (top-level
variant). -/
theorem Win.putInts_output_toplevel (fuel : Nat) :
    ∀ (cs : List Int) (s : Win.SoFile) (os : Os) (r : Win.Ret (List Int)),
      0 ≤ s.cursor_buf_write → s.cursor_buf_write ≤ (FILE_BUFF_LEN : Int) →
      Win.putInts fuel cs s os = some r → (∀ v ∈ r.val, v ≠ SO_EOF) →
      handed r.os.log ++ Win.pending r.stream
        = handed os.log ++ Win.pending s ++ cs.map byteOfInt ∧
      0 ≤ r.stream.cursor_buf_write ∧ r.stream.cursor_buf_write ≤ (FILE_BUFF_LEN : Int) := by
  intro cs
  induction cs with
  | nil =>
    intro s os r h0 h1 h _
    simp only [Win.putInts, Option.some.injEq] at h
    subst h
    simp [h0, h1]
  | cons c cs ih =>
    intro s os r h0 h1 h hall
    simp only [Win.putInts] at h
    cases hq : Win.so_fputc fuel c s os with
    | none => rw [hq] at h; simp at h
    | some q =>
      rw [hq] at h
      simp only at h
      cases hq2 : Win.putInts fuel cs q.stream q.os with
      | none => rw [hq2] at h; simp at h
      | some q2 =>
        rw [hq2] at h
        simp only [Option.some.injEq] at h
        subst h
        have hqv : q.val ≠ SO_EOF := hall q.val (by simp)
        have hrest : ∀ v ∈ q2.val, v ≠ SO_EOF := fun v hv' => hall v (by simp [hv'])
        obtain ⟨_, hcase⟩ := Win.so_fputc_effect_toplevel fuel c s os q h0 h1 hq
        rcases hcase with ⟨hv, _⟩ | ⟨_, _, hout, hc0, hc1, _⟩
        · exact absurd hv hqv
        · obtain ⟨hout2, hd0, hd1⟩ := ih q.stream q.os q2 hc0 hc1 hq2 hrest
          refine ⟨?_, hd0, hd1⟩
          show handed q2.os.log ++ Win.pending q2.stream = _
          rw [hout2, hout]
          simp

theorem Linux.srcInts_bytes (ptr : Nat → Byte) (a n : Nat) :
    (Linux.srcInts ptr a n).map byteOfInt = memRange ptr a n := by
  simp only [Linux.srcInts, memRange, List.map_map]
  apply List.map_congr_left
  intro i _
  exact byteOfInt_loadInt ptr (a + i)

theorem Win.srcChars_bytes (ptr : Nat → Byte) (a n : Nat) :
    (Win.srcChars ptr a n).map byteOfInt = memRange ptr a n := by
  simp only [Win.srcChars, memRange, List.map_map]
  apply List.map_congr_left
  intro i _
  exact byteOfInt_loadChar ptr (a + i)

theorem loadInt_blockOfB (i : Nat) : loadInt blockOfB i = 1111638594 := by
  simp only [loadInt, blockOfB, wrap32]
  rfl

/-! ## `so_fseek` and `so_ftell` -/

/-- The state in which a returning `so_fseek` (Linux) calls `lseek`: the flags
and the position cursor are those at entry, no `read` was issued, and either
the read buffer was discarded or a flush was tried. -/
theorem Linux.so_fseek_cases (fuel : Nat) (s : SoFile) (os : Os) (offset whence : Int)
    (r : Ret Int) (h : Linux.so_fseek fuel s os offset whence = some r) :
    ∃ s1 os1, r = Linux.reposition s1 os1 offset whence ∧
      s1.feof = s.feof ∧ s1.cursor_fd = s.cursor_fd ∧ s1.fd = s.fd ∧
      readCalls os1.log = readCalls os.log ∧
      os1.readable = os.readable ∧ os1.rsched = os.rsched ∧ os1.nread = os.nread ∧
      os1.seekable = os.seekable ∧
      ((s.was_written = 0 ∧ s1.cursor_buf_read = 0 ∧ s1.buffer_size = 0 ∧ os1 = os) ∨
       (s.was_written ≠ 0 ∧ s1.cursor_buf_read = s.cursor_buf_read ∧
        s1.buffer_size = s.buffer_size)) := by
  unfold Linux.so_fseek at h
  split at h
  · rename_i hw
    cases hfl : Linux.so_fflush fuel s os with
    | none => rw [hfl] at h; simp at h
    | some fr =>
      rw [hfl] at h
      simp only [Option.some.injEq] at h
      obtain ⟨D, O, n, L, hos, hL, hcase⟩ := Linux.so_fflush_cases fuel s os fr hfl
      have hreads : readCalls fr.os.log = readCalls os.log := by
        rw [hos, Os.wrote_log, readCalls_append, readCalls_of_writes L hL, Nat.add_zero]
      refine ⟨fr.stream, fr.os, h.symm, ?_, ?_, ?_, hreads, ?_, ?_, ?_, ?_,
        Or.inr ⟨hw, ?_, ?_⟩⟩
      all_goals first
        | (rw [hos]; rfl)
        | (rcases hcase with ⟨_, hs, _⟩ | ⟨_, hs, _⟩ <;> rw [hs])
  · rename_i hw
    simp only [ne_eq, not_not] at hw
    simp only [Option.some.injEq] at h
    exact ⟨_, os, h.symm, rfl, rfl, rfl, rfl, rfl, rfl, rfl, rfl,
      Or.inl ⟨hw, rfl, rfl, rfl⟩⟩

theorem sys_lseek_set_ok (os : Os) (fd offset : Int)
    (hs : os.seekable = true) (h0 : 0 ≤ offset) (h1 : offset < 2 ^ 63) :
    sys_lseek os fd offset SEEK_SET
      = { ret := offset
          os := { os with off := offset.toNat
                          log := os.log ++ [Call.lseek fd offset SEEK_SET offset] } } := by
  unfold sys_lseek
  simp only [↓reduceIte]
  rw [if_pos ⟨hs, by omega, by omega⟩]
  simp only [zero_add]

theorem sys_lseek_set_fail (os : Os) (fd offset : Int)
    (h : ¬ (os.seekable = true ∧ 0 ≤ offset ∧ offset < 2 ^ 63)) :
    sys_lseek os fd offset SEEK_SET
      = { ret := -1, os := { os with log := os.log ++ [Call.lseek fd offset SEEK_SET (-1)] } } := by
  unfold sys_lseek
  simp only [↓reduceIte]
  rw [if_neg (by simpa using h)]

theorem wrap32_neg_one : wrap32 (-1) = -1 := by decide

/-- A successful `lseek(fd, offset, SEEK_SET)` moves the file offset to
`offset`, which is not negative, and changes nothing else but the log. -/
theorem Linux.reposition_set (s : SoFile) (os : Os) (offset : Int)
    (h : (Linux.reposition s os offset SEEK_SET).val = 0) :
    0 ≤ offset ∧
    (Linux.reposition s os offset SEEK_SET).stream = { s with cursor_fd := wrap32 offset } ∧
    (Linux.reposition s os offset SEEK_SET).os
      = { os with off := offset.toNat
                  log := os.log ++ [Call.lseek s.fd offset SEEK_SET offset] } := by
  by_cases hc : os.seekable = true ∧ 0 ≤ offset ∧ offset < 2 ^ 63
  · have e := sys_lseek_set_ok os s.fd offset hc.1 hc.2.1 hc.2.2
    unfold Linux.reposition at h ⊢
    rw [e] at h ⊢
    simp only at h ⊢
    by_cases hw : wrap32 offset = -1
    · rw [if_pos hw] at h
      simp [SO_EOF] at h
    · rw [if_neg hw]
      exact ⟨hc.2.1, rfl, rfl⟩
  · have e := sys_lseek_set_fail os s.fd offset hc
    unfold Linux.reposition at h
    rw [e] at h
    simp only [wrap32_neg_one, ↓reduceIte] at h
    simp [SO_EOF] at h

/-! ## `so_fgetc` -/

/-- The operating system after a `read` that delivered the bytes `bs`. -/
theorem sys_read_ok (os : Os) (fd : Int) (count k : Nat)
    (hr : os.readable = true) (hk : os.rsched os.nread = some k) :
    sys_read os fd count
      = { ret := (((os.data.drop os.off).take count).take (k + 1)).length
          bytes := ((os.data.drop os.off).take count).take (k + 1)
          os := { os with
            off := os.off + (((os.data.drop os.off).take count).take (k + 1)).length
            nread := os.nread + 1
            log := os.log ++ [Call.read fd count
              (((os.data.drop os.off).take count).take (k + 1)).length] } } := by
  simp only [sys_read, hr, ↓reduceIte, hk]

theorem first_chunk_nil (k : Nat) :
    (((([] : List Byte)).take FILE_BUFF_LEN).take (k + 1)) = [] := by
  simp

theorem first_chunk_cons (b : Byte) (t : List Byte) (k : Nat) :
    (((b :: t).take FILE_BUFF_LEN).take (k + 1)) = b :: ((t.take 4095).take k) := by
  have e : FILE_BUFF_LEN = 4095 + 1 := rfl
  rw [e, List.take_succ_cons, List.take_succ_cons]

theorem blit_cons_zero (buf : Nat → Byte) (b : Byte) (t : List Byte) :
    blit buf (b :: t) 0 = b := by
  simp [blit]

/-- A refill of `so_fgetc` (Linux) at the end of the file: end of file is
reported and the flag is set. -/
theorem Linux.so_fgetc_refill_eof (s : SoFile) (os : Os) (k : Nat)
    (hfeof : s.feof = 0) (hc : s.cursor_buf_read = 0 ∨ s.cursor_buf_read = s.buffer_size)
    (hr : os.readable = true) (hk : os.rsched os.nread = some k)
    (hend : os.data.drop os.off = []) :
    Linux.so_fgetc s os
      = { val := SO_EOF, stream := { s with was_written := 0, feof := 1 }
          os := { os with
            off := os.off + 0, nread := os.nread + 1
            log := os.log ++ [Call.read s.fd FILE_BUFF_LEN ((0 : Nat) : Int)] } } := by
  unfold Linux.so_fgetc
  simp only
  rw [if_neg (by simp [hfeof]), if_pos hc, sys_read_ok os s.fd FILE_BUFF_LEN k hr hk, hend,
    first_chunk_nil]
  simp

/-- A refill of `so_fgetc` (Linux) before the end of the file: the byte under
the file offset is returned. -/
theorem Linux.so_fgetc_refill_byte (s : SoFile) (os : Os) (k : Nat) (b : Byte) (t : List Byte)
    (hfeof : s.feof = 0) (hc : s.cursor_buf_read = 0 ∨ s.cursor_buf_read = s.buffer_size)
    (hr : os.readable = true) (hk : os.rsched os.nread = some k)
    (hdata : os.data.drop os.off = b :: t) :
    Linux.so_fgetc s os
      = Linux.fetch
          { s with
            was_written := 0, buffer := blit s.buffer (b :: (t.take 4095).take k)
            cursor_buf_read := 0
            buffer_size := (((b :: (t.take 4095).take k).length : Nat) : Int) }
          { os with
            off := os.off + (b :: (t.take 4095).take k).length
            nread := os.nread + 1
            log := os.log ++ [Call.read s.fd FILE_BUFF_LEN
              (((b :: (t.take 4095).take k).length : Nat) : Int)] } := by
  unfold Linux.so_fgetc
  simp only
  rw [if_neg (by simp [hfeof]), if_pos hc, sys_read_ok os s.fd FILE_BUFF_LEN k hr hk, hdata,
    first_chunk_cons]
  simp only [List.length_cons]
  rw [if_neg (by omega), if_neg (by omega)]

theorem readCalls_read (log : List Call) (fd : Int) (count : Nat) (ret : Int) :
    readCalls (log ++ [Call.read fd count ret]) = readCalls log + 1 := by
  simp [readCalls, List.countP_append, Call.isRead]

theorem readCalls_lseek (log : List Call) (fd offset whence ret : Int) :
    readCalls (log ++ [Call.lseek fd offset whence ret]) = readCalls log := by
  simp [readCalls, List.countP_append, Call.isRead]

/-! ## End of file -/

theorem Linux.so_fgetc_at_eof (s : SoFile) (os : Os) (h : s.feof ≠ 0) :
    Linux.so_fgetc s os = { val := SO_EOF, stream := { s with was_written := 0 }, os := os } := by
  unfold Linux.so_fgetc
  simp only
  rw [if_pos h]

theorem Linux.so_fread_at_eof (ptr : Nat → Byte) (size nmemb : Nat) (s : SoFile) (os : Os)
    (h : s.feof ≠ 0) :
    Linux.so_fread ptr size nmemb s os
      = { val := 0, mem := ptr, stream := { s with was_written := 0 }, os := os } := by
  unfold Linux.so_fread
  simp only
  rw [if_pos h]

theorem sys_lseek_log (os : Os) (fd offset whence : Int) :
    ∃ ret, (sys_lseek os fd offset whence).os.log
      = os.log ++ [Call.lseek fd offset whence ret] := by
  unfold sys_lseek
  simp only
  split
  · exact ⟨_, rfl⟩
  · split <;> exact ⟨_, rfl⟩

theorem Linux.reposition_frame (s : SoFile) (os : Os) (offset whence : Int) :
    (Linux.reposition s os offset whence).stream.feof = s.feof ∧
    readCalls (Linux.reposition s os offset whence).os.log = readCalls os.log := by
  obtain ⟨ret, hlog⟩ := sys_lseek_log os s.fd offset whence
  unfold Linux.reposition
  simp only
  split
  · exact ⟨rfl, by simp only [hlog, readCalls_lseek]⟩
  · exact ⟨rfl, by simp only [hlog, readCalls_lseek]⟩

theorem readCalls_wrote (os : Os) (D : List Byte) (O n : Nat) (L : List Call)
    (hL : ∀ c ∈ L, c.isWrite = true) : readCalls (os.wrote D O n L).log = readCalls os.log := by
  rw [Os.wrote_log, readCalls_append, readCalls_of_writes L hL, Nat.add_zero]

/-- Once the end-of-file flag is set, no operation clears it and none issues a
`read` (Linux). -/
theorem Linux.step_at_eof (fuel : Nat) (op : Linux.Op) (s : SoFile) (os : Os) (s' : SoFile)
    (os' : Os) (h : s.feof ≠ 0) (hstep : Linux.step fuel op s os = some (s', os')) :
    s'.feof ≠ 0 ∧ readCalls os'.log = readCalls os.log := by
  cases op with
  | fgetc =>
    simp only [Linux.step, Linux.so_fgetc_at_eof s os h, Option.some.injEq, Prod.mk.injEq] at hstep
    obtain ⟨rfl, rfl⟩ := hstep
    exact ⟨h, rfl⟩
  | fputc c =>
    simp only [Linux.step, Option.map_eq_some'] at hstep
    obtain ⟨r, hr, he⟩ := hstep
    simp only [Prod.mk.injEq] at he
    obtain ⟨rfl, rfl⟩ := he
    rcases Linux.so_fputc_cases fuel c s os r hr with
      ⟨D, O, n, L, _, hr', hL, _⟩ | ⟨D, O, n, L, _, hr', hL, _⟩ | ⟨_, hr'⟩
    · subst hr'
      exact ⟨h, readCalls_wrote os D O n L hL⟩
    · subst hr'
      exact ⟨h, readCalls_wrote os D O n L hL⟩
    · subst hr'
      exact ⟨h, rfl⟩
  | fread ptr size nmemb =>
    simp only [Linux.step, Linux.so_fread_at_eof ptr size nmemb s os h, Option.some.injEq,
      Prod.mk.injEq] at hstep
    obtain ⟨rfl, rfl⟩ := hstep
    exact ⟨h, rfl⟩
  | fwrite ptr size nmemb =>
    simp only [Linux.step, Option.map_eq_some'] at hstep
    obtain ⟨r, hr, he⟩ := hstep
    simp only [Prod.mk.injEq] at he
    obtain ⟨rfl, rfl⟩ := he
    unfold Linux.so_fwrite at hr
    simp only at hr
    rw [if_pos h] at hr
    simp only [Option.some.injEq] at hr
    subst hr
    exact ⟨h, rfl⟩
  | fflush =>
    simp only [Linux.step, Option.map_eq_some'] at hstep
    obtain ⟨r, hr, he⟩ := hstep
    simp only [Prod.mk.injEq] at he
    obtain ⟨rfl, rfl⟩ := he
    obtain ⟨D, O, n, L, hos, hL, hcase⟩ := Linux.so_fflush_cases fuel s os r hr
    refine ⟨?_, by rw [hos]; exact readCalls_wrote os D O n L hL⟩
    rcases hcase with ⟨_, hs, _⟩ | ⟨_, hs, _⟩ <;> rw [hs] <;> exact h
  | fseek offset whence =>
    simp only [Linux.step, Option.map_eq_some'] at hstep
    obtain ⟨r, hr, he⟩ := hstep
    simp only [Prod.mk.injEq] at he
    obtain ⟨rfl, rfl⟩ := he
    obtain ⟨s1, os1, hr', hf, _, _, hreads, _⟩ :=
      Linux.so_fseek_cases fuel s os offset whence r hr
    subst hr'
    obtain ⟨e1, e2⟩ := Linux.reposition_frame s1 os1 offset whence
    exact ⟨by rw [e1, hf]; exact h, by rw [e2, hreads]⟩
  | ftell => simp only [Linux.step, Option.some.injEq, Prod.mk.injEq] at hstep
             obtain ⟨rfl, rfl⟩ := hstep
             exact ⟨h, rfl⟩
  | feof => simp only [Linux.step, Option.some.injEq, Prod.mk.injEq] at hstep
            obtain ⟨rfl, rfl⟩ := hstep
            exact ⟨h, rfl⟩
  | ferror => simp only [Linux.step, Option.some.injEq, Prod.mk.injEq] at hstep
              obtain ⟨rfl, rfl⟩ := hstep
              exact ⟨h, rfl⟩
  | fileno => simp only [Linux.step, Option.some.injEq, Prod.mk.injEq] at hstep
              obtain ⟨rfl, rfl⟩ := hstep
              exact ⟨h, rfl⟩

theorem Linux.run_at_eof (fuel : Nat) :
    ∀ (ops : List Linux.Op) (s : SoFile) (os : Os) (s' : SoFile) (os' : Os),
      s.feof ≠ 0 → Linux.run fuel ops s os = some (s', os') →
      s'.feof ≠ 0 ∧ readCalls os'.log = readCalls os.log := by
  intro ops
  induction ops with
  | nil =>
    intro s os s' os' h hrun
    simp only [Linux.run, Option.some.injEq, Prod.mk.injEq] at hrun
    obtain ⟨rfl, rfl⟩ := hrun
    exact ⟨h, rfl⟩
  | cons op ops ih =>
    intro s os s' os' h hrun
    simp only [Linux.run] at hrun
    cases hst : Linux.step fuel op s os with
    | none => rw [hst] at hrun; simp at hrun
    | some mid =>
      obtain ⟨s1, os1⟩ := mid
      rw [hst] at hrun
      obtain ⟨h1, e1⟩ := Linux.step_at_eof fuel op s os s1 os1 h hst
      obtain ⟨h2, e2⟩ := ih s1 os1 s' os' h1 hrun
      exact ⟨h2, e2.trans e1⟩

/-! ## Round trip -/

theorem WritesSucceed.progress {os : Os} (h : WritesSucceed os) : WritesProgress os := by
  intro i hi
  obtain ⟨k, hk, hk1⟩ := h i
  rw [hk] at hi
  simp only [Option.some.injEq] at hi
  omega

/-- On a device where writes succeed the drain loop never reports failure. -/
theorem drain_succeeds (fd : Int) (buf : Nat → Byte) (cw : Int) :
    ∀ (fuel : Nat) (written : Int) (os : Os) (ok : Bool) (os' : Os),
      os.writable = true → WritesSucceed os →
      drain fd buf cw fuel written os = some (ok, os') → ok = true := by
  intro fuel
  induction fuel with
  | zero =>
    intro written os ok os' _ _ h
    simp only [drain] at h
    split at h
    · simp at h
    · simp only [Option.some.injEq, Prod.mk.injEq] at h
      exact h.1.symm
  | succ fuel ih =>
    intro written os ok os' hwr hws h
    simp only [drain] at h
    split at h
    · obtain ⟨k, hk, _⟩ := hws os.nwrite
      have hw : (if os.writable then os.wsched os.nwrite else none) = some k := by
        simp [hwr, hk]
      rw [sys_write_ok os fd _ k hw] at h
      simp only [memRange_length] at h
      have hne : ((min k (cw - written).toNat : Nat) : Int) ≠ -1 := by omega
      simp only [hne, ↓reduceIte] at h
      exact ih _ _ ok os' (by exact hwr) (by exact hws) h
    · simp only [Option.some.injEq, Prod.mk.injEq] at h
      exact h.1.symm

/-- On a device where writes succeed a returning `so_fflush` (Linux) has
appended the pending bytes to a file whose offset was at its end. -/
theorem Linux.so_fflush_succeeds (fuel : Nat) (s : SoFile) (os : Os) (r : Ret Int)
    (hwr : os.writable = true) (hws : WritesSucceed os) (hend : os.off = os.data.length)
    (h : Linux.so_fflush fuel s os = some r) :
    r.val = 0 ∧ r.stream = { s with buffer := memset0 s.buffer, cursor_buf_write := 0 } ∧
    ∃ n L, r.os = os.wrote (os.data ++ pending s) (os.data ++ pending s).length n L := by
  unfold Linux.so_fflush at h
  rw [Linux.so_fflush_loop_eq_drain] at h
  cases hd : drain s.fd s.buffer s.cursor_buf_write fuel 0 os with
  | none => rw [hd] at h; simp at h
  | some res =>
    obtain ⟨ok, os1⟩ := res
    have hok := drain_succeeds _ _ _ _ _ _ _ _ hwr hws hd
    subst hok
    obtain ⟨D, O, n, L, hos, _, hgood, _⟩ := drain_shape _ _ _ _ _ _ _ _ (le_refl 0) hd
    obtain ⟨_, _, hdata⟩ := hgood rfl
    obtain ⟨hD, hO⟩ := hdata hend
    simp only [Int.toNat_zero, sub_zero] at hD
    rw [hd] at h
    simp only [Option.some.injEq] at h
    subst h
    refine ⟨rfl, rfl, n, L, ?_⟩
    show os1 = _
    rw [hos, hO, hD]
    rfl

theorem WriterInv_wrote {s : SoFile} {os : Os} (D : List Byte) (n : Nat) (L : List Call)
    (hfeof : s.feof = 0) (hcbr : s.cursor_buf_read = 0) (hbsz : s.buffer_size = 0)
    (h0 : 0 ≤ s.cursor_buf_write) (h1 : s.cursor_buf_write ≤ (FILE_BUFF_LEN : Int))
    (hidle : s.was_written = 0 → s.cursor_buf_write = 0)
    (hwr : os.writable = true) (hrd : os.readable = true) (hsk : os.seekable = true)
    (hws : WritesSucceed os) (hrs : ReadsSucceed os) :
    Linux.WriterInv s (os.wrote D D.length n L) (D ++ pending s) :=
  { feof := hfeof, cbr := hcbr, bsz := hbsz, cw0 := h0, cw1 := h1, idle := hidle
    writable := hwr, readable := hrd, seekable := hsk, writes := hws, reads := hrs
    atEnd := rfl, content := rfl }

/-- Each `so_fputc` of a byte keeps the writer invariant and appends the byte. -/
theorem Linux.so_fputc_inv (fuel : Nat) (b : Byte) (s : SoFile) (os : Os) (acc : List Byte)
    (hf : FILE_BUFF_LEN ≤ fuel) (inv : Linux.WriterInv s os acc) :
    ∃ r, Linux.so_fputc fuel (b.val : Int) s os = some r ∧ r.val = (b.val : Int) ∧
      Linux.WriterInv r.stream r.os (acc ++ [b]) := by
  obtain ⟨r, hr⟩ := Linux.so_fputc_terminates fuel (b.val : Int) s os inv.writes.progress hf
  refine ⟨r, hr, ?_⟩
  have hF : (FILE_BUFF_LEN : Int) = 4096 := by simp [FILE_BUFF_LEN]
  unfold Linux.so_fputc at hr
  simp only at hr
  split at hr
  · rename_i hfull
    cases hfl : Linux.so_fflush fuel { s with was_written := 1 } os with
    | none => rw [hfl] at hr; simp at hr
    | some fr =>
      rw [hfl] at hr
      obtain ⟨hv, hs, n, L, hos⟩ := Linux.so_fflush_succeeds fuel _ os fr inv.writable
        inv.writes inv.atEnd hfl
      have hne : fr.val ≠ SO_EOF := by rw [hv]; decide
      simp only [hne, ↓reduceIte, Option.some.injEq] at hr
      subst hr
      refine ⟨rfl, ?_⟩
      rw [hs, hos]
      obtain ⟨hp, hc⟩ := Linux.store_pending (b.val : Int)
        { s with was_written := 1, buffer := memset0 s.buffer, cursor_buf_write := 0 }
        (os.wrote (os.data ++ pending { s with was_written := 1 })
          (os.data ++ pending { s with was_written := 1 }).length n L)
        (le_refl 0) (by simp [FILE_BUFF_LEN])
      have hcontent : os.data ++ pending { s with was_written := 1 } = acc := inv.content
      rw [hcontent] at hp hc ⊢
      have key := @WriterInv_wrote
        (Linux.store (b.val : Int)
          { s with was_written := 1, buffer := memset0 s.buffer, cursor_buf_write := 0 }
          (os.wrote acc acc.length n L)).stream os acc n L
        inv.feof inv.cbr inv.bsz (by rw [hc]; simp) (by rw [hc]; simp [FILE_BUFF_LEN])
        (fun h => by simp [Linux.store] at h)
        inv.writable inv.readable inv.seekable inv.writes inv.reads
      rw [hp, byteOfInt_val] at key
      simpa [pending, memRange_zero] using key
  · rename_i hnot
    simp only [Option.some.injEq] at hr
    subst hr
    have hlt : s.cursor_buf_write < (FILE_BUFF_LEN : Int) := lt_of_le_of_ne inv.cw1 hnot
    obtain ⟨hp, hc⟩ := Linux.store_pending (b.val : Int) { s with was_written := 1 } os
      inv.cw0 hlt
    refine ⟨rfl, ?_⟩
    exact
      { feof := inv.feof, cbr := inv.cbr, bsz := inv.bsz
        cw0 := by rw [hc]; simp only; have := inv.cw0; omega
        cw1 := by rw [hc]; simp only; omega
        idle := fun h => by simp [Linux.store] at h
        writable := inv.writable, readable := inv.readable, seekable := inv.seekable
        writes := inv.writes, reads := inv.reads, atEnd := inv.atEnd
        content := by
          rw [hp, byteOfInt_val, ← List.append_assoc]
          congr 1
          exact inv.content }

/-- Writing a list of bytes one by one keeps the writer invariant; every
`so_fputc` returns the byte it was given. -/
theorem Linux.putBytes_inv (fuel : Nat) (hf : FILE_BUFF_LEN ≤ fuel) :
    ∀ (bs : List Byte) (s : SoFile) (os : Os) (acc : List Byte),
      Linux.WriterInv s os acc →
      ∃ r, Linux.putBytes fuel bs s os = some r ∧
        r.val = bs.map (fun b => (b.val : Int)) ∧
        Linux.WriterInv r.stream r.os (acc ++ bs) := by
  intro bs
  induction bs with
  | nil =>
    intro s os acc inv
    exact ⟨_, rfl, rfl, by simpa using inv⟩
  | cons b bs ih =>
    intro s os acc inv
    obtain ⟨q, hq, hqv, inv1⟩ := Linux.so_fputc_inv fuel b s os acc hf inv
    obtain ⟨r, hr, hrv, inv2⟩ := ih q.stream q.os (acc ++ [b]) inv1
    unfold Linux.putBytes at hr ⊢
    simp only [List.map_cons, Linux.putInts, hq, hr]
    exact ⟨_, rfl, by simp only [hqv, hrv], by simpa using inv2⟩

theorem wrap32_zero : wrap32 0 = 0 := by decide

theorem Linux.reposition_zero (s : SoFile) (os : Os) (hs : os.seekable = true) :
    Linux.reposition s os 0 SEEK_SET
      = { val := 0, stream := { s with cursor_fd := 0 }
          os := { os with off := 0, log := os.log ++ [Call.lseek s.fd 0 SEEK_SET 0] } } := by
  unfold Linux.reposition
  rw [sys_lseek_set_ok os s.fd 0 hs (le_refl 0) (by norm_num)]
  simp only [wrap32_zero]
  rw [if_neg (by decide)]
  rfl

/-- After the writes, `so_fseek(stream, 0, SEEK_SET)` succeeds and leaves a
stream ready to read the whole content back. -/
theorem Linux.so_fseek_inv (fuel : Nat) (s : SoFile) (os : Os) (acc : List Byte)
    (hf : FILE_BUFF_LEN ≤ fuel) (inv : Linux.WriterInv s os acc) :
    ∃ r, Linux.so_fseek fuel s os 0 SEEK_SET = some r ∧ r.val = 0 ∧
      Linux.ReaderInv r.stream r.os acc := by
  have hF : (FILE_BUFF_LEN : Int) = 4096 := by simp [FILE_BUFF_LEN]
  unfold Linux.so_fseek
  by_cases hw : s.was_written ≠ 0
  · rw [if_pos hw]
    have hfuel : s.cursor_buf_write.toNat ≤ fuel := by
      have := inv.cw1
      have : s.cursor_buf_write.toNat ≤ FILE_BUFF_LEN := by
        simp only [FILE_BUFF_LEN] at *; omega
      omega
    obtain ⟨fr, hfr⟩ := Linux.so_fflush_terminates fuel s os inv.writes.progress hfuel
    obtain ⟨_, hs, n, L, hos⟩ := Linux.so_fflush_succeeds fuel s os fr inv.writable inv.writes
      inv.atEnd hfr
    rw [hfr]
    simp only
    have hsk : fr.os.seekable = true := by rw [hos]; exact inv.seekable
    rw [Linux.reposition_zero fr.stream fr.os hsk]
    refine ⟨_, rfl, rfl, ?_⟩
    rw [hs, hos, inv.content]
    exact
      { feof := inv.feof, cbr0 := by simp [inv.cbr], cbr1 := by simp [inv.cbr, inv.bsz]
        bsz := by simp [inv.bsz], empty := fun _ => inv.bsz
        readable := inv.readable, reads := inv.reads
        content := by simp [inv.cbr, inv.bsz, memRange_zero, Os.wrote] }
  · rw [if_neg hw]
    simp only [ne_eq, not_not] at hw
    rw [Linux.reposition_zero _ os inv.seekable]
    refine ⟨_, rfl, rfl, ?_⟩
    have hcw := inv.idle hw
    have hdata : os.data = acc := by
      have := inv.content
      simpa [pending, hcw, memRange_zero] using this
    exact
      { feof := inv.feof, cbr0 := le_refl 0, cbr1 := le_refl 0
        bsz := by simp, empty := fun _ => rfl
        readable := inv.readable, reads := inv.reads
        content := by simp [memRange_zero, hdata] }

theorem memRange_blit (buf : Nat → Byte) (l : List Byte) :
    memRange (blit buf l) 0 l.length = l := by
  apply List.ext_getElem
  · exact memRange_length _ _ _
  · intro i h1 h2
    simp only [memRange, List.getElem_map, List.getElem_range, Nat.zero_add, blit, h2,
      ↓reduceDIte, List.get_eq_getElem]

theorem memRange_blit_tail (buf : Nat → Byte) (b : Byte) (t : List Byte) :
    memRange (blit buf (b :: t)) 1 t.length = t := by
  have h := memRange_blit buf (b :: t)
  rw [List.length_cons, Nat.add_comm, memRange_add] at h
  simp only [Nat.zero_add] at h
  have h1 : memRange (blit buf (b :: t)) 0 1 = [b] := by
    simp [memRange, blit, List.range_succ]
  rw [h1] at h
  simpa using h

theorem take_append_drop_length (l : List Byte) (n : Nat) :
    l.take n ++ l.drop (l.take n).length = l := by
  rcases le_total n l.length with h | h
  · rw [List.length_take, Nat.min_eq_left h, List.take_append_drop]
  · rw [List.take_of_length_le h, List.drop_length, List.append_nil]

/-- Each `so_fgetc` returns the next byte still to be read and keeps the reader
invariant. -/
theorem Linux.so_fgetc_inv (s : SoFile) (os : Os) (b : Byte) (rest : List Byte)
    (inv : Linux.ReaderInv s os (b :: rest)) :
    (Linux.so_fgetc s os).val = (b.val : Int) ∧
    Linux.ReaderInv (Linux.so_fgetc s os).stream (Linux.so_fgetc s os).os rest := by
  have hF : (FILE_BUFF_LEN : Int) = 4096 := by simp [FILE_BUFF_LEN]
  by_cases hc : s.cursor_buf_read = 0 ∨ s.cursor_buf_read = s.buffer_size
  · have heq : s.cursor_buf_read = s.buffer_size := by
      rcases hc with h | h
      · rw [h, inv.empty h]
      · exact h
    obtain ⟨k, hk⟩ := inv.reads os.nread
    have hdata : os.data.drop os.off = b :: rest := by
      have := inv.content
      rw [heq] at this
      simpa [memRange_zero] using this.symm
    rw [Linux.so_fgetc_refill_byte s os k b rest inv.feof hc inv.readable hk hdata]
    have hlen : ((rest.take 4095).take k).length ≤ 4095 := by
      rw [List.length_take, List.length_take]; omega
    refine ⟨by simp only [Linux.fetch, Int.toNat_zero, blit_cons_zero], ?_⟩
    have hw : wrap32 ((0 : Int) + 1) = 1 := by decide
    exact
      { feof := inv.feof
        cbr0 := by simp only [Linux.fetch, hw]; decide
        cbr1 := by simp only [Linux.fetch, hw, List.length_cons]; omega
        bsz := by simp only [Linux.fetch, List.length_cons]; omega
        empty := fun h => by
          simp only [Linux.fetch, hw] at h
          exact absurd h (by decide)
        readable := inv.readable
        reads := inv.reads
        content := by
          simp only [Linux.fetch, hw, List.length_cons]
          have e1 : (((((rest.take 4095).take k).length + 1 : Nat) : Int) - 1).toNat
              = ((rest.take 4095).take k).length := by omega
          have e2 : (1 : Int).toNat = 1 := rfl
          rw [e1, e2, memRange_blit_tail, ← List.drop_drop, hdata, List.drop_succ_cons,
            List.take_take]
          exact (take_append_drop_length rest _).symm }
  · have hne0 : s.cursor_buf_read ≠ 0 := fun h => hc (Or.inl h)
    have hneb : s.cursor_buf_read ≠ s.buffer_size := fun h => hc (Or.inr h)
    have hlt : s.cursor_buf_read < s.buffer_size := lt_of_le_of_ne inv.cbr1 hneb
    have hpos : 0 < s.cursor_buf_read := lt_of_le_of_ne inv.cbr0 (Ne.symm hne0)
    have hg : Linux.so_fgetc s os = Linux.fetch { s with was_written := 0 } os := by
      unfold Linux.so_fgetc
      simp only
      rw [if_neg (by simp [inv.feof]), if_neg hc]
    have hb := inv.bsz
    have hw : wrap32 (s.cursor_buf_read + 1) = s.cursor_buf_read + 1 :=
      wrap32_of_range _ (by omega) (by omega)
    obtain ⟨m, hm⟩ : ∃ m, (s.buffer_size - s.cursor_buf_read).toNat = m + 1 :=
      ⟨(s.buffer_size - s.cursor_buf_read).toNat - 1, by omega⟩
    have hcont := inv.content
    rw [hm, memRange_succ_first, List.cons_append, List.cons.injEq] at hcont
    obtain ⟨hb1, hrest⟩ := hcont
    rw [hg]
    refine ⟨by simp only [Linux.fetch]; rw [hb1], ?_⟩
    exact
      { feof := inv.feof
        cbr0 := by simp only [Linux.fetch, hw]; omega
        cbr1 := by simp only [Linux.fetch, hw]; omega
        bsz := inv.bsz
        empty := fun h => by simp only [Linux.fetch, hw] at h; omega
        readable := inv.readable
        reads := inv.reads
        content := by
          simp only [Linux.fetch, hw]
          have e1 : (s.cursor_buf_read + 1).toNat = s.cursor_buf_read.toNat + 1 := by omega
          have e2 : (s.buffer_size - (s.cursor_buf_read + 1)).toNat = m := by omega
          rw [e1, e2]
          exact hrest }

theorem Linux.getBytes_inv :
    ∀ (bs : List Byte) (s : SoFile) (os : Os) (rest : List Byte),
      Linux.ReaderInv s os (bs ++ rest) →
      (Linux.getBytes bs.length s os).val = bs.map (fun b => (b.val : Int)) := by
  intro bs
  induction bs with
  | nil => intro s os rest _; rfl
  | cons b bs ih =>
    intro s os rest inv
    obtain ⟨hv, inv1⟩ := Linux.so_fgetc_inv s os b (bs ++ rest) inv
    simp only [List.length_cons, Linux.getBytes, List.map_cons, hv, ih _ _ rest inv1]

theorem Linux.modeFlags_wplus : Linux.modeFlags "w+" = some (O_RDWR + O_CREAT + O_TRUNC) := by
  decide

/-- What a successful `so_fopen(pathname, "w+")` yields (Linux): a zeroed record
over an empty, readable and writable file. -/
theorem Linux.so_fopen_wplus (pathname : String) (os : Os) (s : SoFile) (os1 : Os)
    (h : Linux.so_fopen pathname "w+" os = (some s, os1)) :
    s = { SoFile.zero with fd := (os.newfd : Int) } ∧
    os1.data = [] ∧ os1.off = 0 ∧ os1.readable = true ∧ os1.writable = true ∧
    os1.seekable = os.seekable ∧ os1.wsched = os.wsched ∧ os1.rsched = os.rsched := by
  unfold Linux.so_fopen at h
  rw [Linux.modeFlags_wplus] at h
  simp only at h
  unfold sys_open at h
  split at h
  · simp only at h
    split at h
    · simp at h
    · unfold sys_calloc at h
      simp only at h
      split at h
      · simp at h
      · simp only [Prod.mk.injEq, Option.some.injEq] at h
        obtain ⟨rfl, rfl⟩ := h
        refine ⟨rfl, ?_, rfl, ?_, ?_, rfl, rfl, rfl⟩
        · show (if (O_RDWR + O_CREAT + O_TRUNC).testBit 9 = true then [] else os.data) = []
          rw [if_pos (by decide)]
        · show ((O_RDWR + O_CREAT + O_TRUNC) % 4 != 1) = true
          decide
        · show ((O_RDWR + O_CREAT + O_TRUNC) % 4 != 0) = true
          decide
  · simp at h

/-! ## The flags are never cleared -/

theorem Linux.FlagsKept.refl (s : SoFile) : Linux.FlagsKept s s := ⟨id, id⟩

theorem Linux.FlagsKept.trans {a b c : SoFile} (h1 : Linux.FlagsKept a b)
    (h2 : Linux.FlagsKept b c) : Linux.FlagsKept a c :=
  ⟨fun h => h2.1 (h1.1 h), fun h => h2.2 (h1.2 h)⟩

theorem Linux.so_fgetc_flags (s : SoFile) (os : Os) :
    Linux.FlagsKept s (Linux.so_fgetc s os).stream := by
  unfold Linux.so_fgetc Linux.fetch
  simp only
  split_ifs <;> exact ⟨fun h => by first | exact h | simp, fun h => by first | exact h | simp⟩

theorem Linux.so_fflush_flags (fuel : Nat) (s : SoFile) (os : Os) (r : Ret Int)
    (h : Linux.so_fflush fuel s os = some r) : Linux.FlagsKept s r.stream := by
  obtain ⟨D, O, n, L, -, -, hc⟩ := Linux.so_fflush_cases fuel s os r h
  rcases hc with ⟨-, hs, -⟩ | ⟨-, hs, -⟩ <;> rw [hs] <;> exact ⟨id, id⟩

theorem Linux.so_fputc_flags (fuel : Nat) (c : Int) (s : SoFile) (os : Os) (r : Ret Int)
    (h : Linux.so_fputc fuel c s os = some r) : Linux.FlagsKept s r.stream := by
  unfold Linux.so_fputc at h
  simp only at h
  split_ifs at h with hfull
  · cases hfl : Linux.so_fflush fuel { s with was_written := 1 } os with
    | none => rw [hfl] at h; simp at h
    | some fr =>
      rw [hfl] at h
      have hk := Linux.so_fflush_flags fuel _ os fr hfl
      simp only at h
      split_ifs at h
      · simp only [Option.some.injEq] at h
        subst h
        exact ⟨fun hh => hk.1 hh, fun _ => by simp⟩
      · simp only [Option.some.injEq] at h
        subst h
        exact ⟨fun hh => hk.1 hh, fun hh => hk.2 hh⟩
  · simp only [Option.some.injEq] at h
    subst h
    exact ⟨id, id⟩

theorem Linux.reposition_flags (s : SoFile) (os : Os) (offset whence : Int) :
    Linux.FlagsKept s (Linux.reposition s os offset whence).stream := by
  unfold Linux.reposition
  simp only
  split_ifs
  · exact ⟨id, fun _ => by simp⟩
  · exact ⟨id, id⟩

theorem Linux.so_fseek_flags (fuel : Nat) (s : SoFile) (os : Os) (offset whence : Int)
    (r : Ret Int) (h : Linux.so_fseek fuel s os offset whence = some r) :
    Linux.FlagsKept s r.stream := by
  unfold Linux.so_fseek at h
  split_ifs at h with hw
  · cases hfl : Linux.so_fflush fuel s os with
    | none => rw [hfl] at h; simp at h
    | some fr =>
      rw [hfl] at h
      simp only [Option.some.injEq] at h
      subst h
      exact (Linux.so_fflush_flags fuel s os fr hfl).trans (Linux.reposition_flags _ _ _ _)
  · simp only [Option.some.injEq] at h
    subst h
    exact Linux.FlagsKept.trans
      (b := { s with buffer := memset0 s.buffer, cursor_buf_read := 0, buffer_size := 0 })
      ⟨id, id⟩ (Linux.reposition_flags _ _ _ _)

theorem Linux.so_fread_loop_flags :
    ∀ (todo bytes_read : Nat) (ptr : Nat → Byte) (s : SoFile) (os : Os),
      Linux.FlagsKept s (Linux.so_fread_loop todo bytes_read ptr s os).stream := by
  intro todo
  induction todo with
  | zero => intro b ptr s os; exact ⟨id, id⟩
  | succ n ih =>
    intro b ptr s os
    unfold Linux.so_fread_loop
    simp only
    split_ifs
    · exact Linux.so_fgetc_flags s os
    · exact (Linux.so_fgetc_flags s os).trans (ih _ _ _ _)

theorem Linux.so_fread_flags (ptr : Nat → Byte) (size nmemb : Nat) (s : SoFile) (os : Os) :
    Linux.FlagsKept s (Linux.so_fread ptr size nmemb s os).stream := by
  unfold Linux.so_fread
  simp only
  split_ifs
  · exact ⟨id, id⟩
  · exact Linux.FlagsKept.trans (b := { s with was_written := 0 }) ⟨id, id⟩
      (Linux.so_fread_loop_flags _ _ _ _ _)

theorem Linux.so_fwrite_loop_flags (fuel : Nat) (ptr : Nat → Byte) :
    ∀ (todo bytes_written : Nat) (s : SoFile) (os : Os) (r : Ret Nat),
      Linux.so_fwrite_loop fuel ptr todo bytes_written s os = some r →
      Linux.FlagsKept s r.stream := by
  intro todo
  induction todo with
  | zero =>
    intro b s os r h
    simp only [Linux.so_fwrite_loop, Option.some.injEq] at h
    subst h
    exact ⟨id, id⟩
  | succ n ih =>
    intro b s os r h
    unfold Linux.so_fwrite_loop at h
    cases hp : Linux.so_fputc fuel (loadInt ptr b) s os with
    | none => rw [hp] at h; simp at h
    | some pr =>
      rw [hp] at h
      have hk := Linux.so_fputc_flags fuel _ s os pr hp
      simp only at h
      split_ifs at h
      · simp only [Option.some.injEq] at h
        subst h
        exact hk
      · exact hk.trans (ih _ _ _ _ h)

theorem Linux.so_fwrite_flags (fuel : Nat) (ptr : Nat → Byte) (size nmemb : Nat) (s : SoFile)
    (os : Os) (r : Ret Nat) (h : Linux.so_fwrite fuel ptr size nmemb s os = some r) :
    Linux.FlagsKept s r.stream := by
  unfold Linux.so_fwrite at h
  simp only at h
  split_ifs at h
  · simp only [Option.some.injEq] at h
    subst h
    exact ⟨id, id⟩
  · cases hl : Linux.so_fwrite_loop fuel ptr (nmemb * size % 2 ^ 64) 0
        { s with was_written := 1 } os with
    | none => rw [hl] at h; simp at h
    | some lr =>
      rw [hl] at h
      simp only [Option.some.injEq] at h
      subst h
      exact Linux.FlagsKept.trans (b := { s with was_written := 1 }) ⟨id, id⟩
        (Linux.so_fwrite_loop_flags fuel ptr _ _ _ _ lr hl)

theorem Linux.step_flags (fuel : Nat) (op : Linux.Op) (s : SoFile) (os : Os) (s1 : SoFile)
    (os1 : Os) (h : Linux.step fuel op s os = some (s1, os1)) : Linux.FlagsKept s s1 := by
  cases op with
  | fgetc =>
    simp only [Linux.step, Option.some.injEq, Prod.mk.injEq] at h
    rw [← h.1]; exact Linux.so_fgetc_flags s os
  | fputc c =>
    simp only [Linux.step, Option.map_eq_some'] at h
    obtain ⟨r, hr, he⟩ := h
    simp only [Prod.mk.injEq] at he
    rw [← he.1]; exact Linux.so_fputc_flags fuel c s os r hr
  | fread ptr size nmemb =>
    simp only [Linux.step, Option.some.injEq, Prod.mk.injEq] at h
    rw [← h.1]; exact Linux.so_fread_flags ptr size nmemb s os
  | fwrite ptr size nmemb =>
    simp only [Linux.step, Option.map_eq_some'] at h
    obtain ⟨r, hr, he⟩ := h
    simp only [Prod.mk.injEq] at he
    rw [← he.1]; exact Linux.so_fwrite_flags fuel ptr size nmemb s os r hr
  | fflush =>
    simp only [Linux.step, Option.map_eq_some'] at h
    obtain ⟨r, hr, he⟩ := h
    simp only [Prod.mk.injEq] at he
    rw [← he.1]; exact Linux.so_fflush_flags fuel s os r hr
  | fseek offset whence =>
    simp only [Linux.step, Option.map_eq_some'] at h
    obtain ⟨r, hr, he⟩ := h
    simp only [Prod.mk.injEq] at he
    rw [← he.1]; exact Linux.so_fseek_flags fuel s os offset whence r hr
  | ftell | feof | ferror | fileno =>
    simp only [Linux.step, Option.some.injEq, Prod.mk.injEq] at h
    rw [← h.1]; exact ⟨id, id⟩

/-! ## `so_fread` at the end of the file -/

theorem Win.so_fread_at_eof_toplevel (ptr : Nat → Byte) (size nmemb : Nat) (s : Win.SoFile)
    (os : Os) (h : s.feof ≠ 0) :
    Win.so_fread ptr size nmemb s os
      = { val := 0, mem := ptr, stream := { s with was_written := 0 }, os := os } := by
  unfold Win.so_fread
  simp only
  rw [if_pos (by simpa using h)]

/-! ## `so_fclose` -/

theorem closeCalls_of_writes (l : List Call) (h : ∀ c ∈ l, c.isWrite = true) :
    closeCalls l = 0 := by
  unfold closeCalls
  rw [List.countP_eq_zero]
  intro c hc
  have := h c hc
  cases c <;> simp_all [Call.isWrite, Call.isClose]

theorem freeCalls_of_writes (l : List Call) (h : ∀ c ∈ l, c.isWrite = true) :
    freeCalls l = 0 := by
  unfold freeCalls
  rw [List.countP_eq_zero]
  intro c hc
  have := h c hc
  cases c <;> simp_all [Call.isWrite, Call.isFree]

theorem closeCalls_tail (log W : List Call) (fd c : Int) (h : ∀ x ∈ W, x.isWrite = true) :
    closeCalls (log ++ W ++ [Call.close fd c, Call.free]) = closeCalls log + 1 := by
  have hW := closeCalls_of_writes W h
  unfold closeCalls at *
  rw [List.countP_append, List.countP_append, hW]
  simp [Call.isClose]

theorem freeCalls_tail (log W : List Call) (fd c : Int) (h : ∀ x ∈ W, x.isWrite = true) :
    freeCalls (log ++ W ++ [Call.close fd c, Call.free]) = freeCalls log + 1 := by
  have hW := freeCalls_of_writes W h
  unfold freeCalls at *
  rw [List.countP_append, List.countP_append, hW]
  simp [Call.isFree]

/-- The log after `close` and `free`. -/
theorem close_free_log (os : Os) (fd : Int) :
    (sys_free (sys_close os fd).os).log
      = os.log ++ [Call.close fd (if os.closeOk then 0 else -1), Call.free] := by
  simp [sys_free, sys_close]

theorem Linux.closeAndFree_spec (s : SoFile) (os : Os) :
    (Linux.closeAndFree s os).os.log
      = os.log ++ [Call.close s.fd (if os.closeOk then 0 else -1), Call.free] ∧
    (Linux.closeAndFree s os).ret = if os.closeOk then 0 else SO_EOF := by
  unfold Linux.closeAndFree
  cases h : os.closeOk <;> simp [sys_free, sys_close, h]

theorem Win.closeAndFree_spec_toplevel (s : Win.SoFile) (os : Os) :
    (Win.closeAndFree s os).os.log
      = os.log ++ [Call.close s.fd (if os.closeOk then 0 else -1), Call.free] ∧
    (Win.closeAndFree s os).ret = if os.closeOk then 0 else SO_EOF := by
  unfold Win.closeAndFree
  cases h : os.closeOk <;> simp [sys_free, sys_close, h]

/-- With nothing pending the loop of `so_fflush` issues no call. -/
theorem drain_nothing (fd : Int) (buf : Nat → Byte) (cw : Int) (fuel : Nat) (os : Os)
    (h : cw ≤ 0) : drain fd buf cw fuel 0 os = some (true, os) := by
  cases fuel <;> simp [drain, not_lt.mpr h]

theorem Os.wrote_closeOk (os : Os) (D : List Byte) (O n : Nat) (L : List Call) :
    (os.wrote D O n L).closeOk = os.closeOk := rfl

/-- What `so_fclose` of `src/Linux/so_stdio.c` does when its flush returns. -/
theorem Linux.so_fclose_spec (fuel : Nat) (s : SoFile) (os : Os)
    (hp : WritesProgress os) (hf : s.cursor_buf_write.toNat ≤ fuel) :
    ∃ r W c, Linux.so_fclose fuel s os = some r ∧
      r.os.log = os.log ++ W ++ [Call.close s.fd c, Call.free] ∧
      (∀ x ∈ W, x.isWrite = true) ∧
      (s.cursor_buf_write = 0 → W = []) ∧
      (s.cursor_buf_write ≠ 0 →
        ∃ fr, Linux.so_fflush fuel s os = some fr ∧ fr.os.log = os.log ++ W ∧
          (fr.val = SO_EOF ↔ failedWrites W ≠ 0)) ∧
      (c = if os.closeOk then 0 else -1) ∧
      (r.ret = SO_EOF ↔ failedWrites W ≠ 0 ∨ c ≠ 0) ∧
      (r.ret ≠ SO_EOF → r.ret = 0) := by
  obtain ⟨fr, hfr⟩ := Linux.so_fflush_terminates fuel s os hp hf
  obtain ⟨D, O, n, L, hos, hL, hcase⟩ := Linux.so_fflush_cases fuel s os fr hfr
  by_cases hcw : s.cursor_buf_write > 0
  · unfold Linux.so_fclose
    rw [if_pos hcw, hfr]
    simp only
    rcases hcase with ⟨hv, hs, hfail⟩ | ⟨hv, hs, hfail, -, -⟩
    · rw [if_pos hv]
      refine ⟨_, L, if os.closeOk then 0 else -1, rfl, ?_, hL, fun h0 => by omega,
        fun _ => ⟨fr, rfl, by rw [hos, Os.wrote_log], by simp [hv, hfail]⟩, rfl,
        by simp [hfail], fun h => absurd rfl h⟩
      rw [close_free_log, hos, Os.wrote_log, hs, Os.wrote_closeOk]
    · have hne : fr.val ≠ SO_EOF := by rw [hv]; decide
      rw [if_neg hne]
      obtain ⟨h1, h2⟩ := Linux.closeAndFree_spec fr.stream fr.os
      have hfd : fr.stream.fd = s.fd := by rw [hs]
      have hck : fr.os.closeOk = os.closeOk := by rw [hos]; rfl
      have hlog : fr.os.log = os.log ++ L := by rw [hos, Os.wrote_log]
      rw [hlog, hck, hfd] at h1
      rw [hck] at h2
      refine ⟨_, L, if os.closeOk then 0 else -1, rfl, h1, hL,
        fun h0 => by omega,
        fun _ => ⟨fr, rfl, hlog, by simp [hne, hfail]⟩, rfl, ?_, ?_⟩
      · rw [h2, hfail]
        cases os.closeOk <;> simp [SO_EOF]
      · rw [h2]
        cases os.closeOk <;> simp [SO_EOF]
  · have hle : s.cursor_buf_write ≤ 0 := not_lt.mp hcw
    have hfl : Linux.so_fflush fuel s os
        = some { val := 0, stream := { s with buffer := memset0 s.buffer, cursor_buf_write := 0 }
                 os := os } := by
      unfold Linux.so_fflush
      rw [Linux.so_fflush_loop_eq_drain, drain_nothing _ _ _ _ _ hle]
    unfold Linux.so_fclose
    rw [if_neg hcw]
    obtain ⟨h1, h2⟩ := Linux.closeAndFree_spec s os
    refine ⟨_, [], if os.closeOk then 0 else -1, rfl, by simpa using h1, by simp, fun _ => rfl,
      fun _ => ⟨_, hfl, by simp, by simp [SO_EOF, failedWrites]⟩, rfl, ?_, ?_⟩
    · rw [h2]
      cases os.closeOk <;> simp [SO_EOF, failedWrites]
    · rw [h2]
      cases os.closeOk <;> simp [SO_EOF]

/-- What `so_fclose` of `src/so_stdio.c` does when its flush returns. -/
theorem Win.so_fclose_spec_toplevel (fuel : Nat) (s : Win.SoFile) (os : Os)
    (hp : WritesProgress os) (hf : s.cursor_buf_write.toNat ≤ fuel) :
    ∃ r W c, Win.so_fclose fuel s os = some r ∧
      r.os.log = os.log ++ W ++ [Call.close s.fd c, Call.free] ∧
      (∀ x ∈ W, x.isWrite = true) ∧
      (s.cursor_buf_write = 0 → W = []) ∧
      (s.cursor_buf_write ≠ 0 →
        ∃ fr, Win.so_fflush fuel s os = some fr ∧ fr.os.log = os.log ++ W ∧
          (fr.val = SO_EOF ↔ failedWrites W ≠ 0)) ∧
      (c = if os.closeOk then 0 else -1) ∧
      (r.ret = SO_EOF ↔ failedWrites W ≠ 0 ∨ c ≠ 0) ∧
      (r.ret ≠ SO_EOF → r.ret = 0) := by
  obtain ⟨fr, hfr⟩ := Win.so_fflush_terminates_toplevel fuel s os hp hf
  obtain ⟨D, O, n, L, hos, hL, hcase⟩ := Win.so_fflush_cases_toplevel fuel s os fr hfr
  by_cases hcw : s.cursor_buf_write > 0
  · unfold Win.so_fclose
    rw [if_pos hcw, hfr]
    simp only
    rcases hcase with ⟨hv, hs, hfail⟩ | ⟨hv, hs, hfail, -, -⟩
    · rw [if_pos hv]
      refine ⟨_, L, if os.closeOk then 0 else -1, rfl, ?_, hL, fun h0 => by omega,
        fun _ => ⟨fr, rfl, by rw [hos, Os.wrote_log], by simp [hv, hfail]⟩, rfl,
        by simp [hfail], fun h => absurd rfl h⟩
      rw [close_free_log, hos, Os.wrote_log, hs, Os.wrote_closeOk]
    · have hne : fr.val ≠ SO_EOF := by rw [hv]; decide
      rw [if_neg hne]
      obtain ⟨h1, h2⟩ := Win.closeAndFree_spec_toplevel fr.stream fr.os
      have hfd : fr.stream.fd = s.fd := by rw [hs]
      have hck : fr.os.closeOk = os.closeOk := by rw [hos]; rfl
      have hlog : fr.os.log = os.log ++ L := by rw [hos, Os.wrote_log]
      rw [hlog, hck, hfd] at h1
      rw [hck] at h2
      refine ⟨_, L, if os.closeOk then 0 else -1, rfl, h1, hL,
        fun h0 => by omega,
        fun _ => ⟨fr, rfl, hlog, by simp [hne, hfail]⟩, rfl, ?_, ?_⟩
      · rw [h2, hfail]
        cases os.closeOk <;> simp [SO_EOF]
      · rw [h2]
        cases os.closeOk <;> simp [SO_EOF]
  · have hle : s.cursor_buf_write ≤ 0 := not_lt.mp hcw
    have hfl : Win.so_fflush fuel s os
        = some { val := 0, stream := { s with
                   buffer := memset0 s.buffer, cursor_buf_write := 0, buffer_size := 0 }
                 os := os } := by
      unfold Win.so_fflush
      rw [Win.so_fflush_loop_eq_drain_toplevel, drain_nothing _ _ _ _ _ hle]
    unfold Win.so_fclose
    rw [if_neg hcw]
    obtain ⟨h1, h2⟩ := Win.closeAndFree_spec_toplevel s os
    refine ⟨_, [], if os.closeOk then 0 else -1, rfl, by simpa using h1, by simp, fun _ => rfl,
      fun _ => ⟨_, hfl, by simp, by simp [SO_EOF, failedWrites]⟩, rfl, ?_, ?_⟩
    · rw [h2]
      cases os.closeOk <;> simp [SO_EOF, failedWrites]
    · rw [h2]
      cases os.closeOk <;> simp [SO_EOF]

/-! ## `so_popen` and `so_pclose` -/

theorem waitCalls_of_writes (l : List Call) (h : ∀ c ∈ l, c.isWrite = true) :
    waitCalls l = 0 := by
  unfold waitCalls
  rw [List.countP_eq_zero]
  intro c hc
  have := h c hc
  cases c <;> simp_all [Call.isWrite, Call.isWait]

theorem waitCalls_tail (log W : List Call) (fd c : Int) (h : ∀ x ∈ W, x.isWrite = true) :
    waitCalls (log ++ W ++ [Call.close fd c, Call.free]) = waitCalls log := by
  have hW := waitCalls_of_writes W h
  unfold waitCalls at *
  rw [List.countP_append, List.countP_append, hW]
  simp [Call.isWait]

/-- The record `so_popen` returns holds the value `fork` returned, which is
neither `-1` nor `0`, and one end of the pipe. -/
theorem Linux.so_popen_pid (command type : String) (os : Os) (pr : Procs) (s : SoFile)
    (os1 : Os) (h : Linux.so_popen command type os pr = some (some s, os1)) :
    s.pid = pr.forkRet ∧ pr.forkRet ≠ -1 ∧ pr.forkRet ≠ 0 ∧
    (s.fd = pr.pipeRead ∨ s.fd = pr.pipeWrite) ∧ s.cursor_buf_write = 0 := by
  unfold Linux.so_popen at h
  simp only [sys_fork] at h
  split_ifs at h with h1 h2 h3 h4 h5
  all_goals simp only [Option.some.injEq, Prod.mk.injEq, reduceCtorEq, false_and] at h
  · obtain ⟨hs, -⟩ := h
    subst hs
    exact ⟨rfl, h2, h3, Or.inl rfl, rfl⟩
  · obtain ⟨hs, -⟩ := h
    subst hs
    exact ⟨rfl, h2, h3, Or.inr rfl, rfl⟩

/-- What `so_pclose` does after its `so_fclose` returned. -/
theorem Linux.so_pclose_spec (fuel : Nat) (s : SoFile) (os : Os) (pr : Procs) (c : SysRet)
    (h : Linux.so_fclose fuel s os = some c) :
    ∃ r, Linux.so_pclose fuel s os pr = some r ∧
      (c.ret = SO_EOF → r.ret = SO_EOF ∧ r.os = c.os) ∧
      (c.ret ≠ SO_EOF →
        r.os.log = c.os.log ++ [Call.waitpid s.pid 0 (pr.waitRet s.pid)] ∧
        (0 ≤ pr.waitRet s.pid → r.ret = pr.waitStatus s.pid) ∧
        (pr.waitRet s.pid < 0 → r.ret = -1)) := by
  unfold Linux.so_pclose
  simp only [h, sys_waitpid]
  by_cases hc : c.ret = SO_EOF
  · rw [if_pos hc]
    exact ⟨_, rfl, fun _ => ⟨rfl, rfl⟩, fun hn => absurd hc hn⟩
  · rw [if_neg hc]
    by_cases hw : pr.waitRet s.pid < 0
    · rw [if_pos hw]
      exact ⟨_, rfl, fun hn => absurd hn hc, fun _ => ⟨rfl, fun h0 => by omega, fun _ => rfl⟩⟩
    · rw [if_neg hw]
      exact ⟨_, rfl, fun hn => absurd hn hc, fun _ => ⟨rfl, fun _ => rfl, fun h0 => absurd h0 hw⟩⟩

theorem Linux.so_fgetc_pid (s : SoFile) (os : Os) : (Linux.so_fgetc s os).stream.pid = s.pid := by
  unfold Linux.so_fgetc Linux.fetch
  simp only
  split_ifs <;> rfl

theorem Linux.so_fflush_pid (fuel : Nat) (s : SoFile) (os : Os) (r : Ret Int)
    (h : Linux.so_fflush fuel s os = some r) : r.stream.pid = s.pid := by
  obtain ⟨D, O, n, L, -, -, hc⟩ := Linux.so_fflush_cases fuel s os r h
  rcases hc with ⟨-, hs, -⟩ | ⟨-, hs, -⟩ <;> rw [hs]

theorem Linux.so_fputc_pid (fuel : Nat) (c : Int) (s : SoFile) (os : Os) (r : Ret Int)
    (h : Linux.so_fputc fuel c s os = some r) : r.stream.pid = s.pid := by
  unfold Linux.so_fputc at h
  simp only at h
  split_ifs at h with hfull
  · cases hfl : Linux.so_fflush fuel { s with was_written := 1 } os with
    | none => rw [hfl] at h; simp at h
    | some fr =>
      rw [hfl] at h
      have hk := Linux.so_fflush_pid fuel _ os fr hfl
      simp only at h
      split_ifs at h
      · simp only [Option.some.injEq] at h
        subst h
        exact hk
      · simp only [Option.some.injEq] at h
        subst h
        exact hk
  · simp only [Option.some.injEq] at h
    subst h
    rfl

theorem Linux.so_fseek_pid (fuel : Nat) (s : SoFile) (os : Os) (offset whence : Int)
    (r : Ret Int) (h : Linux.so_fseek fuel s os offset whence = some r) :
    r.stream.pid = s.pid := by
  have hrep : ∀ (t : SoFile) (o : Os), (Linux.reposition t o offset whence).stream.pid = t.pid := by
    intro t o
    unfold Linux.reposition
    simp only
    split_ifs <;> rfl
  unfold Linux.so_fseek at h
  split_ifs at h with hw
  · cases hfl : Linux.so_fflush fuel s os with
    | none => rw [hfl] at h; simp at h
    | some fr =>
      rw [hfl] at h
      simp only [Option.some.injEq] at h
      subst h
      rw [hrep]
      exact Linux.so_fflush_pid fuel s os fr hfl
  · simp only [Option.some.injEq] at h
    subst h
    rw [hrep]

theorem Linux.so_fread_loop_pid :
    ∀ (todo bytes_read : Nat) (ptr : Nat → Byte) (s : SoFile) (os : Os),
      (Linux.so_fread_loop todo bytes_read ptr s os).stream.pid = s.pid := by
  intro todo
  induction todo with
  | zero => intro b ptr s os; rfl
  | succ n ih =>
    intro b ptr s os
    unfold Linux.so_fread_loop
    simp only
    split_ifs
    · exact Linux.so_fgetc_pid s os
    · rw [ih]; exact Linux.so_fgetc_pid s os

theorem Linux.so_fread_pid (ptr : Nat → Byte) (size nmemb : Nat) (s : SoFile) (os : Os) :
    (Linux.so_fread ptr size nmemb s os).stream.pid = s.pid := by
  unfold Linux.so_fread
  simp only
  split_ifs
  · rfl
  · exact Linux.so_fread_loop_pid _ _ _ _ _

theorem Linux.so_fwrite_loop_pid (fuel : Nat) (ptr : Nat → Byte) :
    ∀ (todo bytes_written : Nat) (s : SoFile) (os : Os) (r : Ret Nat),
      Linux.so_fwrite_loop fuel ptr todo bytes_written s os = some r →
      r.stream.pid = s.pid := by
  intro todo
  induction todo with
  | zero =>
    intro b s os r h
    simp only [Linux.so_fwrite_loop, Option.some.injEq] at h
    subst h
    rfl
  | succ n ih =>
    intro b s os r h
    unfold Linux.so_fwrite_loop at h
    cases hp : Linux.so_fputc fuel (loadInt ptr b) s os with
    | none => rw [hp] at h; simp at h
    | some pr =>
      rw [hp] at h
      have hk := Linux.so_fputc_pid fuel _ s os pr hp
      simp only at h
      split_ifs at h
      · simp only [Option.some.injEq] at h
        subst h
        exact hk
      · rw [ih _ _ _ _ h, hk]

theorem Linux.so_fwrite_pid (fuel : Nat) (ptr : Nat → Byte) (size nmemb : Nat) (s : SoFile)
    (os : Os) (r : Ret Nat) (h : Linux.so_fwrite fuel ptr size nmemb s os = some r) :
    r.stream.pid = s.pid := by
  unfold Linux.so_fwrite at h
  simp only at h
  split_ifs at h
  · simp only [Option.some.injEq] at h
    subst h
    rfl
  · cases hl : Linux.so_fwrite_loop fuel ptr (nmemb * size % 2 ^ 64) 0
        { s with was_written := 1 } os with
    | none => rw [hl] at h; simp at h
    | some lr =>
      rw [hl] at h
      simp only [Option.some.injEq] at h
      subst h
      exact Linux.so_fwrite_loop_pid fuel ptr _ _ { s with was_written := 1 } _ lr hl

theorem Linux.step_pid (fuel : Nat) (op : Linux.Op) (s : SoFile) (os : Os) (s1 : SoFile)
    (os1 : Os) (h : Linux.step fuel op s os = some (s1, os1)) : s1.pid = s.pid := by
  cases op with
  | fgetc =>
    simp only [Linux.step, Option.some.injEq, Prod.mk.injEq] at h
    rw [← h.1]; exact Linux.so_fgetc_pid s os
  | fputc c =>
    simp only [Linux.step, Option.map_eq_some'] at h
    obtain ⟨r, hr, he⟩ := h
    simp only [Prod.mk.injEq] at he
    rw [← he.1]; exact Linux.so_fputc_pid fuel c s os r hr
  | fread ptr size nmemb =>
    simp only [Linux.step, Option.some.injEq, Prod.mk.injEq] at h
    rw [← h.1]; exact Linux.so_fread_pid ptr size nmemb s os
  | fwrite ptr size nmemb =>
    simp only [Linux.step, Option.map_eq_some'] at h
    obtain ⟨r, hr, he⟩ := h
    simp only [Prod.mk.injEq] at he
    rw [← he.1]; exact Linux.so_fwrite_pid fuel ptr size nmemb s os r hr
  | fflush =>
    simp only [Linux.step, Option.map_eq_some'] at h
    obtain ⟨r, hr, he⟩ := h
    simp only [Prod.mk.injEq] at he
    rw [← he.1]; exact Linux.so_fflush_pid fuel s os r hr
  | fseek offset whence =>
    simp only [Linux.step, Option.map_eq_some'] at h
    obtain ⟨r, hr, he⟩ := h
    simp only [Prod.mk.injEq] at he
    rw [← he.1]; exact Linux.so_fseek_pid fuel s os offset whence r hr
  | ftell | feof | ferror | fileno =>
    simp only [Linux.step, Option.some.injEq, Prod.mk.injEq] at h
    rw [← h.1]

theorem Linux.run_pid (fuel : Nat) :
    ∀ (ops : List Linux.Op) (s : SoFile) (os : Os) (s1 : SoFile) (os1 : Os),
      Linux.run fuel ops s os = some (s1, os1) → s1.pid = s.pid := by
  intro ops
  induction ops with
  | nil =>
    intro s os s1 os1 h
    simp only [Linux.run, Option.some.injEq, Prod.mk.injEq] at h
    rw [← h.1]
  | cons op ops ih =>
    intro s os s1 os1 h
    unfold Linux.run at h
    cases hst : Linux.step fuel op s os with
    | none => rw [hst] at h; simp at h
    | some mid =>
      obtain ⟨s2, os2⟩ := mid
      rw [hst] at h
      rw [ih s2 os2 s1 os1 h, Linux.step_pid fuel op s os s2 os2 hst]

/-! ## Reading a buffer whose content was replaced -/

/-- A `read` reports an error or the number of bytes it delivered, at most
`count`. -/
theorem sys_read_shape (os : Os) (fd : Int) (count : Nat) :
    (sys_read os fd count).ret = -1 ∨
    ((sys_read os fd count).ret = ((sys_read os fd count).bytes.length : Int) ∧
      (sys_read os fd count).bytes.length ≤ count) := by
  unfold sys_read
  split
  · exact Or.inl rfl
  · refine Or.inr ⟨rfl, ?_⟩
    simp only [List.length_take]
    omega

theorem blit_agree (b1 b2 : Nat → Byte) (bs : List Byte) (i : Nat) (h : i < bs.length) :
    blit b1 bs i = blit b2 bs i := by
  simp only [blit, h, ↓reduceDIte]

/-- `so_fgetc` when the refill fails. -/
theorem Linux.so_fgetc_eq_fail (s : SoFile) (os : Os) (hfe : s.feof = 0)
    (hc : s.cursor_buf_read = 0 ∨ s.cursor_buf_read = s.buffer_size)
    (hr : (sys_read os s.fd FILE_BUFF_LEN).ret < 0) :
    Linux.so_fgetc s os
      = { val := SO_EOF, stream := { s with was_written := 0, ferror := 1 }
          os := (sys_read os s.fd FILE_BUFF_LEN).os } := by
  unfold Linux.so_fgetc
  simp only
  rw [if_neg (by simp [hfe]), if_pos hc, if_pos hr]

/-- `so_fgetc` when the refill meets the end of the file. -/
theorem Linux.so_fgetc_eq_end (s : SoFile) (os : Os) (hfe : s.feof = 0)
    (hc : s.cursor_buf_read = 0 ∨ s.cursor_buf_read = s.buffer_size)
    (hr : (sys_read os s.fd FILE_BUFF_LEN).ret = 0) :
    Linux.so_fgetc s os
      = { val := SO_EOF, stream := { s with was_written := 0, feof := 1 }
          os := (sys_read os s.fd FILE_BUFF_LEN).os } := by
  unfold Linux.so_fgetc
  simp only
  rw [if_neg (by simp [hfe]), if_pos hc, if_neg (by omega), if_pos hr]

/-- `so_fgetc` when the refill delivers bytes. -/
theorem Linux.so_fgetc_eq_refill (s : SoFile) (os : Os) (hfe : s.feof = 0)
    (hc : s.cursor_buf_read = 0 ∨ s.cursor_buf_read = s.buffer_size)
    (hr : 0 < (sys_read os s.fd FILE_BUFF_LEN).ret) :
    Linux.so_fgetc s os
      = Linux.fetch
          { s with
            was_written := 0, buffer := blit s.buffer (sys_read os s.fd FILE_BUFF_LEN).bytes
            cursor_buf_read := 0, buffer_size := (sys_read os s.fd FILE_BUFF_LEN).ret }
          (sys_read os s.fd FILE_BUFF_LEN).os := by
  unfold Linux.so_fgetc
  simp only
  rw [if_neg (by simp [hfe]), if_pos hc, if_neg (by omega), if_neg (by omega)]

/-- `so_fgetc` when the buffer holds the next byte. -/
theorem Linux.so_fgetc_eq_fetch (s : SoFile) (os : Os) (hfe : s.feof = 0)
    (h0 : s.cursor_buf_read ≠ 0) (h1 : s.cursor_buf_read ≠ s.buffer_size) :
    Linux.so_fgetc s os = Linux.fetch { s with was_written := 0 } os := by
  unfold Linux.so_fgetc
  simp only
  rw [if_neg (by simp [hfe]), if_neg (by simp [h0, h1])]

/-- Two records that differ in their buffers only, and only in cells that are
not unconsumed read bytes, are indistinguishable by `so_fgetc`. -/
theorem Linux.so_fgetc_shadow (s : SoFile) (b : Nat → Byte) (os : Os)
    (h0 : 0 ≤ s.cursor_buf_read) (h1 : s.cursor_buf_read ≤ s.buffer_size)
    (h2 : s.buffer_size ≤ (FILE_BUFF_LEN : Int))
    (hb : ∀ i : Nat, s.cursor_buf_read ≤ (i : Int) → (i : Int) < s.buffer_size →
      b i = s.buffer i) :
    (Linux.so_fgetc { s with buffer := b } os).val = (Linux.so_fgetc s os).val ∧
    (Linux.so_fgetc { s with buffer := b } os).os = (Linux.so_fgetc s os).os ∧
    0 ≤ (Linux.so_fgetc s os).stream.cursor_buf_read ∧
    (Linux.so_fgetc s os).stream.cursor_buf_read ≤ (Linux.so_fgetc s os).stream.buffer_size ∧
    (Linux.so_fgetc s os).stream.buffer_size ≤ (FILE_BUFF_LEN : Int) ∧
    ∃ b1, (Linux.so_fgetc { s with buffer := b } os).stream
        = { (Linux.so_fgetc s os).stream with buffer := b1 } ∧
      ∀ i : Nat, (Linux.so_fgetc s os).stream.cursor_buf_read ≤ (i : Int) →
        (i : Int) < (Linux.so_fgetc s os).stream.buffer_size →
        b1 i = (Linux.so_fgetc s os).stream.buffer i := by
  have hF : (FILE_BUFF_LEN : Int) = 4096 := rfl
  by_cases hfe : s.feof = 0
  · by_cases hc : s.cursor_buf_read = 0 ∨ s.cursor_buf_read = s.buffer_size
    · rcases sys_read_shape os s.fd FILE_BUFF_LEN with hr | ⟨hr, hlen⟩
      · have hneg : (sys_read os s.fd FILE_BUFF_LEN).ret < 0 := by omega
        rw [Linux.so_fgetc_eq_fail s os hfe hc hneg,
          Linux.so_fgetc_eq_fail { s with buffer := b } os hfe hc hneg]
        exact ⟨rfl, rfl, h0, h1, h2, b, rfl, hb⟩
      · by_cases hz : (sys_read os s.fd FILE_BUFF_LEN).ret = 0
        · rw [Linux.so_fgetc_eq_end s os hfe hc hz,
            Linux.so_fgetc_eq_end { s with buffer := b } os hfe hc hz]
          exact ⟨rfl, rfl, h0, h1, h2, b, rfl, hb⟩
        · have hpos : 0 < (sys_read os s.fd FILE_BUFF_LEN).bytes.length := by omega
          have hgt : 0 < (sys_read os s.fd FILE_BUFF_LEN).ret := by omega
          rw [Linux.so_fgetc_eq_refill s os hfe hc hgt,
            Linux.so_fgetc_eq_refill { s with buffer := b } os hfe hc hgt]
          have hw1 : wrap32 (0 + 1) = 1 := by decide
          simp only [Linux.fetch, Int.toNat_zero, hw1]
          refine ⟨by rw [blit_agree b s.buffer _ 0 hpos], trivial, by omega, by omega,
            by rw [hr]; exact_mod_cast hlen, blit b (sys_read os s.fd FILE_BUFF_LEN).bytes, rfl, ?_⟩
          intro i _ hi
          exact blit_agree _ _ _ i (by omega)
    · have hc0 : s.cursor_buf_read ≠ 0 := fun h => hc (Or.inl h)
      have hc1 : s.cursor_buf_read ≠ s.buffer_size := fun h => hc (Or.inr h)
      have hlt : s.cursor_buf_read < s.buffer_size := lt_of_le_of_ne h1 hc1
      have hw : wrap32 (s.cursor_buf_read + 1) = s.cursor_buf_read + 1 :=
        wrap32_of_range _ (by omega) (by omega)
      rw [Linux.so_fgetc_eq_fetch s os hfe hc0 hc1,
        Linux.so_fgetc_eq_fetch { s with buffer := b } os hfe hc0 hc1]
      simp only [Linux.fetch, hw]
      refine ⟨by rw [hb s.cursor_buf_read.toNat (by omega) (by omega)], trivial, by omega,
        by omega, h2, b, rfl, ?_⟩
      intro i hi1 hi2
      exact hb i (by omega) hi2
  · rw [Linux.so_fgetc_at_eof s os hfe, Linux.so_fgetc_at_eof { s with buffer := b } os hfe]
    exact ⟨rfl, rfl, h0, h1, h2, b, rfl, hb⟩

theorem Linux.getBytes_shadow :
    ∀ (n : Nat) (s : SoFile) (b : Nat → Byte) (os : Os),
      0 ≤ s.cursor_buf_read → s.cursor_buf_read ≤ s.buffer_size →
      s.buffer_size ≤ (FILE_BUFF_LEN : Int) →
      (∀ i : Nat, s.cursor_buf_read ≤ (i : Int) → (i : Int) < s.buffer_size →
        b i = s.buffer i) →
      (Linux.getBytes n { s with buffer := b } os).val = (Linux.getBytes n s os).val := by
  intro n
  induction n with
  | zero => intro s b os _ _ _ _; rfl
  | succ n ih =>
    intro s b os h0 h1 h2 hb
    obtain ⟨e1, e2, g0, g1, g2, b1, e3, hb1⟩ := Linux.so_fgetc_shadow s b os h0 h1 h2 hb
    simp only [Linux.getBytes]
    rw [e1, e2, e3]
    congr 1
    exact ih _ b1 _ g0 g1 g2 hb1

theorem Linux.getBytes_add (m n : Nat) :
    ∀ (s : SoFile) (os : Os),
      (Linux.getBytes (m + n) s os).val
        = (Linux.getBytes m s os).val
          ++ (Linux.getBytes n (Linux.getBytes m s os).stream (Linux.getBytes m s os).os).val := by
  induction m with
  | zero => intro s os; simp [Linux.getBytes]
  | succ m ih =>
    intro s os
    rw [Nat.succ_add]
    simp only [Linux.getBytes, List.cons_append]
    rw [ih]

/-- Consuming `k` bytes that the buffer holds: no call is issued, the values
are the cells under the read cursor, and the record afterwards depends on the
buffer's content only through the buffer field. -/
theorem Linux.getBytes_buffered :
    ∀ (k : Nat) (s : SoFile) (os : Os),
      s.feof = 0 → 0 < s.cursor_buf_read → s.cursor_buf_read + k ≤ s.buffer_size →
      s.buffer_size ≤ (FILE_BUFF_LEN : Int) →
      (Linux.getBytes k s os).val
        = (memRange s.buffer s.cursor_buf_read.toNat k).map (fun x => (x.val : Int)) ∧
      (Linux.getBytes k s os).os = os ∧
      (Linux.getBytes k s os).stream.cursor_buf_read = s.cursor_buf_read + k ∧
      (Linux.getBytes k s os).stream.buffer_size = s.buffer_size ∧
      (Linux.getBytes k s os).stream.buffer = s.buffer ∧
      ∀ b, (Linux.getBytes k { s with buffer := b } os).stream
        = { (Linux.getBytes k s os).stream with buffer := b } := by
  intro k
  induction k with
  | zero =>
    intro s os _ _ _ _
    simp [Linux.getBytes, memRange_zero]
  | succ k ih =>
    intro s os hfe hpos hle hsz
    have hF : (FILE_BUFF_LEN : Int) = 4096 := rfl
    have hw : wrap32 (s.cursor_buf_read + 1) = s.cursor_buf_read + 1 :=
      wrap32_of_range _ (by omega) (by omega)
    have hg : ∀ b, Linux.so_fgetc { s with buffer := b } os
        = { val := ((b s.cursor_buf_read.toNat).val : Int)
            stream := { s with
              was_written := 0, buffer := b, cursor_fd := wrap32 (s.cursor_fd + 1)
              cursor_buf_read := s.cursor_buf_read + 1 }
            os := os } := by
      intro b
      unfold Linux.so_fgetc
      simp only
      rw [if_neg (by simp [hfe]), if_neg (by push_cast at hle; omega)]
      simp only [Linux.fetch, hw]
    have hg0 := hg s.buffer
    have hs : ({ s with buffer := s.buffer } : SoFile) = s := rfl
    rw [hs] at hg0
    obtain ⟨i1, i2, i3, i4, i5, i6⟩ := ih
      { s with
        was_written := 0, cursor_fd := wrap32 (s.cursor_fd + 1)
        cursor_buf_read := s.cursor_buf_read + 1 } os hfe
      (by show 0 < s.cursor_buf_read + 1; omega)
      (by show s.cursor_buf_read + 1 + (k : Int) ≤ s.buffer_size; push_cast at hle; omega) hsz
    simp only [Linux.getBytes]
    rw [hg0]
    simp only
    refine ⟨?_, i2, ?_, i4, i5, ?_⟩
    · rw [i1, memRange_succ_first]
      simp only [List.map_cons]
      have e : (s.cursor_buf_read + 1).toNat = s.cursor_buf_read.toNat + 1 := by omega
      rw [e]
    · rw [i3]; push_cast; omega
    · intro b
      rw [hg b]
      exact i6 b

theorem memRange_memset0 (buf : Nat → Byte) (a k : Nat) (h : a + k ≤ FILE_BUFF_LEN) :
    memRange (memset0 buf) a k = List.replicate k 0 := by
  apply List.ext_getElem
  · simp [memRange_length]
  · intro i h1 h2
    simp only [memRange_length] at h1
    simp only [memRange, List.getElem_map, List.getElem_range, List.getElem_replicate]
    exact memset0_zero buf (a + i) (by omega)

/-- `so_fflush` with nothing pending issues no call and zeroes the buffer. -/
theorem Linux.so_fflush_nothing (fuel : Nat) (s : SoFile) (os : Os)
    (h : s.cursor_buf_write = 0) :
    Linux.so_fflush fuel s os
      = some { val := 0, stream := { s with buffer := memset0 s.buffer }, os := os } := by
  unfold Linux.so_fflush
  rw [Linux.so_fflush_loop_eq_drain, drain_nothing _ _ _ _ _ (le_of_eq h)]
  simp only
  rw [← h]

/-! ## A read cursor beyond the valid-byte count (top-level variant) -/

/-- `so_fgetc` of `src/so_stdio.c` when the read cursor is neither 0 nor the
valid-byte count: no refill, whatever the order of the two. -/
theorem Win.so_fgetc_eq_fetch_toplevel (s : Win.SoFile) (os : Os) (hfe : s.feof = 0)
    (h0 : s.cursor_buf_read ≠ 0) (h1 : s.cursor_buf_read ≠ s.buffer_size) :
    Win.so_fgetc s os = Win.fetch { s with was_written := 0 } os := by
  unfold Win.so_fgetc
  simp only
  rw [if_neg (by simp [hfe]), if_neg (by simp [h0, h1])]

/-- Once the valid-byte count is 0 and the read cursor is positive, every
`so_fgetc` of `src/so_stdio.c` reads the cell under the read cursor and moves
the cursor on, without a refill. -/
theorem Win.getBytes_runaway :
    ∀ (n : Nat) (s : Win.SoFile) (os : Os),
      s.feof = 0 → s.buffer_size = 0 → 0 < s.cursor_buf_read →
      s.cursor_buf_read + n < 2 ^ 31 →
      (Win.getBytes n s os).stream.cursor_buf_read = s.cursor_buf_read + n ∧
      (Win.getBytes n s os).stream.buffer_size = 0 ∧
      (Win.getBytes n s os).stream.feof = 0 ∧
      (Win.getBytes n s os).os = os ∧
      Win.so_fgetc_index (Win.getBytes n s os).stream (Win.getBytes n s os).os
        = some (s.cursor_buf_read + n) := by
  intro n
  induction n with
  | zero =>
    intro s os hfe hsz hpos _
    refine ⟨by simp [Win.getBytes], hsz, hfe, rfl, ?_⟩
    show Win.so_fgetc_index s os = some (s.cursor_buf_read + ((0 : Nat) : Int))
    unfold Win.so_fgetc_index
    rw [if_neg (by simp [hfe]), if_neg (by rw [hsz]; omega)]
    simp
  | succ n ih =>
    intro s os hfe hsz hpos hlt
    have hw : wrap32 (s.cursor_buf_read + 1) = s.cursor_buf_read + 1 :=
      wrap32_of_range _ (by omega) (by push_cast at hlt; omega)
    have hg := Win.so_fgetc_eq_fetch_toplevel s os hfe (by omega) (by omega)
    simp only [Win.getBytes]
    rw [hg]
    simp only [Win.fetch, hw]
    obtain ⟨i1, i2, i3, i4, i5⟩ := ih
      { s with
        was_written := 0, cursor_fd := wrap32 (s.cursor_fd + 1)
        cursor_buf_read := s.cursor_buf_read + 1 } os hfe hsz
      (by show 0 < s.cursor_buf_read + 1; omega)
      (by show s.cursor_buf_read + 1 + (n : Int) < 2 ^ 31; push_cast at hlt; omega)
    refine ⟨?_, i2, i3, i4, ?_⟩
    · rw [i1]; push_cast; ring
    · rw [i5]; push_cast
      show some (s.cursor_buf_read + 1 + (n : Int)) = _
      congr 1; ring

/-! ## The cursors stay within their bounds -/

/-- The record `so_fopen` returns is the zeroed record with its descriptor. -/
theorem Linux.so_fopen_some (pathname mode : String) (os : Os) (s : SoFile) (os1 : Os)
    (h : Linux.so_fopen pathname mode os = (some s, os1)) :
    s = { SoFile.zero with fd := (os.newfd : Int) } ∧
    os1.wsched = os.wsched ∧ os1.rsched = os.rsched := by
  unfold Linux.so_fopen at h
  cases hm : Linux.modeFlags mode with
  | none => rw [hm] at h; simp at h
  | some flags =>
    rw [hm] at h
    simp only at h
    unfold sys_open at h
    split at h
    · simp only at h
      split at h
      · simp at h
      · unfold sys_calloc at h
        simp only at h
        split at h
        · simp at h
        · simp only [Prod.mk.injEq, Option.some.injEq] at h
          obtain ⟨rfl, rfl⟩ := h
          exact ⟨rfl, rfl, rfl⟩
    · simp at h

theorem Linux.so_fgetc_cw (s : SoFile) (os : Os) :
    (Linux.so_fgetc s os).stream.cursor_buf_write = s.cursor_buf_write := by
  unfold Linux.so_fgetc Linux.fetch
  simp only
  split_ifs <;> rfl

theorem Linux.so_fgetc_bounds (s : SoFile) (os : Os) (h : Linux.CursorsInBounds s) :
    Linux.CursorsInBounds (Linux.so_fgetc s os).stream := by
  obtain ⟨-, -, g0, g1, g2, -⟩ :=
    Linux.so_fgetc_shadow s s.buffer os h.cbr0 h.cbr1 h.bsz1 (fun _ _ _ => rfl)
  exact ⟨by rw [Linux.so_fgetc_cw]; exact h.cw0, by rw [Linux.so_fgetc_cw]; exact h.cw1,
    g0, g1, g2⟩

theorem Linux.so_fflush_bounds (fuel : Nat) (s : SoFile) (os : Os) (r : Ret Int)
    (h : Linux.CursorsInBounds s) (hr : Linux.so_fflush fuel s os = some r) :
    Linux.CursorsInBounds r.stream := by
  obtain ⟨D, O, n, L, -, -, hc⟩ := Linux.so_fflush_cases fuel s os r hr
  rcases hc with ⟨-, hs, -⟩ | ⟨-, hs, -⟩
  · rw [hs]; exact h
  · rw [hs]
    exact ⟨le_refl 0, by show (0 : Int) ≤ (FILE_BUFF_LEN : Int); simp, h.cbr0, h.cbr1, h.bsz1⟩

theorem Linux.so_fputc_bounds (fuel : Nat) (c : Int) (s : SoFile) (os : Os) (r : Ret Int)
    (h : Linux.CursorsInBounds s) (hr : Linux.so_fputc fuel c s os = some r) :
    Linux.CursorsInBounds r.stream := by
  have hF : (FILE_BUFF_LEN : Int) = 4096 := rfl
  have h0 := h.cw0
  have h1 := h.cw1
  rcases Linux.so_fputc_cases fuel c s os r hr with
    ⟨D, O, n, L, -, e, -⟩ | ⟨D, O, n, L, -, e, -⟩ | ⟨hne, e⟩
  · rw [e]; exact ⟨h.cw0, h.cw1, h.cbr0, h.cbr1, h.bsz1⟩
  · rw [e]
    have hw : wrap32 (0 + 1) = 1 := by decide
    refine ⟨?_, ?_, h.cbr0, h.cbr1, h.bsz1⟩
    · show 0 ≤ wrap32 (0 + 1); rw [hw]; decide
    · show wrap32 (0 + 1) ≤ (FILE_BUFF_LEN : Int); rw [hw, hF]; decide
  · rw [e]
    have hw : wrap32 (s.cursor_buf_write + 1) = s.cursor_buf_write + 1 :=
      wrap32_of_range _ (by omega) (by omega)
    refine ⟨?_, ?_, h.cbr0, h.cbr1, h.bsz1⟩
    · show 0 ≤ wrap32 (s.cursor_buf_write + 1); rw [hw]; omega
    · show wrap32 (s.cursor_buf_write + 1) ≤ (FILE_BUFF_LEN : Int); rw [hw]; omega

theorem Linux.reposition_cursors (s : SoFile) (os : Os) (offset whence : Int) :
    (Linux.reposition s os offset whence).stream.cursor_buf_write = s.cursor_buf_write ∧
    (Linux.reposition s os offset whence).stream.cursor_buf_read = s.cursor_buf_read ∧
    (Linux.reposition s os offset whence).stream.buffer_size = s.buffer_size ∧
    (Linux.reposition s os offset whence).stream.was_written = s.was_written := by
  unfold Linux.reposition
  simp only
  split_ifs <;> exact ⟨rfl, rfl, rfl, rfl⟩

theorem Linux.so_fseek_bounds (fuel : Nat) (s : SoFile) (os : Os) (offset whence : Int)
    (r : Ret Int) (h : Linux.CursorsInBounds s)
    (hr : Linux.so_fseek fuel s os offset whence = some r) :
    Linux.CursorsInBounds r.stream := by
  unfold Linux.so_fseek at hr
  split_ifs at hr with hw
  · cases hfl : Linux.so_fflush fuel s os with
    | none => rw [hfl] at hr; simp at hr
    | some fr =>
      rw [hfl] at hr
      simp only [Option.some.injEq] at hr
      subst hr
      have hb := Linux.so_fflush_bounds fuel s os fr h hfl
      obtain ⟨e1, e2, e3, -⟩ := Linux.reposition_cursors fr.stream fr.os offset whence
      exact ⟨by rw [e1]; exact hb.cw0, by rw [e1]; exact hb.cw1, by rw [e2]; exact hb.cbr0,
        by rw [e2, e3]; exact hb.cbr1, by rw [e3]; exact hb.bsz1⟩
  · simp only [Option.some.injEq] at hr
    subst hr
    obtain ⟨e1, e2, e3, -⟩ := Linux.reposition_cursors
      { s with buffer := memset0 s.buffer, cursor_buf_read := 0, buffer_size := 0 } os
      offset whence
    exact ⟨by rw [e1]; exact h.cw0, by rw [e1]; exact h.cw1, by rw [e2], by rw [e2, e3],
      by rw [e3]; show (0 : Int) ≤ (FILE_BUFF_LEN : Int); simp⟩

theorem Linux.so_fread_loop_bounds :
    ∀ (todo bytes_read : Nat) (ptr : Nat → Byte) (s : SoFile) (os : Os),
      Linux.CursorsInBounds s →
      Linux.CursorsInBounds (Linux.so_fread_loop todo bytes_read ptr s os).stream := by
  intro todo
  induction todo with
  | zero => intro b ptr s os h; exact h
  | succ n ih =>
    intro b ptr s os h
    unfold Linux.so_fread_loop
    simp only
    split_ifs
    · exact Linux.so_fgetc_bounds s os h
    · exact ih _ _ _ _ (Linux.so_fgetc_bounds s os h)

theorem Linux.so_fread_bounds (ptr : Nat → Byte) (size nmemb : Nat) (s : SoFile) (os : Os)
    (h : Linux.CursorsInBounds s) :
    Linux.CursorsInBounds (Linux.so_fread ptr size nmemb s os).stream := by
  unfold Linux.so_fread
  simp only
  split_ifs
  · exact ⟨h.cw0, h.cw1, h.cbr0, h.cbr1, h.bsz1⟩
  · exact Linux.so_fread_loop_bounds _ _ _ _ _ ⟨h.cw0, h.cw1, h.cbr0, h.cbr1, h.bsz1⟩

theorem Linux.so_fwrite_loop_bounds (fuel : Nat) (ptr : Nat → Byte) :
    ∀ (todo bytes_written : Nat) (s : SoFile) (os : Os) (r : Ret Nat),
      Linux.CursorsInBounds s →
      Linux.so_fwrite_loop fuel ptr todo bytes_written s os = some r →
      Linux.CursorsInBounds r.stream := by
  intro todo
  induction todo with
  | zero =>
    intro b s os r hb h
    simp only [Linux.so_fwrite_loop, Option.some.injEq] at h
    subst h
    exact hb
  | succ n ih =>
    intro b s os r hb h
    unfold Linux.so_fwrite_loop at h
    cases hp : Linux.so_fputc fuel (loadInt ptr b) s os with
    | none => rw [hp] at h; simp at h
    | some pr =>
      rw [hp] at h
      have hk := Linux.so_fputc_bounds fuel _ s os pr hb hp
      simp only at h
      split_ifs at h
      · simp only [Option.some.injEq] at h
        subst h
        exact hk
      · exact ih _ _ _ _ hk h

theorem Linux.so_fwrite_bounds (fuel : Nat) (ptr : Nat → Byte) (size nmemb : Nat) (s : SoFile)
    (os : Os) (r : Ret Nat) (hb : Linux.CursorsInBounds s)
    (h : Linux.so_fwrite fuel ptr size nmemb s os = some r) :
    Linux.CursorsInBounds r.stream := by
  unfold Linux.so_fwrite at h
  simp only at h
  split_ifs at h
  · simp only [Option.some.injEq] at h
    subst h
    exact ⟨hb.cw0, hb.cw1, hb.cbr0, hb.cbr1, hb.bsz1⟩
  · cases hl : Linux.so_fwrite_loop fuel ptr (nmemb * size % 2 ^ 64) 0
        { s with was_written := 1 } os with
    | none => rw [hl] at h; simp at h
    | some lr =>
      rw [hl] at h
      simp only [Option.some.injEq] at h
      subst h
      exact Linux.so_fwrite_loop_bounds fuel ptr _ _ { s with was_written := 1 } _ lr
        ⟨hb.cw0, hb.cw1, hb.cbr0, hb.cbr1, hb.bsz1⟩ hl

theorem Linux.step_bounds (fuel : Nat) (op : Linux.Op) (s : SoFile) (os : Os) (s1 : SoFile)
    (os1 : Os) (hb : Linux.CursorsInBounds s) (h : Linux.step fuel op s os = some (s1, os1)) :
    Linux.CursorsInBounds s1 := by
  cases op with
  | fgetc =>
    simp only [Linux.step, Option.some.injEq, Prod.mk.injEq] at h
    rw [← h.1]; exact Linux.so_fgetc_bounds s os hb
  | fputc c =>
    simp only [Linux.step, Option.map_eq_some'] at h
    obtain ⟨r, hr, he⟩ := h
    simp only [Prod.mk.injEq] at he
    rw [← he.1]; exact Linux.so_fputc_bounds fuel c s os r hb hr
  | fread ptr size nmemb =>
    simp only [Linux.step, Option.some.injEq, Prod.mk.injEq] at h
    rw [← h.1]; exact Linux.so_fread_bounds ptr size nmemb s os hb
  | fwrite ptr size nmemb =>
    simp only [Linux.step, Option.map_eq_some'] at h
    obtain ⟨r, hr, he⟩ := h
    simp only [Prod.mk.injEq] at he
    rw [← he.1]; exact Linux.so_fwrite_bounds fuel ptr size nmemb s os r hb hr
  | fflush =>
    simp only [Linux.step, Option.map_eq_some'] at h
    obtain ⟨r, hr, he⟩ := h
    simp only [Prod.mk.injEq] at he
    rw [← he.1]; exact Linux.so_fflush_bounds fuel s os r hb hr
  | fseek offset whence =>
    simp only [Linux.step, Option.map_eq_some'] at h
    obtain ⟨r, hr, he⟩ := h
    simp only [Prod.mk.injEq] at he
    rw [← he.1]; exact Linux.so_fseek_bounds fuel s os offset whence r hb hr
  | ftell | feof | ferror | fileno =>
    simp only [Linux.step, Option.some.injEq, Prod.mk.injEq] at h
    rw [← h.1]; exact hb

theorem Linux.run_bounds (fuel : Nat) :
    ∀ (ops : List Linux.Op) (s : SoFile) (os : Os) (s1 : SoFile) (os1 : Os),
      Linux.CursorsInBounds s → Linux.run fuel ops s os = some (s1, os1) →
      Linux.CursorsInBounds s1 := by
  intro ops
  induction ops with
  | nil =>
    intro s os s1 os1 hb h
    simp only [Linux.run, Option.some.injEq, Prod.mk.injEq] at h
    rw [← h.1]; exact hb
  | cons op ops ih =>
    intro s os s1 os1 hb h
    unfold Linux.run at h
    cases hst : Linux.step fuel op s os with
    | none => rw [hst] at h; simp at h
    | some mid =>
      obtain ⟨s2, os2⟩ := mid
      rw [hst] at h
      exact ih s2 os2 s1 os1 (Linux.step_bounds fuel op s os s2 os2 hb hst) h

/-- With the cursors within their bounds, `so_fgetc` reads a cell of the
buffer. -/
theorem Linux.so_fgetc_index_bound (s : SoFile) (os : Os) (h : Linux.CursorsInBounds s)
    (i : Int) (hi : Linux.so_fgetc_index s os = some i) : 0 ≤ i ∧ i < (FILE_BUFF_LEN : Int) := by
  have hF : (FILE_BUFF_LEN : Int) = 4096 := rfl
  have h0 := h.cbr0
  have h1 := h.cbr1
  have h2 := h.bsz1
  unfold Linux.so_fgetc_index at hi
  simp only at hi
  split_ifs at hi with a b c d
  · simp only [Option.some.injEq] at hi
    omega
  · simp only [Option.some.injEq] at hi
    have : s.cursor_buf_read ≠ s.buffer_size := fun e => b (Or.inr e)
    omega

/-- With the cursors within their bounds, `so_fputc` writes a cell of the
buffer. -/
theorem Linux.so_fputc_index_bound (fuel : Nat) (s : SoFile) (os : Os)
    (h : Linux.CursorsInBounds s) (i : Int)
    (hi : Linux.so_fputc_index fuel s os = some (some i)) :
    0 ≤ i ∧ i < (FILE_BUFF_LEN : Int) := by
  have hF : (FILE_BUFF_LEN : Int) = 4096 := rfl
  have h0 := h.cw0
  have h1 := h.cw1
  unfold Linux.so_fputc_index at hi
  simp only at hi
  split_ifs at hi with a
  · cases hfl : Linux.so_fflush fuel { s with was_written := 1 } os with
    | none => rw [hfl] at hi; simp at hi
    | some fr =>
      rw [hfl] at hi
      simp only at hi
      obtain ⟨D, O, n, L, -, -, hc⟩ := Linux.so_fflush_cases fuel _ os fr hfl
      rcases hc with ⟨hv, -, -⟩ | ⟨hv, hs, -⟩
      · rw [if_pos hv] at hi
        simp at hi
      · rw [if_neg (by rw [hv]; decide)] at hi
        simp only [Option.some.injEq] at hi
        rw [hs] at hi
        simp only at hi
        omega
  · simp only [Option.some.injEq] at hi
    omega

/-! ## Counting the implicit flushes -/

theorem split_at_length {α : Type} (A P H B : List α) (k : Nat) (h : A ++ P = H ++ B)
    (hlen : A.length = H.length + k) : A = H ++ B.take k ∧ P = B.drop k := by
  constructor
  · have e : A = (A ++ P).take A.length := by simp
    rw [e, h, hlen, List.take_append]
  · have e : P = (A ++ P).drop A.length := by simp
    rw [e, h, hlen, List.drop_append]

/-- On a device where writes succeed `so_fflush` (Linux) returns 0. -/
theorem Linux.so_fflush_val_ok (fuel : Nat) (s : SoFile) (os : Os) (r : Ret Int)
    (hwr : os.writable = true) (hws : WritesSucceed os)
    (h : Linux.so_fflush fuel s os = some r) : r.val = 0 := by
  unfold Linux.so_fflush at h
  rw [Linux.so_fflush_loop_eq_drain] at h
  cases hd : drain s.fd s.buffer s.cursor_buf_write fuel 0 os with
  | none => rw [hd] at h; simp at h
  | some res =>
    obtain ⟨ok, os1⟩ := res
    have hok := drain_succeeds _ _ _ _ _ _ _ _ hwr hws hd
    subst hok
    rw [hd] at h
    simp only [Option.some.injEq] at h
    rw [← h]

theorem Os.wrote_writable (os : Os) (D : List Byte) (O n : Nat) (L : List Call) :
    (os.wrote D O n L).writable = os.writable := rfl

theorem WritesSucceed.after_wrote {os : Os} (h : WritesSucceed os) (D : List Byte) (O n : Nat)
    (L : List Call) : WritesSucceed (os.wrote D O n L) := h

/-- One `so_fputc` (Linux) on a device where writes succeed: it returns, the
byte joins the output, and it flushes exactly when the buffer is full, the
flush transferring the 4096 pending bytes. -/
theorem Linux.so_fputc_good (fuel : Nat) (c : Int) (s : SoFile) (os : Os)
    (hf : FILE_BUFF_LEN ≤ fuel)
    (h0 : 0 ≤ s.cursor_buf_write) (h1 : s.cursor_buf_write ≤ (FILE_BUFF_LEN : Int))
    (hwr : os.writable = true) (hws : WritesSucceed os) :
    ∃ r, Linux.so_fputc fuel c s os = some r ∧ r.os.writable = true ∧ WritesSucceed r.os ∧
      handed r.os.log ++ pending r.stream = handed os.log ++ pending s ++ [byteOfInt c] ∧
      (s.cursor_buf_write = (FILE_BUFF_LEN : Int) →
        r.stream.cursor_buf_write = 1 ∧
        (handed r.os.log).length = (handed os.log).length + FILE_BUFF_LEN) ∧
      (s.cursor_buf_write ≠ (FILE_BUFF_LEN : Int) →
        r.stream.cursor_buf_write = s.cursor_buf_write + 1 ∧
        (handed r.os.log).length = (handed os.log).length) := by
  have hF : (FILE_BUFF_LEN : Int) = 4096 := rfl
  by_cases hfull : s.cursor_buf_write = (FILE_BUFF_LEN : Int)
  · obtain ⟨fr, hfr⟩ := Linux.so_fflush_terminates fuel { s with was_written := 1 } os
      hws.progress (by show s.cursor_buf_write.toNat ≤ fuel; rw [hfull]; simpa using hf)
    have hv := Linux.so_fflush_val_ok fuel _ os fr hwr hws hfr
    obtain ⟨D, O, n, L, hos, -, hc⟩ := Linux.so_fflush_cases fuel _ os fr hfr
    rcases hc with ⟨hv2, -⟩ | ⟨-, hs, -, hh, -⟩
    · rw [hv] at hv2; exact absurd hv2 (by decide)
    · have hp : pending ({ s with was_written := 1 } : SoFile) = pending s := rfl
      rw [hp] at hh
      have hput : Linux.so_fputc fuel c s os = some (Linux.store c fr.stream fr.os) := by
        unfold Linux.so_fputc
        simp only
        rw [if_pos hfull, hfr]
        simp only
        rw [if_neg (by rw [hv]; decide)]
      obtain ⟨sp, scw⟩ := Linux.store_pending c fr.stream fr.os (by rw [hs])
        (by rw [hs, hF]; show (0 : Int) < 4096; decide)
      have hpe : pending fr.stream = [] := by rw [hs]; rfl
      have hcw : fr.stream.cursor_buf_write = 0 := by rw [hs]
      have hlog : handed (Linux.store c fr.stream fr.os).os.log = handed os.log ++ pending s := by
        show handed fr.os.log = _
        rw [hos, Os.wrote_log, handed_append, hh]
      refine ⟨_, hput, by show fr.os.writable = true; rw [hos]; exact hwr,
        by show WritesSucceed fr.os; rw [hos]; exact hws, ?_, fun _ => ⟨?_, ?_⟩,
        fun hne => absurd hfull hne⟩
      · rw [hlog, sp, hpe]; simp
      · rw [scw, hcw]; rfl
      · rw [hlog, List.length_append]
        simp only [pending, memRange_length]
        rw [hfull]; simp
  · have hput : Linux.so_fputc fuel c s os = some (Linux.store c { s with was_written := 1 } os) := by
      unfold Linux.so_fputc
      simp only
      rw [if_neg hfull]
    obtain ⟨sp, scw⟩ := Linux.store_pending c { s with was_written := 1 } os h0
      (lt_of_le_of_ne h1 hfull)
    have hp : pending ({ s with was_written := 1 } : SoFile) = pending s := rfl
    rw [hp] at sp
    refine ⟨_, hput, hwr, hws, ?_, fun h => absurd h hfull, fun _ => ⟨scw, rfl⟩⟩
    rw [sp]
    show handed os.log ++ (pending s ++ [byteOfInt c]) = _
    simp

/-- Consecutive calls of `so_fputc` (Linux) on a device where writes succeed:
all return, and the implicit flushes are counted by the position of the last
byte. -/
theorem Linux.putInts_flushes (fuel : Nat) (hf : FILE_BUFF_LEN ≤ fuel) :
    ∀ (cs : List Int) (s : SoFile) (os : Os),
      0 ≤ s.cursor_buf_write → s.cursor_buf_write ≤ (FILE_BUFF_LEN : Int) →
      os.writable = true → WritesSucceed os →
      ∃ r, Linux.putInts fuel cs s os = some r ∧
        Linux.flushSizes fuel cs s os
          = some (List.replicate ((s.cursor_buf_write.toNat + cs.length - 1) / 4096) 4096) ∧
        (cs ≠ [] → r.stream.cursor_buf_write
          = (((s.cursor_buf_write.toNat + cs.length - 1) % 4096 + 1 : Nat) : Int)) ∧
        handed r.os.log ++ pending r.stream = handed os.log ++ pending s ++ cs.map byteOfInt ∧
        (handed r.os.log).length
          = (handed os.log).length
            + 4096 * ((s.cursor_buf_write.toNat + cs.length - 1) / 4096) := by
  have hF : (FILE_BUFF_LEN : Int) = 4096 := rfl
  have hFn : FILE_BUFF_LEN = 4096 := rfl
  intro cs
  induction cs with
  | nil =>
    intro s os h0 h1 _ _
    refine ⟨_, rfl, ?_, fun h => absurd rfl h, by simp, ?_⟩
    · have e : (s.cursor_buf_write.toNat + ([] : List Int).length - 1) / 4096 = 0 := by
        simp only [List.length_nil]; omega
      rw [e]; rfl
    · have e : (s.cursor_buf_write.toNat + ([] : List Int).length - 1) / 4096 = 0 := by
        simp only [List.length_nil]; omega
      rw [e]; rfl
  | cons c cs ih =>
    intro s os h0 h1 hwr hws
    obtain ⟨r1, hr1, hwr1, hws1, hout1, hfull1, hpart1⟩ :=
      Linux.so_fputc_good fuel c s os hf h0 h1 hwr hws
    have hb : 0 ≤ r1.stream.cursor_buf_write ∧ r1.stream.cursor_buf_write ≤ (FILE_BUFF_LEN : Int) := by
      by_cases hfull : s.cursor_buf_write = (FILE_BUFF_LEN : Int)
      · rw [(hfull1 hfull).1, hF]; decide
      · rw [(hpart1 hfull).1]
        have := lt_of_le_of_ne h1 hfull
        omega
    obtain ⟨r2, hr2, hfs2, hcw2, hout2, hlen2⟩ := ih r1.stream r1.os hb.1 hb.2 hwr1 hws1
    refine ⟨{ r2 with val := r1.val :: r2.val }, ?_, ?_, fun _ => ?_, ?_, ?_⟩
    · simp only [Linux.putInts, hr1, hr2]
    · simp only [Linux.flushSizes, hr1, hfs2]
      by_cases hfull : s.cursor_buf_write = (FILE_BUFF_LEN : Int)
      · rw [if_pos hfull]
        obtain ⟨e1, e2⟩ := hfull1 hfull
        rw [e1, e2, hfull]
        have a1 : (handed os.log).length + FILE_BUFF_LEN - (handed os.log).length = 4096 := by
          rw [hFn]; omega
        have a2 : (((FILE_BUFF_LEN : Nat) : Int).toNat + (c :: cs).length - 1) / 4096
            = ((1 : Int).toNat + cs.length - 1) / 4096 + 1 := by
          simp only [List.length_cons, Int.toNat_ofNat, hFn, Int.toNat_one]; omega
        rw [a1, a2, List.replicate_succ]
      · rw [if_neg hfull]
        obtain ⟨e1, -⟩ := hpart1 hfull
        rw [e1]
        have a2 : (s.cursor_buf_write.toNat + (c :: cs).length - 1) / 4096
            = ((s.cursor_buf_write + 1).toNat + cs.length - 1) / 4096 := by
          simp only [List.length_cons]
          have : (s.cursor_buf_write + 1).toNat = s.cursor_buf_write.toNat + 1 := by omega
          rw [this]
          congr 1
          omega
        rw [a2]
    · show r2.stream.cursor_buf_write = _
      cases cs with
      | nil =>
        simp only [Linux.putInts, Option.some.injEq] at hr2
        rw [← hr2]
        simp only [List.length_cons, List.length_nil]
        by_cases hfull : s.cursor_buf_write = (FILE_BUFF_LEN : Int)
        · rw [(hfull1 hfull).1, hfull]
          simp [hFn]
        · rw [(hpart1 hfull).1]
          have := lt_of_le_of_ne h1 hfull
          omega
      | cons d ds =>
        rw [hcw2 (by simp)]
        simp only [List.length_cons]
        by_cases hfull : s.cursor_buf_write = (FILE_BUFF_LEN : Int)
        · rw [(hfull1 hfull).1, hfull]
          simp only [Int.toNat_one, Int.toNat_ofNat, hFn]
          congr 1
          omega
        · rw [(hpart1 hfull).1]
          have := lt_of_le_of_ne h1 hfull
          have e : (s.cursor_buf_write + 1).toNat = s.cursor_buf_write.toNat + 1 := by omega
          rw [e]
          congr 2
          omega
    · show handed r2.os.log ++ pending r2.stream = _
      rw [hout2, hout1]
      simp
    · show (handed r2.os.log).length = _
      rw [hlen2]
      simp only [List.length_cons]
      by_cases hfull : s.cursor_buf_write = (FILE_BUFF_LEN : Int)
      · rw [(hfull1 hfull).1, (hfull1 hfull).2, hfull]
        simp only [Int.toNat_one, Int.toNat_ofNat, hFn]
        omega
      · rw [(hpart1 hfull).1, (hpart1 hfull).2]
        have := lt_of_le_of_ne h1 hfull
        have e : (s.cursor_buf_write + 1).toNat = s.cursor_buf_write.toNat + 1 := by omega
        rw [e]
        have e2 : s.cursor_buf_write.toNat + 1 + cs.length - 1
            = s.cursor_buf_write.toNat + (cs.length + 1) - 1 := by omega
        rw [e2]

/-- On a device where writes succeed `so_fflush` (top-level variant) returns 0. -/
theorem Win.so_fflush_val_ok_toplevel (fuel : Nat) (s : Win.SoFile) (os : Os) (r : Win.Ret Int)
    (hwr : os.writable = true) (hws : WritesSucceed os)
    (h : Win.so_fflush fuel s os = some r) : r.val = 0 := by
  unfold Win.so_fflush at h
  rw [Win.so_fflush_loop_eq_drain_toplevel] at h
  cases hd : drain s.fd s.buffer s.cursor_buf_write fuel 0 os with
  | none => rw [hd] at h; simp at h
  | some res =>
    obtain ⟨ok, os1⟩ := res
    have hok := drain_succeeds _ _ _ _ _ _ _ _ hwr hws hd
    subst hok
    rw [hd] at h
    simp only [Option.some.injEq] at h
    rw [← h]

/-- One `so_fputc` (top-level variant) on a device where writes succeed: it returns, the
byte joins the output, and it flushes exactly when the buffer is full, the
flush transferring the 4096 Win.pending bytes. -/
theorem Win.so_fputc_good_toplevel (fuel : Nat) (c : Int) (s : Win.SoFile) (os : Os)
    (hf : FILE_BUFF_LEN ≤ fuel)
    (h0 : 0 ≤ s.cursor_buf_write) (h1 : s.cursor_buf_write ≤ (FILE_BUFF_LEN : Int))
    (hwr : os.writable = true) (hws : WritesSucceed os) :
    ∃ r, Win.so_fputc fuel c s os = some r ∧ r.os.writable = true ∧ WritesSucceed r.os ∧
      handed r.os.log ++ Win.pending r.stream = handed os.log ++ Win.pending s ++ [byteOfInt c] ∧
      (s.cursor_buf_write = (FILE_BUFF_LEN : Int) →
        r.stream.cursor_buf_write = 1 ∧
        (handed r.os.log).length = (handed os.log).length + FILE_BUFF_LEN) ∧
      (s.cursor_buf_write ≠ (FILE_BUFF_LEN : Int) →
        r.stream.cursor_buf_write = s.cursor_buf_write + 1 ∧
        (handed r.os.log).length = (handed os.log).length) := by
  have hF : (FILE_BUFF_LEN : Int) = 4096 := rfl
  by_cases hfull : s.cursor_buf_write = (FILE_BUFF_LEN : Int)
  · obtain ⟨fr, hfr⟩ := Win.so_fflush_terminates_toplevel fuel { s with was_written := 1 } os
      hws.progress (by show s.cursor_buf_write.toNat ≤ fuel; rw [hfull]; simpa using hf)
    have hv := Win.so_fflush_val_ok_toplevel fuel _ os fr hwr hws hfr
    obtain ⟨D, O, n, L, hos, -, hc⟩ := Win.so_fflush_cases_toplevel fuel _ os fr hfr
    rcases hc with ⟨hv2, -⟩ | ⟨-, hs, -, hh, -⟩
    · rw [hv] at hv2; exact absurd hv2 (by decide)
    · have hp : Win.pending ({ s with was_written := 1 } : Win.SoFile) = Win.pending s := rfl
      rw [hp] at hh
      have hput : Win.so_fputc fuel c s os = some (Win.store c fr.stream fr.os) := by
        unfold Win.so_fputc
        simp only
        rw [if_pos hfull, hfr]
        simp only
        rw [if_neg (by rw [hv]; decide)]
      obtain ⟨sp, scw⟩ := Win.store_pending_toplevel c fr.stream fr.os (by rw [hs])
        (by rw [hs, hF]; show (0 : Int) < 4096; decide)
      have hpe : Win.pending fr.stream = [] := by rw [hs]; rfl
      have hcw : fr.stream.cursor_buf_write = 0 := by rw [hs]
      have hlog : handed (Win.store c fr.stream fr.os).os.log = handed os.log ++ Win.pending s := by
        show handed fr.os.log = _
        rw [hos, Os.wrote_log, handed_append, hh]
      refine ⟨_, hput, by show fr.os.writable = true; rw [hos]; exact hwr,
        by show WritesSucceed fr.os; rw [hos]; exact hws, ?_, fun _ => ⟨?_, ?_⟩,
        fun hne => absurd hfull hne⟩
      · rw [hlog, sp, hpe]; simp
      · rw [scw, hcw]; rfl
      · rw [hlog, List.length_append]
        simp only [Win.pending, memRange_length]
        rw [hfull]; simp
  · have hput : Win.so_fputc fuel c s os = some (Win.store c { s with was_written := 1 } os) := by
      unfold Win.so_fputc
      simp only
      rw [if_neg hfull]
    obtain ⟨sp, scw⟩ := Win.store_pending_toplevel c { s with was_written := 1 } os h0
      (lt_of_le_of_ne h1 hfull)
    have hp : Win.pending ({ s with was_written := 1 } : Win.SoFile) = Win.pending s := rfl
    rw [hp] at sp
    refine ⟨_, hput, hwr, hws, ?_, fun h => absurd h hfull, fun _ => ⟨scw, rfl⟩⟩
    rw [sp]
    show handed os.log ++ (Win.pending s ++ [byteOfInt c]) = _
    simp

/-- Consecutive calls of `so_fputc` (top-level variant) on a device where writes succeed:
all return, and the implicit flushes are counted by the position of the last
byte. -/
theorem Win.putInts_flushes_toplevel (fuel : Nat) (hf : FILE_BUFF_LEN ≤ fuel) :
    ∀ (cs : List Int) (s : Win.SoFile) (os : Os),
      0 ≤ s.cursor_buf_write → s.cursor_buf_write ≤ (FILE_BUFF_LEN : Int) →
      os.writable = true → WritesSucceed os →
      ∃ r, Win.putInts fuel cs s os = some r ∧
        Win.flushSizes fuel cs s os
          = some (List.replicate ((s.cursor_buf_write.toNat + cs.length - 1) / 4096) 4096) ∧
        (cs ≠ [] → r.stream.cursor_buf_write
          = (((s.cursor_buf_write.toNat + cs.length - 1) % 4096 + 1 : Nat) : Int)) ∧
        handed r.os.log ++ Win.pending r.stream = handed os.log ++ Win.pending s ++ cs.map byteOfInt ∧
        (handed r.os.log).length
          = (handed os.log).length
            + 4096 * ((s.cursor_buf_write.toNat + cs.length - 1) / 4096) := by
  have hF : (FILE_BUFF_LEN : Int) = 4096 := rfl
  have hFn : FILE_BUFF_LEN = 4096 := rfl
  intro cs
  induction cs with
  | nil =>
    intro s os h0 h1 _ _
    refine ⟨_, rfl, ?_, fun h => absurd rfl h, by simp, ?_⟩
    · have e : (s.cursor_buf_write.toNat + ([] : List Int).length - 1) / 4096 = 0 := by
        simp only [List.length_nil]; omega
      rw [e]; rfl
    · have e : (s.cursor_buf_write.toNat + ([] : List Int).length - 1) / 4096 = 0 := by
        simp only [List.length_nil]; omega
      rw [e]; rfl
  | cons c cs ih =>
    intro s os h0 h1 hwr hws
    obtain ⟨r1, hr1, hwr1, hws1, hout1, hfull1, hpart1⟩ :=
      Win.so_fputc_good_toplevel fuel c s os hf h0 h1 hwr hws
    have hb : 0 ≤ r1.stream.cursor_buf_write ∧ r1.stream.cursor_buf_write ≤ (FILE_BUFF_LEN : Int) := by
      by_cases hfull : s.cursor_buf_write = (FILE_BUFF_LEN : Int)
      · rw [(hfull1 hfull).1, hF]; decide
      · rw [(hpart1 hfull).1]
        have := lt_of_le_of_ne h1 hfull
        omega
    obtain ⟨r2, hr2, hfs2, hcw2, hout2, hlen2⟩ := ih r1.stream r1.os hb.1 hb.2 hwr1 hws1
    refine ⟨{ r2 with val := r1.val :: r2.val }, ?_, ?_, fun _ => ?_, ?_, ?_⟩
    · simp only [Win.putInts, hr1, hr2]
    · simp only [Win.flushSizes, hr1, hfs2]
      by_cases hfull : s.cursor_buf_write = (FILE_BUFF_LEN : Int)
      · rw [if_pos hfull]
        obtain ⟨e1, e2⟩ := hfull1 hfull
        rw [e1, e2, hfull]
        have a1 : (handed os.log).length + FILE_BUFF_LEN - (handed os.log).length = 4096 := by
          rw [hFn]; omega
        have a2 : (((FILE_BUFF_LEN : Nat) : Int).toNat + (c :: cs).length - 1) / 4096
            = ((1 : Int).toNat + cs.length - 1) / 4096 + 1 := by
          simp only [List.length_cons, Int.toNat_ofNat, hFn, Int.toNat_one]; omega
        rw [a1, a2, List.replicate_succ]
      · rw [if_neg hfull]
        obtain ⟨e1, -⟩ := hpart1 hfull
        rw [e1]
        have a2 : (s.cursor_buf_write.toNat + (c :: cs).length - 1) / 4096
            = ((s.cursor_buf_write + 1).toNat + cs.length - 1) / 4096 := by
          simp only [List.length_cons]
          have : (s.cursor_buf_write + 1).toNat = s.cursor_buf_write.toNat + 1 := by omega
          rw [this]
          congr 1
          omega
        rw [a2]
    · show r2.stream.cursor_buf_write = _
      cases cs with
      | nil =>
        simp only [Win.putInts, Option.some.injEq] at hr2
        rw [← hr2]
        simp only [List.length_cons, List.length_nil]
        by_cases hfull : s.cursor_buf_write = (FILE_BUFF_LEN : Int)
        · rw [(hfull1 hfull).1, hfull]
          simp [hFn]
        · rw [(hpart1 hfull).1]
          have := lt_of_le_of_ne h1 hfull
          omega
      | cons d ds =>
        rw [hcw2 (by simp)]
        simp only [List.length_cons]
        by_cases hfull : s.cursor_buf_write = (FILE_BUFF_LEN : Int)
        · rw [(hfull1 hfull).1, hfull]
          simp only [Int.toNat_one, Int.toNat_ofNat, hFn]
          congr 1
          omega
        · rw [(hpart1 hfull).1]
          have := lt_of_le_of_ne h1 hfull
          have e : (s.cursor_buf_write + 1).toNat = s.cursor_buf_write.toNat + 1 := by omega
          rw [e]
          congr 2
          omega
    · show handed r2.os.log ++ Win.pending r2.stream = _
      rw [hout2, hout1]
      simp
    · show (handed r2.os.log).length = _
      rw [hlen2]
      simp only [List.length_cons]
      by_cases hfull : s.cursor_buf_write = (FILE_BUFF_LEN : Int)
      · rw [(hfull1 hfull).1, (hfull1 hfull).2, hfull]
        simp only [Int.toNat_one, Int.toNat_ofNat, hFn]
        omega
      · rw [(hpart1 hfull).1, (hpart1 hfull).2]
        have := lt_of_le_of_ne h1 hfull
        have e : (s.cursor_buf_write + 1).toNat = s.cursor_buf_write.toNat + 1 := by omega
        rw [e]
        have e2 : s.cursor_buf_write.toNat + 1 + cs.length - 1
            = s.cursor_buf_write.toNat + (cs.length + 1) - 1 := by omega
        rw [e2]

/-- The record `so_fopen` of `src/so_stdio.c` returns is the zeroed record with
its descriptor. -/
theorem Win.so_fopen_some_toplevel (pathname mode : String) (os : Os) (s : Win.SoFile)
    (os1 : Os) (h : Win.so_fopen pathname mode os = (some s, os1)) :
    s = { Win.SoFile.zero with fd := (os.newfd : Int) } ∧
    os1.wsched = os.wsched ∧ os1.rsched = os.rsched := by
  unfold Win.so_fopen at h
  cases hm : Win.modeFlags mode with
  | none => rw [hm] at h; simp at h
  | some flags =>
    rw [hm] at h
    simp only at h
    unfold sys_open at h
    split at h
    · simp only at h
      split at h
      · simp at h
      · unfold sys_calloc at h
        simp only at h
        split at h
        · simp at h
        · simp only [Prod.mk.injEq, Option.some.injEq] at h
          obtain ⟨rfl, rfl⟩ := h
          exact ⟨rfl, rfl, rfl⟩
    · simp at h

/-! ## Switching between reading and writing -/

theorem sys_read_device (os : Os) (fd : Int) (count : Nat) :
    (sys_read os fd count).os.writable = os.writable ∧
    (sys_read os fd count).os.wsched = os.wsched := by
  unfold sys_read
  split <;> exact ⟨rfl, rfl⟩

theorem sys_lseek_device (os : Os) (fd offset whence : Int) :
    (sys_lseek os fd offset whence).os.writable = os.writable ∧
    (sys_lseek os fd offset whence).os.wsched = os.wsched := by
  unfold sys_lseek
  simp only
  split
  · exact ⟨rfl, rfl⟩
  · split <;> exact ⟨rfl, rfl⟩

theorem Linux.so_fgetc_device (s : SoFile) (os : Os) :
    (Linux.so_fgetc s os).os.writable = os.writable ∧
    (Linux.so_fgetc s os).os.wsched = os.wsched := by
  unfold Linux.so_fgetc Linux.fetch
  simp only
  split_ifs <;> first | exact ⟨rfl, rfl⟩ | exact sys_read_device os s.fd FILE_BUFF_LEN

theorem Linux.so_fgetc_ww (s : SoFile) (os : Os) :
    (Linux.so_fgetc s os).stream.was_written = 0 := by
  unfold Linux.so_fgetc Linux.fetch
  simp only
  split_ifs <;> rfl

/-- On a device where writes succeed a returning `so_fflush` (Linux) empties
the pending region and leaves the read cursor, the valid-byte count and the
last-operation flag as they are. -/
theorem Linux.so_fflush_switch (fuel : Nat) (s : SoFile) (os : Os) (r : Ret Int)
    (hwr : os.writable = true) (hws : WritesSucceed os)
    (h : Linux.so_fflush fuel s os = some r) :
    r.stream.cursor_buf_write = 0 ∧ r.stream.cursor_buf_read = s.cursor_buf_read ∧
    r.stream.buffer_size = s.buffer_size ∧ r.stream.was_written = s.was_written ∧
    r.os.writable = os.writable ∧ r.os.wsched = os.wsched := by
  have hv := Linux.so_fflush_val_ok fuel s os r hwr hws h
  obtain ⟨D, O, n, L, hos, -, hc⟩ := Linux.so_fflush_cases fuel s os r h
  rcases hc with ⟨hv2, -⟩ | ⟨-, hs, -⟩
  · rw [hv] at hv2; exact absurd hv2 (by decide)
  · rw [hs, hos]; exact ⟨rfl, rfl, rfl, rfl, rfl, rfl⟩

/-- A returning `so_fflush` (Linux) leaves the device's answers as they are. -/
theorem Linux.so_fflush_device (fuel : Nat) (s : SoFile) (os : Os) (r : Ret Int)
    (h : Linux.so_fflush fuel s os = some r) :
    r.os.writable = os.writable ∧ r.os.wsched = os.wsched := by
  obtain ⟨D, O, n, L, hos, -⟩ := Linux.so_fflush_cases fuel s os r h
  rw [hos]; exact ⟨rfl, rfl⟩

/-- A returning `so_fputc` (Linux) leaves the read cursor and the valid-byte
count as they are and records a write as the last operation. -/
theorem Linux.so_fputc_switch (fuel : Nat) (c : Int) (s : SoFile) (os : Os) (r : Ret Int)
    (h : Linux.so_fputc fuel c s os = some r) :
    r.stream.cursor_buf_read = s.cursor_buf_read ∧ r.stream.buffer_size = s.buffer_size ∧
    r.stream.was_written = 1 ∧
    r.os.writable = os.writable ∧ r.os.wsched = os.wsched := by
  rcases Linux.so_fputc_cases fuel c s os r h with
    ⟨D, O, n, L, -, e, -⟩ | ⟨D, O, n, L, -, e, -⟩ | ⟨-, e⟩ <;>
  · rw [e]; exact ⟨rfl, rfl, rfl, rfl, rfl⟩

theorem Linux.reposition_device (s : SoFile) (os : Os) (offset whence : Int) :
    (Linux.reposition s os offset whence).os.writable = os.writable ∧
    (Linux.reposition s os offset whence).os.wsched = os.wsched := by
  unfold Linux.reposition
  simp only
  split_ifs <;> exact sys_lseek_device os s.fd offset whence

theorem Linux.so_fread_loop_switch :
    ∀ (todo bytes_read : Nat) (ptr : Nat → Byte) (s : SoFile) (os : Os),
      (Linux.so_fread_loop todo bytes_read ptr s os).stream.cursor_buf_write
        = s.cursor_buf_write ∧
      (s.was_written = 0 →
        (Linux.so_fread_loop todo bytes_read ptr s os).stream.was_written = 0) ∧
      (Linux.so_fread_loop todo bytes_read ptr s os).os.writable = os.writable ∧
      (Linux.so_fread_loop todo bytes_read ptr s os).os.wsched = os.wsched := by
  intro todo
  induction todo with
  | zero => intro b ptr s os; exact ⟨rfl, id, rfl, rfl⟩
  | succ n ih =>
    intro b ptr s os
    obtain ⟨d1, d2⟩ := Linux.so_fgetc_device s os
    unfold Linux.so_fread_loop
    simp only
    split_ifs
    · exact ⟨Linux.so_fgetc_cw s os, fun _ => Linux.so_fgetc_ww s os, d1, d2⟩
    · obtain ⟨i1, i2, i3, i4⟩ := ih (b + 1)
        (Function.update ptr b (byteOfInt (Linux.so_fgetc s os).val))
        (Linux.so_fgetc s os).stream (Linux.so_fgetc s os).os
      exact ⟨by rw [i1, Linux.so_fgetc_cw], fun _ => i2 (Linux.so_fgetc_ww s os),
        by rw [i3, d1], by rw [i4, d2]⟩

theorem Linux.so_fread_switch (ptr : Nat → Byte) (size nmemb : Nat) (s : SoFile) (os : Os) :
    (Linux.so_fread ptr size nmemb s os).stream.cursor_buf_write = s.cursor_buf_write ∧
    (Linux.so_fread ptr size nmemb s os).stream.was_written = 0 ∧
    (Linux.so_fread ptr size nmemb s os).os.writable = os.writable ∧
    (Linux.so_fread ptr size nmemb s os).os.wsched = os.wsched := by
  unfold Linux.so_fread
  simp only
  split_ifs
  · exact ⟨rfl, rfl, rfl, rfl⟩
  · obtain ⟨i1, i2, i3, i4⟩ := Linux.so_fread_loop_switch (nmemb * size % 2 ^ 64) 0 ptr
      { s with was_written := 0 } os
    exact ⟨i1, i2 rfl, i3, i4⟩

theorem Linux.so_fwrite_loop_switch (fuel : Nat) (ptr : Nat → Byte) :
    ∀ (todo bytes_written : Nat) (s : SoFile) (os : Os) (r : Ret Nat),
      Linux.so_fwrite_loop fuel ptr todo bytes_written s os = some r →
      r.stream.cursor_buf_read = s.cursor_buf_read ∧ r.stream.buffer_size = s.buffer_size ∧
      (s.was_written ≠ 0 → r.stream.was_written ≠ 0) ∧
      r.os.writable = os.writable ∧ r.os.wsched = os.wsched := by
  intro todo
  induction todo with
  | zero =>
    intro b s os r h
    simp only [Linux.so_fwrite_loop, Option.some.injEq] at h
    subst h
    exact ⟨rfl, rfl, id, rfl, rfl⟩
  | succ n ih =>
    intro b s os r h
    unfold Linux.so_fwrite_loop at h
    cases hp : Linux.so_fputc fuel (loadInt ptr b) s os with
    | none => rw [hp] at h; simp at h
    | some pr =>
      rw [hp] at h
      obtain ⟨p1, p2, p3, p4, p5⟩ := Linux.so_fputc_switch fuel _ s os pr hp
      simp only at h
      split_ifs at h
      · simp only [Option.some.injEq] at h
        subst h
        exact ⟨p1, p2, fun _ => by show pr.stream.was_written ≠ 0; rw [p3]; decide, p4, p5⟩
      · obtain ⟨i1, i2, i3, i4, i5⟩ := ih _ _ _ _ h
        exact ⟨by rw [i1, p1], by rw [i2, p2], fun _ => i3 (by rw [p3]; decide),
          by rw [i4, p4], by rw [i5, p5]⟩

theorem Linux.so_fwrite_switch (fuel : Nat) (ptr : Nat → Byte) (size nmemb : Nat) (s : SoFile)
    (os : Os) (r : Ret Nat) (h : Linux.so_fwrite fuel ptr size nmemb s os = some r) :
    r.stream.cursor_buf_read = s.cursor_buf_read ∧ r.stream.buffer_size = s.buffer_size ∧
    r.stream.was_written ≠ 0 ∧
    r.os.writable = os.writable ∧ r.os.wsched = os.wsched := by
  unfold Linux.so_fwrite at h
  simp only at h
  split_ifs at h
  · simp only [Option.some.injEq] at h
    subst h
    exact ⟨rfl, rfl, by show (1 : Nat) ≠ 0; decide, rfl, rfl⟩
  · cases hl : Linux.so_fwrite_loop fuel ptr (nmemb * size % 2 ^ 64) 0
        { s with was_written := 1 } os with
    | none => rw [hl] at h; simp at h
    | some lr =>
      rw [hl] at h
      simp only [Option.some.injEq] at h
      subst h
      obtain ⟨i1, i2, i3, i4, i5⟩ :=
        Linux.so_fwrite_loop_switch fuel ptr _ _ { s with was_written := 1 } _ lr hl
      exact ⟨i1, i2, i3 (by show (1 : Nat) ≠ 0; decide), i4, i5⟩

/-- `so_fseek` (Linux) on a device where writes succeed leaves nothing to undo:
after a write the pending region is empty, after a read the read buffer is
discarded. -/
theorem Linux.so_fseek_switch (fuel : Nat) (s : SoFile) (os : Os) (offset whence : Int)
    (r : Ret Int) (hwr : os.writable = true) (hws : WritesSucceed os)
    (h : Linux.so_fseek fuel s os offset whence = some r) :
    (s.was_written ≠ 0 →
      r.stream.cursor_buf_write = 0 ∧ r.stream.cursor_buf_read = s.cursor_buf_read ∧
      r.stream.buffer_size = s.buffer_size) ∧
    (s.was_written = 0 →
      r.stream.cursor_buf_write = s.cursor_buf_write ∧ r.stream.cursor_buf_read = 0 ∧
      r.stream.buffer_size = 0) ∧
    r.os.writable = os.writable ∧ r.os.wsched = os.wsched := by
  unfold Linux.so_fseek at h
  split_ifs at h with hw
  · cases hfl : Linux.so_fflush fuel s os with
    | none => rw [hfl] at h; simp at h
    | some fr =>
      rw [hfl] at h
      simp only [Option.some.injEq] at h
      subst h
      obtain ⟨f1, f2, f3, -, f5, f6⟩ := Linux.so_fflush_switch fuel s os fr hwr hws hfl
      obtain ⟨e1, e2, e3, -⟩ := Linux.reposition_cursors fr.stream fr.os offset whence
      obtain ⟨d1, d2⟩ := Linux.reposition_device fr.stream fr.os offset whence
      exact ⟨fun _ => ⟨by rw [e1, f1], by rw [e2, f2], by rw [e3, f3]⟩,
        fun h0 => absurd h0 hw, by rw [d1, f5], by rw [d2, f6]⟩
  · simp only [Option.some.injEq] at h
    subst h
    obtain ⟨e1, e2, e3, -⟩ := Linux.reposition_cursors
      { s with buffer := memset0 s.buffer, cursor_buf_read := 0, buffer_size := 0 } os
      offset whence
    obtain ⟨d1, d2⟩ := Linux.reposition_device
      { s with buffer := memset0 s.buffer, cursor_buf_read := 0, buffer_size := 0 } os
      offset whence
    exact ⟨fun h1 => absurd h1 hw, fun _ => ⟨e1, e2, e3⟩, d1, d2⟩

/-- One operation that respects the discipline keeps the record as its use
says, on a device where writes succeed. -/
theorem Linux.step_switch (fuel : Nat) (op : Linux.Op) (d d1 : Linux.Dir) (s : SoFile)
    (os : Os) (s1 : SoFile) (os1 : Os) (hd : d.next op = some d1)
    (hinv : Linux.DirInv d s) (hwr : os.writable = true) (hws : WritesSucceed os)
    (h : Linux.step fuel op s os = some (s1, os1)) :
    Linux.DirInv d1 s1 ∧ os1.writable = true ∧ WritesSucceed os1 := by
  have hdev : ∀ o : Os, o.writable = os.writable → o.wsched = os.wsched →
      o.writable = true ∧ WritesSucceed o := by
    intro o e1 e2
    exact ⟨by rw [e1, hwr], fun i => by rw [e2]; exact hws i⟩
  cases op with
  | fgetc =>
    simp only [Linux.step, Option.some.injEq, Prod.mk.injEq] at h
    obtain ⟨rfl, rfl⟩ := h
    obtain ⟨g1, g2⟩ := Linux.so_fgetc_device s os
    refine ⟨?_, hdev _ g1 g2⟩
    cases d <;> simp only [Linux.Dir.next, reduceCtorEq, ↓reduceIte, Option.some.injEq] at hd
    · subst hd
      exact ⟨by rw [Linux.so_fgetc_cw]; exact hinv.1, Linux.so_fgetc_ww s os⟩
    · subst hd
      exact ⟨by rw [Linux.so_fgetc_cw]; exact hinv.1, Linux.so_fgetc_ww s os⟩
  | fread ptr size nmemb =>
    simp only [Linux.step, Option.some.injEq, Prod.mk.injEq] at h
    obtain ⟨rfl, rfl⟩ := h
    obtain ⟨g1, g2, g3, g4⟩ := Linux.so_fread_switch ptr size nmemb s os
    refine ⟨?_, hdev _ g3 g4⟩
    cases d <;> simp only [Linux.Dir.next, reduceCtorEq, ↓reduceIte, Option.some.injEq] at hd
    · subst hd
      exact ⟨by rw [g1]; exact hinv.1, g2⟩
    · subst hd
      exact ⟨by rw [g1]; exact hinv.1, g2⟩
  | fputc c =>
    simp only [Linux.step, Option.map_eq_some'] at h
    obtain ⟨r, hr, he⟩ := h
    simp only [Prod.mk.injEq] at he
    obtain ⟨rfl, rfl⟩ := he
    obtain ⟨p1, p2, p3, p4, p5⟩ := Linux.so_fputc_switch fuel c s os r hr
    refine ⟨?_, hdev _ p4 p5⟩
    cases d <;> simp only [Linux.Dir.next, reduceCtorEq, ↓reduceIte, Option.some.injEq] at hd
    · subst hd
      exact ⟨by rw [p1, p2]; exact hinv.2, by rw [p3]; decide⟩
    · subst hd
      exact ⟨by rw [p1, p2]; exact hinv.1, by rw [p3]; decide⟩
  | fwrite ptr size nmemb =>
    simp only [Linux.step, Option.map_eq_some'] at h
    obtain ⟨r, hr, he⟩ := h
    simp only [Prod.mk.injEq] at he
    obtain ⟨rfl, rfl⟩ := he
    obtain ⟨p1, p2, p3, p4, p5⟩ := Linux.so_fwrite_switch fuel ptr size nmemb s os r hr
    refine ⟨?_, hdev _ p4 p5⟩
    cases d <;> simp only [Linux.Dir.next, reduceCtorEq, ↓reduceIte, Option.some.injEq] at hd
    · subst hd
      exact ⟨by rw [p1, p2]; exact hinv.2, p3⟩
    · subst hd
      exact ⟨by rw [p1, p2]; exact hinv.1, p3⟩
  | fflush =>
    simp only [Linux.step, Option.map_eq_some'] at h
    obtain ⟨r, hr, he⟩ := h
    simp only [Prod.mk.injEq] at he
    obtain ⟨rfl, rfl⟩ := he
    obtain ⟨f1, f2, f3, f4, f5, f6⟩ := Linux.so_fflush_switch fuel s os r hwr hws hr
    refine ⟨?_, hdev _ f5 f6⟩
    cases d <;> simp only [Linux.Dir.next, reduceCtorEq, ↓reduceIte, Option.some.injEq] at hd
    · subst hd
      exact ⟨f1, by rw [f2, f3]; exact hinv.2⟩
    · subst hd
      exact ⟨f1, by rw [f4]; exact hinv.2⟩
    · subst hd
      exact ⟨f1, by rw [f2, f3]; exact hinv.1⟩
  | fseek offset whence =>
    simp only [Linux.step, Option.map_eq_some'] at h
    obtain ⟨r, hr, he⟩ := h
    simp only [Prod.mk.injEq] at he
    obtain ⟨rfl, rfl⟩ := he
    obtain ⟨k1, k2, k3, k4⟩ := Linux.so_fseek_switch fuel s os offset whence r hwr hws hr
    refine ⟨?_, hdev _ k3 k4⟩
    simp only [Linux.Dir.next, Option.some.injEq] at hd
    subst hd
    by_cases hw : s.was_written = 0
    · obtain ⟨a1, a2, a3⟩ := k2 hw
      refine ⟨?_, by rw [a2, a3]; decide⟩
      rw [a1]
      cases d
      · exact hinv.1
      · exact hinv.1
      · exact absurd hw hinv.2
    · obtain ⟨a1, a2, a3⟩ := k1 hw
      refine ⟨a1, ?_⟩
      rw [a2, a3]
      cases d
      · exact hinv.2
      · exact absurd hinv.2 hw
      · exact hinv.1
  | ftell | feof | ferror | fileno =>
    simp only [Linux.step, Option.some.injEq, Prod.mk.injEq] at h
    obtain ⟨rfl, rfl⟩ := h
    simp only [Linux.Dir.next, Option.some.injEq] at hd
    subst hd
    exact ⟨hinv, hwr, hws⟩

theorem Linux.run_switch (fuel : Nat) :
    ∀ (ops : List Linux.Op) (d : Linux.Dir) (s : SoFile) (os : Os) (s1 : SoFile) (os1 : Os),
      Linux.disciplined d ops = true → Linux.DirInv d s → os.writable = true →
      WritesSucceed os → Linux.run fuel ops s os = some (s1, os1) →
      (∃ d1, Linux.DirInv d1 s1) ∧ os1.writable = true ∧ WritesSucceed os1 := by
  intro ops
  induction ops with
  | nil =>
    intro d s os s1 os1 _ hinv hwr hws h
    simp only [Linux.run, Option.some.injEq, Prod.mk.injEq] at h
    obtain ⟨rfl, rfl⟩ := h
    exact ⟨⟨d, hinv⟩, hwr, hws⟩
  | cons op ops ih =>
    intro d s os s1 os1 hdisc hinv hwr hws h
    unfold Linux.disciplined at hdisc
    cases hn : d.next op with
    | none => rw [hn] at hdisc; simp at hdisc
    | some d2 =>
      rw [hn] at hdisc
      simp only at hdisc
      unfold Linux.run at h
      cases hst : Linux.step fuel op s os with
      | none => rw [hst] at h; simp at h
      | some mid =>
        obtain ⟨s2, os2⟩ := mid
        rw [hst] at h
        obtain ⟨i1, i2, i3⟩ := Linux.step_switch fuel op d d2 s os s2 os2 hn hinv hwr hws hst
        exact ih d2 s2 os2 s1 os1 hdisc i1 i2 i3 h

/-- In each use of the stream the buffer does not hold both pending write
bytes and unconsumed read bytes. -/
theorem Linux.DirInv.apart {d : Linux.Dir} {s : SoFile} (h : Linux.DirInv d s) :
    ¬ (0 < s.cursor_buf_write ∧ s.cursor_buf_read < s.buffer_size) := by
  intro ⟨h1, h2⟩
  cases d
  · exact h.2 h2
  · have := h.1; omega
  · exact h.1 h2

/-- `so_fgetc` (Linux) issues no `write` call. -/
theorem Linux.so_fgetc_writeCalls (s : SoFile) (os : Os) :
    writeCalls (Linux.so_fgetc s os).os.log = writeCalls os.log := by
  have hr : writeCalls (sys_read os s.fd FILE_BUFF_LEN).os.log = writeCalls os.log := by
    unfold sys_read
    split <;> simp [writeCalls, List.countP_append, Call.isWrite]
  unfold Linux.so_fgetc Linux.fetch
  simp only
  split_ifs <;> first | rfl | exact hr

/-- A returning `so_fputc` (Linux) takes no transferred byte back. -/
theorem Linux.so_fputc_handed (fuel : Nat) (c : Int) (s : SoFile) (os : Os) (r : Ret Int)
    (h : Linux.so_fputc fuel c s os = some r) : handed os.log <+: handed r.os.log := by
  rcases Linux.so_fputc_cases fuel c s os r h with
    ⟨D, O, n, L, -, e, -⟩ | ⟨D, O, n, L, -, e, -⟩ | ⟨-, e⟩
  · rw [e]; exact handed_prefix_wrote os D O n L
  · rw [e]; exact handed_prefix_wrote os D O n L
  · rw [e]; exact List.prefix_refl _

/-! ## `so_fwrite` on a stream that takes the whole block -/

/-- Where neither defect of `so_fwrite` of `src/Linux/so_stdio.c` shows. For
every stream whose end-of-file flag is clear and whose write cursor lies within
the buffer, every `size >= 1`, every `nmemb` and every source block of
`size * nmemb` bytes in which no position holds the four-byte `int` `SO_EOF`: if
every underlying write call either fails or transfers at least one byte,
`so_fwrite` returns; and if no underlying write call failed during the call, it
has invoked `so_fputc` once per source byte, it returns `nmemb`, and the bytes
it added to the stream's output (bytes transferred to the descriptor followed
by the pending buffer) are exactly the source bytes in order. -/
theorem so_fwrite_stores_block (fuel : Nat) (ptr : Nat → Byte) (size nmemb : Nat)
    (s : SoFile) (os : Os)
    (hfeof : s.feof = 0)
    (h0 : 0 ≤ s.cursor_buf_write) (h1 : s.cursor_buf_write ≤ (FILE_BUFF_LEN : Int))
    (hsize : 1 ≤ size) (hfit : nmemb * size < 2 ^ 64)
    (hsrc : ∀ i, i < nmemb * size → loadInt ptr i ≠ SO_EOF)
    (hp : WritesProgress os) (hf : FILE_BUFF_LEN ≤ fuel) :
    ∃ r, Linux.so_fwrite fuel ptr size nmemb s os = some r ∧
      (failedWrites r.os.log = failedWrites os.log →
        r.val = nmemb ∧
        output r.stream r.os = output s os ++ memRange ptr 0 (nmemb * size) ∧
        ∃ p, Linux.putInts fuel (Linux.srcInts ptr 0 (nmemb * size))
              { s with was_written := 1 } os = some p ∧
          p.stream = r.stream ∧ p.os = r.os) := by
  obtain ⟨r, hr, _, hgood⟩ := Linux.so_fwrite_loop_spec fuel ptr hf (nmemb * size) 0
    { s with was_written := 1 } os h0 h1 hp (fun i _ hi => hsrc i (by omega))
  have hmod : nmemb * size % 2 ^ 64 = nmemb * size := Nat.mod_eq_of_lt hfit
  refine ⟨{ r with val := r.val / size }, ?_, ?_⟩
  · unfold Linux.so_fwrite
    simp only
    rw [if_neg (by simp [hfeof]), hmod, hr]
  · intro hsame
    obtain ⟨hval, hout, p, hp2, hps, hpo⟩ := hgood hsame
    refine ⟨?_, ?_, p, hp2, hps, hpo⟩
    · simp only [hval, Nat.zero_add]
      exact Nat.mul_div_cancel nmemb (by omega)
    · simpa [output, pending] using hout

/-- An instance of `so_fwrite_stores_block`: two elements of two bytes written
to a freshly opened stream. -/
theorem so_fwrite_stores_block_witness :
    Linux.fresh.feof = 0 ∧
    (∀ i, i < 2 * 2 → loadInt blockOfB i ≠ SO_EOF) ∧
    WritesProgress Linux.openedOs ∧
    (∃ r, Linux.so_fwrite 4096 blockOfB 2 2 Linux.fresh Linux.openedOs = some r ∧
      (failedWrites r.os.log = failedWrites Linux.openedOs.log →
        r.val = 2 ∧
        output r.stream r.os
          = output Linux.fresh Linux.openedOs ++ memRange blockOfB 0 (2 * 2) ∧
        ∃ p, Linux.putInts 4096 (Linux.srcInts blockOfB 0 (2 * 2))
              { Linux.fresh with was_written := 1 } Linux.openedOs = some p ∧
          p.stream = r.stream ∧ p.os = r.os)) ∧
    ∃ r, Linux.so_fwrite 4096 blockOfB 2 2 Linux.fresh Linux.openedOs = some r ∧
      r.val = 2 ∧ failedWrites r.os.log = 0 ∧ output r.stream r.os = [66, 66, 66, 66] :=
  ⟨rfl, fun _ _ => by rw [loadInt_blockOfB]; decide,
    fun _ => by show (some 2 : Option Nat) ≠ some 0; decide,
    so_fwrite_stores_block 4096 blockOfB 2 2 Linux.fresh Linux.openedOs
      rfl (by decide) (by decide) (by decide) (by decide)
      (fun _ _ => by rw [loadInt_blockOfB]; decide)
      (fun _ => by show (some 2 : Option Nat) ≠ some 0; decide) (by decide),
    _, rfl, by decide, by decide, by decide⟩

/-! ## The write cursor of the top-level variant stays within the buffer -/

theorem Win.so_fgetc_cw_toplevel (s : Win.SoFile) (os : Os) :
    (Win.so_fgetc s os).stream.cursor_buf_write = s.cursor_buf_write := by
  unfold Win.so_fgetc Win.fetch
  simp only
  split_ifs <;> rfl

theorem Win.so_fflush_cw_toplevel (fuel : Nat) (s : Win.SoFile) (os : Os) (r : Win.Ret Int)
    (h0 : 0 ≤ s.cursor_buf_write) (h1 : s.cursor_buf_write ≤ (FILE_BUFF_LEN : Int))
    (hr : Win.so_fflush fuel s os = some r) :
    0 ≤ r.stream.cursor_buf_write ∧ r.stream.cursor_buf_write ≤ (FILE_BUFF_LEN : Int) := by
  obtain ⟨D, O, n, L, -, -, hc⟩ := Win.so_fflush_cases_toplevel fuel s os r hr
  rcases hc with ⟨-, hs, -⟩ | ⟨-, hs, -⟩
  · rw [hs]; exact ⟨h0, h1⟩
  · rw [hs]; exact ⟨le_refl 0, by show (0 : Int) ≤ (FILE_BUFF_LEN : Int); simp⟩

theorem Win.so_fputc_cw_toplevel (fuel : Nat) (c : Int) (s : Win.SoFile) (os : Os)
    (r : Win.Ret Int)
    (h0 : 0 ≤ s.cursor_buf_write) (h1 : s.cursor_buf_write ≤ (FILE_BUFF_LEN : Int))
    (hr : Win.so_fputc fuel c s os = some r) :
    0 ≤ r.stream.cursor_buf_write ∧ r.stream.cursor_buf_write ≤ (FILE_BUFF_LEN : Int) := by
  obtain ⟨-, hc⟩ := Win.so_fputc_effect_toplevel fuel c s os r h0 h1 hr
  rcases hc with ⟨-, -, hs, -⟩ | ⟨-, -, -, g0, g1, -⟩
  · rw [hs]; exact ⟨h0, h1⟩
  · exact ⟨g0, g1⟩

theorem Win.reposition_cw_toplevel (s : Win.SoFile) (os : Os) (offset whence : Int) :
    (Win.reposition s os offset whence).stream.cursor_buf_write = s.cursor_buf_write := by
  unfold Win.reposition
  simp only
  split_ifs <;> rfl

theorem Win.so_fseek_cw_toplevel (fuel : Nat) (s : Win.SoFile) (os : Os) (offset whence : Int)
    (r : Win.Ret Int)
    (h0 : 0 ≤ s.cursor_buf_write) (h1 : s.cursor_buf_write ≤ (FILE_BUFF_LEN : Int))
    (hr : Win.so_fseek fuel s os offset whence = some r) :
    0 ≤ r.stream.cursor_buf_write ∧ r.stream.cursor_buf_write ≤ (FILE_BUFF_LEN : Int) := by
  unfold Win.so_fseek at hr
  split_ifs at hr with hw
  · cases hfl : Win.so_fflush fuel s os with
    | none => rw [hfl] at hr; simp at hr
    | some fr =>
      rw [hfl] at hr
      obtain ⟨g0, g1⟩ := Win.so_fflush_cw_toplevel fuel s os fr h0 h1 hfl
      simp only at hr
      split_ifs at hr
      · simp only [Option.some.injEq] at hr
        subst hr
        exact ⟨g0, g1⟩
      · simp only [Option.some.injEq] at hr
        subst hr
        rw [Win.reposition_cw_toplevel]
        exact ⟨g0, g1⟩
  · simp only [Option.some.injEq] at hr
    subst hr
    rw [Win.reposition_cw_toplevel]
    exact ⟨h0, h1⟩

theorem Win.so_fread_loop_cw_toplevel :
    ∀ (todo bytes_read : Nat) (ptr : Nat → Byte) (s : Win.SoFile) (os : Os),
      (Win.so_fread_loop todo bytes_read ptr s os).stream.cursor_buf_write
        = s.cursor_buf_write := by
  intro todo
  induction todo with
  | zero => intro b ptr s os; rfl
  | succ n ih =>
    intro b ptr s os
    unfold Win.so_fread_loop
    simp only
    split_ifs
    · exact Win.so_fgetc_cw_toplevel s os
    · rw [ih]; exact Win.so_fgetc_cw_toplevel s os

theorem Win.so_fread_cw_toplevel (ptr : Nat → Byte) (size nmemb : Nat) (s : Win.SoFile)
    (os : Os) :
    (Win.so_fread ptr size nmemb s os).stream.cursor_buf_write = s.cursor_buf_write := by
  unfold Win.so_fread
  simp only
  split_ifs
  · rfl
  · exact Win.so_fread_loop_cw_toplevel _ _ _ _ _

theorem Win.so_fwrite_loop_cw_toplevel (fuel : Nat) (ptr : Nat → Byte) :
    ∀ (todo bytes_written : Nat) (s : Win.SoFile) (os : Os) (r : Win.Ret Nat),
      0 ≤ s.cursor_buf_write → s.cursor_buf_write ≤ (FILE_BUFF_LEN : Int) →
      Win.so_fwrite_loop fuel ptr todo bytes_written s os = some r →
      0 ≤ r.stream.cursor_buf_write ∧ r.stream.cursor_buf_write ≤ (FILE_BUFF_LEN : Int) := by
  intro todo
  induction todo with
  | zero =>
    intro b s os r h0 h1 h
    simp only [Win.so_fwrite_loop, Option.some.injEq] at h
    subst h
    exact ⟨h0, h1⟩
  | succ n ih =>
    intro b s os r h0 h1 h
    unfold Win.so_fwrite_loop at h
    cases hp : Win.so_fputc fuel (loadChar ptr b) s os with
    | none => rw [hp] at h; simp at h
    | some pr =>
      rw [hp] at h
      obtain ⟨g0, g1⟩ := Win.so_fputc_cw_toplevel fuel _ s os pr h0 h1 hp
      simp only at h
      split_ifs at h
      · simp only [Option.some.injEq] at h
        subst h
        exact ⟨g0, g1⟩
      · exact ih _ _ _ _ g0 g1 h

theorem Win.so_fwrite_cw_toplevel (fuel : Nat) (ptr : Nat → Byte) (size nmemb : Nat)
    (s : Win.SoFile) (os : Os) (r : Win.Ret Nat)
    (h0 : 0 ≤ s.cursor_buf_write) (h1 : s.cursor_buf_write ≤ (FILE_BUFF_LEN : Int))
    (h : Win.so_fwrite fuel ptr size nmemb s os = some r) :
    0 ≤ r.stream.cursor_buf_write ∧ r.stream.cursor_buf_write ≤ (FILE_BUFF_LEN : Int) := by
  unfold Win.so_fwrite at h
  simp only at h
  cases hl : Win.so_fwrite_loop fuel ptr (nmemb * size % 2 ^ 64) 0
      { s with was_written := 1 } os with
  | none => rw [hl] at h; simp at h
  | some lr =>
    rw [hl] at h
    simp only [Option.some.injEq] at h
    subst h
    exact Win.so_fwrite_loop_cw_toplevel fuel ptr _ _ { s with was_written := 1 } _ lr h0 h1 hl

theorem Win.step_cw_toplevel (fuel : Nat) (op : Win.Op) (s : Win.SoFile) (os : Os)
    (s1 : Win.SoFile) (os1 : Os)
    (h0 : 0 ≤ s.cursor_buf_write) (h1 : s.cursor_buf_write ≤ (FILE_BUFF_LEN : Int))
    (h : Win.step fuel op s os = some (s1, os1)) :
    0 ≤ s1.cursor_buf_write ∧ s1.cursor_buf_write ≤ (FILE_BUFF_LEN : Int) := by
  cases op with
  | fgetc =>
    simp only [Win.step, Option.some.injEq, Prod.mk.injEq] at h
    rw [← h.1, Win.so_fgetc_cw_toplevel]; exact ⟨h0, h1⟩
  | fputc c =>
    simp only [Win.step, Option.map_eq_some'] at h
    obtain ⟨r, hr, he⟩ := h
    simp only [Prod.mk.injEq] at he
    rw [← he.1]; exact Win.so_fputc_cw_toplevel fuel c s os r h0 h1 hr
  | fread ptr size nmemb =>
    simp only [Win.step, Option.some.injEq, Prod.mk.injEq] at h
    rw [← h.1, Win.so_fread_cw_toplevel]; exact ⟨h0, h1⟩
  | fwrite ptr size nmemb =>
    simp only [Win.step, Option.map_eq_some'] at h
    obtain ⟨r, hr, he⟩ := h
    simp only [Prod.mk.injEq] at he
    rw [← he.1]; exact Win.so_fwrite_cw_toplevel fuel ptr size nmemb s os r h0 h1 hr
  | fflush =>
    simp only [Win.step, Option.map_eq_some'] at h
    obtain ⟨r, hr, he⟩ := h
    simp only [Prod.mk.injEq] at he
    rw [← he.1]; exact Win.so_fflush_cw_toplevel fuel s os r h0 h1 hr
  | fseek offset whence =>
    simp only [Win.step, Option.map_eq_some'] at h
    obtain ⟨r, hr, he⟩ := h
    simp only [Prod.mk.injEq] at he
    rw [← he.1]; exact Win.so_fseek_cw_toplevel fuel s os offset whence r h0 h1 hr
  | ftell | feof | ferror | fileno =>
    simp only [Win.step, Option.some.injEq, Prod.mk.injEq] at h
    rw [← h.1]; exact ⟨h0, h1⟩

theorem Win.run_cw_toplevel (fuel : Nat) :
    ∀ (ops : List Win.Op) (s : Win.SoFile) (os : Os) (s1 : Win.SoFile) (os1 : Os),
      0 ≤ s.cursor_buf_write → s.cursor_buf_write ≤ (FILE_BUFF_LEN : Int) →
      Win.run fuel ops s os = some (s1, os1) →
      0 ≤ s1.cursor_buf_write ∧ s1.cursor_buf_write ≤ (FILE_BUFF_LEN : Int) := by
  intro ops
  induction ops with
  | nil =>
    intro s os s1 os1 h0 h1 h
    simp only [Win.run, Option.some.injEq, Prod.mk.injEq] at h
    rw [← h.1]; exact ⟨h0, h1⟩
  | cons op ops ih =>
    intro s os s1 os1 h0 h1 h
    unfold Win.run at h
    cases hst : Win.step fuel op s os with
    | none => rw [hst] at h; simp at h
    | some mid =>
      obtain ⟨s2, os2⟩ := mid
      rw [hst] at h
      obtain ⟨g0, g1⟩ := Win.step_cw_toplevel fuel op s os s2 os2 h0 h1 hst
      exact ih s2 os2 s1 os1 g0 g1 h

/-! ## Filling the buffer byte by byte -/

theorem Linux.so_fputc_filled (fuel n : Nat) (os : Os) (h0 : 1 ≤ n) (h1 : n < 4096) :
    Linux.so_fputc fuel 65 (Linux.filled n) os
      = some { val := 65, stream := Linux.filled (n + 1), os := os } := by
  have hw : wrap32 ((n : Int) + 1) = (n : Int) + 1 :=
    wrap32_of_range _ (by omega) (by omega)
  have hb : byteOfInt 65 = (65 : Byte) := by decide
  unfold Linux.so_fputc
  simp only
  rw [if_neg (by
    show ((n : Nat) : Int) ≠ ((FILE_BUFF_LEN : Nat) : Int)
    simp only [FILE_BUFF_LEN]; omega)]
  simp only [Linux.store, Linux.filled, SoFile.zero, hw, hb, Int.toNat_ofNat, Nat.cast_add,
    Nat.cast_one, Option.some.injEq, Ret.mk.injEq, SoFile.mk.injEq, true_and, and_true]
  funext i
  by_cases hi : i = n
  · subst hi; simp
  · rw [Function.update_noteq hi]
    by_cases h2 : i < n
    · simp [h2, Nat.lt_succ_of_lt h2]
    · have : ¬ i < n + 1 := by omega
      simp [h2, this]

theorem Linux.run_fputc_filled (fuel : Nat) (os : Os) :
    ∀ (m n : Nat), 1 ≤ n → n + m ≤ 4096 →
      Linux.run fuel (List.replicate m (Linux.Op.fputc 65)) (Linux.filled n) os
        = some (Linux.filled (n + m), os) := by
  intro m
  induction m with
  | zero => intro n _ _; rfl
  | succ m ih =>
    intro n h0 h1
    rw [List.replicate_succ]
    unfold Linux.run
    simp only [Linux.step, Linux.so_fputc_filled fuel n os h0 (by omega), Option.map_some']
    rw [ih (n + 1) (by omega) (by omega)]
    have e : n + 1 + m = n + (m + 1) := by omega
    rw [e]

theorem Win.so_fputc_filled_toplevel (fuel n : Nat) (os : Os) (h0 : 1 ≤ n) (h1 : n < 4096) :
    Win.so_fputc fuel 65 (Win.filled n) os
      = some { val := 65, stream := Win.filled (n + 1), os := os } := by
  have hw : wrap32 ((n : Int) + 1) = (n : Int) + 1 :=
    wrap32_of_range _ (by omega) (by omega)
  have hb : byteOfInt 65 = (65 : Byte) := by decide
  unfold Win.so_fputc
  simp only
  rw [if_neg (by
    show ((n : Nat) : Int) ≠ ((FILE_BUFF_LEN : Nat) : Int)
    simp only [FILE_BUFF_LEN]; omega)]
  simp only [Win.store, Win.filled, Win.SoFile.zero, hw, hb, Int.toNat_ofNat, Nat.cast_add,
    Nat.cast_one, Option.some.injEq, Win.Ret.mk.injEq, Win.SoFile.mk.injEq, true_and, and_true]
  refine ⟨by decide, ?_⟩
  funext i
  by_cases hi : i = n
  · subst hi; simp
  · rw [Function.update_noteq hi]
    by_cases h2 : i < n
    · simp [h2, Nat.lt_succ_of_lt h2]
    · have : ¬ i < n + 1 := by omega
      simp [h2, this]

theorem Win.run_fputc_filled_toplevel (fuel : Nat) (os : Os) :
    ∀ (m n : Nat), 1 ≤ n → n + m ≤ 4096 →
      Win.run fuel (List.replicate m (Win.Op.fputc 65)) (Win.filled n) os
        = some (Win.filled (n + m), os) := by
  intro m
  induction m with
  | zero => intro n _ _; rfl
  | succ m ih =>
    intro n h0 h1
    rw [List.replicate_succ]
    unfold Win.run
    simp only [Win.step, Win.so_fputc_filled_toplevel fuel n os h0 (by omega), Option.map_some']
    rw [ih (n + 1) (by omega) (by omega)]
    have e : n + 1 + m = n + (m + 1) := by omega
    rw [e]

theorem Linux.run_fputc_fresh (fuel : Nat) (os : Os) (m : Nat) (h : m + 1 ≤ 4096) :
    Linux.run fuel (List.replicate (m + 1) (Linux.Op.fputc 65)) Linux.fresh os
      = some (Linux.filled (m + 1), os) := by
  have hb : byteOfInt 65 = (65 : Byte) := by decide
  have h1 : Linux.so_fputc fuel 65 Linux.fresh os
      = some { val := 65, stream := Linux.filled 1, os := os } := by
    unfold Linux.so_fputc
    simp only
    rw [if_neg (by decide)]
    simp only [Linux.store, Linux.filled, Linux.fresh, SoFile.zero, hb, Int.toNat_zero,
      Option.some.injEq, Ret.mk.injEq, SoFile.mk.injEq, true_and, and_true]
    refine ⟨by decide, by decide, ?_⟩
    funext i
    by_cases hi : i = 0
    · subst hi; simp
    · rw [Function.update_noteq hi]
      have : ¬ i < 1 := by omega
      simp [this]
  rw [List.replicate_succ]
  unfold Linux.run
  simp only [Linux.step, h1, Option.map_some']
  rw [Linux.run_fputc_filled fuel os m 1 (le_refl 1) (by omega)]
  have e : 1 + m = m + 1 := by omega
  rw [e]

theorem Win.run_fputc_fresh_toplevel (fuel : Nat) (os : Os) (m : Nat) (h : m + 1 ≤ 4096) :
    Win.run fuel (List.replicate (m + 1) (Win.Op.fputc 65)) Win.fresh os
      = some (Win.filled (m + 1), os) := by
  have hb : byteOfInt 65 = (65 : Byte) := by decide
  have h1 : Win.so_fputc fuel 65 Win.fresh os
      = some { val := 65, stream := Win.filled 1, os := os } := by
    unfold Win.so_fputc
    simp only
    rw [if_neg (by decide)]
    simp only [Win.store, Win.filled, Win.fresh, Win.SoFile.zero, hb, Int.toNat_zero,
      Option.some.injEq, Win.Ret.mk.injEq, Win.SoFile.mk.injEq, true_and, and_true]
    refine ⟨by decide, ?_, by decide, by decide⟩
    funext i
    by_cases hi : i = 0
    · subst hi; simp
    · rw [Function.update_noteq hi]
      have : ¬ i < 1 := by omega
      simp [this]
  rw [List.replicate_succ]
  unfold Win.run
  simp only [Win.step, h1, Option.map_some']
  rw [Win.run_fputc_filled_toplevel fuel os m 1 (le_refl 1) (by omega)]
  have e : 1 + m = m + 1 := by omega
  rw [e]

/-! ## Filling the buffer after the end of the file was met -/

theorem Linux.so_fputc_filled_eof (fuel n : Nat) (os : Os) (h0 : 1 ≤ n) (h1 : n < 4096) :
    Linux.so_fputc fuel 65 { Linux.filled n with feof := 1 } os
      = some { val := 65, stream := { Linux.filled (n + 1) with feof := 1 }, os := os } := by
  have hw : wrap32 ((n : Int) + 1) = (n : Int) + 1 :=
    wrap32_of_range _ (by omega) (by omega)
  have hb : byteOfInt 65 = (65 : Byte) := by decide
  unfold Linux.so_fputc
  simp only
  rw [if_neg (by
    show ((n : Nat) : Int) ≠ ((FILE_BUFF_LEN : Nat) : Int)
    simp only [FILE_BUFF_LEN]; omega)]
  simp only [Linux.store, Linux.filled, SoFile.zero, hw, hb, Int.toNat_ofNat, Nat.cast_add,
    Nat.cast_one, Option.some.injEq, Ret.mk.injEq, SoFile.mk.injEq, true_and, and_true]
  funext i
  by_cases hi : i = n
  · subst hi; simp
  · rw [Function.update_noteq hi]
    by_cases h2 : i < n
    · simp [h2, Nat.lt_succ_of_lt h2]
    · have : ¬ i < n + 1 := by omega
      simp [h2, this]

theorem Linux.run_fputc_filled_eof (fuel : Nat) (os : Os) :
    ∀ (m n : Nat), 1 ≤ n → n + m ≤ 4096 →
      Linux.run fuel (List.replicate m (Linux.Op.fputc 65)) { Linux.filled n with feof := 1 } os
        = some ({ Linux.filled (n + m) with feof := 1 }, os) := by
  intro m
  induction m with
  | zero => intro n _ _; rfl
  | succ m ih =>
    intro n h0 h1
    rw [List.replicate_succ]
    unfold Linux.run
    simp only [Linux.step, Linux.so_fputc_filled_eof fuel n os h0 (by omega), Option.map_some']
    rw [ih (n + 1) (by omega) (by omega)]
    have e : n + 1 + m = n + (m + 1) := by omega
    rw [e]

theorem Linux.run_fgetc_fputc_fresh (fuel : Nat) (os : Os) (m : Nat) (h : m + 1 ≤ 4096)
    (he : (Linux.so_fgetc Linux.fresh os).stream = { Linux.fresh with feof := 1 }) :
    Linux.run fuel (Linux.Op.fgetc :: List.replicate (m + 1) (Linux.Op.fputc 65)) Linux.fresh os
      = some ({ Linux.filled (m + 1) with feof := 1 }, (Linux.so_fgetc Linux.fresh os).os) := by
  have hb : byteOfInt 65 = (65 : Byte) := by decide
  have h1 : Linux.so_fputc fuel 65 { Linux.fresh with feof := 1 }
        (Linux.so_fgetc Linux.fresh os).os
      = some { val := 65, stream := { Linux.filled 1 with feof := 1 },
               os := (Linux.so_fgetc Linux.fresh os).os } := by
    unfold Linux.so_fputc
    simp only
    rw [if_neg (by decide)]
    simp only [Linux.store, Linux.filled, Linux.fresh, SoFile.zero, hb, Int.toNat_zero,
      Option.some.injEq, Ret.mk.injEq, SoFile.mk.injEq, true_and, and_true]
    refine ⟨by decide, by decide, ?_⟩
    funext i
    by_cases hi : i = 0
    · subst hi; simp
    · rw [Function.update_noteq hi]
      have : ¬ i < 1 := by omega
      simp [this]
  unfold Linux.run
  simp only [Linux.step]
  rw [he, List.replicate_succ]
  unfold Linux.run
  simp only [Linux.step, h1, Option.map_some']
  rw [Linux.run_fputc_filled_eof fuel _ m 1 (le_refl 1) (by omega)]
  have e : 1 + m = m + 1 := by omega
  rw [e]

/-! # The claims -/

/-! ## C1: round trip -/

/-- C1. Round trip in `src/Linux/so_stdio.c`. For every byte sequence `bs` of
any length, on a stream freshly created by `so_fopen` in mode `w+` (which
truncates the file) over a seekable file, on a device whose write calls never
fail and each transfer at least one byte and whose read calls do not fail,
however the calls chunk the data: writing `bs` byte by byte with `so_fputc`
returns, every call returning its byte; then `so_fseek(stream, 0, SEEK_SET)`
returns 0; and then calling `so_fgetc` as many times as `bs` is long returns
exactly the bytes of `bs` in order. -/
theorem write_seek_read_round_trip (fuel : Nat) (pathname : String) (os : Os) (s : SoFile)
    (os1 : Os) (bs : List Byte)
    (hopen : Linux.so_fopen pathname "w+" os = (some s, os1))
    (hseek : os.seekable = true) (hw : WritesSucceed os) (hr : ReadsSucceed os)
    (hfuel : FILE_BUFF_LEN ≤ fuel) :
    ∃ w k, Linux.putBytes fuel bs s os1 = some w ∧
      w.val = bs.map (fun b => (b.val : Int)) ∧
      Linux.so_fseek fuel w.stream w.os 0 SEEK_SET = some k ∧ k.val = 0 ∧
      (Linux.getBytes bs.length k.stream k.os).val = bs.map (fun b => (b.val : Int)) := by
  obtain ⟨hs, hdata, hoff, hrd, hwr, hsk, hws, hrs⟩ :=
    Linux.so_fopen_wplus pathname os s os1 hopen
  have inv0 : Linux.WriterInv s os1 [] :=
    { feof := by rw [hs]; rfl, cbr := by rw [hs]; rfl, bsz := by rw [hs]; rfl
      cw0 := by rw [hs]; exact le_refl 0
      cw1 := by rw [hs]; show (0 : Int) ≤ (FILE_BUFF_LEN : Int); simp
      idle := fun _ => by rw [hs]; rfl
      writable := hwr, readable := hrd, seekable := by rw [hsk]; exact hseek
      writes := fun i => by rw [hws]; exact hw i
      reads := fun i => by rw [hrs]; exact hr i
      atEnd := by rw [hoff, hdata]; rfl
      content := by rw [hdata, hs]; rfl }
  obtain ⟨w, hwq, hwv, inv1⟩ := Linux.putBytes_inv fuel hfuel bs s os1 [] inv0
  obtain ⟨k, hk, hval, inv2⟩ := Linux.so_fseek_inv fuel w.stream w.os _ hfuel inv1
  refine ⟨w, k, hwq, hwv, hk, hval, ?_⟩
  apply Linux.getBytes_inv bs k.stream k.os []
  simpa using inv2

/-- Witness for `write_seek_read_round_trip`: five bytes, on a device whose
`write` transfers two bytes at a time and whose `read` delivers three. -/
theorem write_seek_read_round_trip_witness :
    Linux.so_fopen "f" "w+" healthyOs = (some Linux.fresh, Linux.openedOs) ∧
    healthyOs.seekable = true ∧ WritesSucceed healthyOs ∧ ReadsSucceed healthyOs ∧
    (∃ w k, Linux.putBytes 4096 [72, 101, 108, 108, 111] Linux.fresh Linux.openedOs = some w ∧
      w.val = [(72 : Byte), 101, 108, 108, 111].map (fun b => (b.val : Int)) ∧
      Linux.so_fseek 4096 w.stream w.os 0 SEEK_SET = some k ∧ k.val = 0 ∧
      (Linux.getBytes [(72 : Byte), 101, 108, 108, 111].length k.stream k.os).val
        = [(72 : Byte), 101, 108, 108, 111].map (fun b => (b.val : Int))) ∧
    ∃ w k, Linux.putBytes 4096 [72, 101, 108, 108, 111] Linux.fresh Linux.openedOs = some w ∧
      Linux.so_fseek 4096 w.stream w.os 0 SEEK_SET = some k ∧
      writeCalls k.os.log = 3 ∧
      (Linux.getBytes 5 k.stream k.os).val = [72, 101, 108, 108, 111] ∧
      readCalls (Linux.getBytes 5 k.stream k.os).os.log = 2 :=
  ⟨rfl, rfl, fun _ => ⟨2, rfl, by decide⟩, fun _ => ⟨2, rfl⟩,
    write_seek_read_round_trip 4096 "f" healthyOs Linux.fresh Linux.openedOs
      [72, 101, 108, 108, 111] rfl rfl (fun _ => ⟨2, rfl, by decide⟩) (fun _ => ⟨2, rfl⟩)
      (by decide),
    _, _, rfl, rfl, by decide, by decide, by decide⟩

/-! ## C2: end of file is sticky for reads -/

/-- C2. End of file is sticky for reads (`src/Linux/so_stdio.c`). When a refill
of `so_fgetc` returns zero bytes, `so_fgetc` returns `SO_EOF` and the
end-of-file flag is set; and after any sequence of further operations on that
stream, `so_fgetc` returns `SO_EOF` and `so_fread` returns 0, and neither the
operations in between nor these two calls issue an underlying read call. -/
theorem eof_is_sticky_for_reads (s : SoFile) (os : Os)
    (hfeof : s.feof = 0)
    (hrefill : s.cursor_buf_read = 0 ∨ s.cursor_buf_read = s.buffer_size)
    (hzero : (sys_read os s.fd FILE_BUFF_LEN).ret = 0) :
    (Linux.so_fgetc s os).val = SO_EOF ∧
    Linux.so_feof (Linux.so_fgetc s os).stream ≠ 0 ∧
    ∀ (fuel : Nat) (ops : List Linux.Op) (s' : SoFile) (os' : Os),
      Linux.run fuel ops (Linux.so_fgetc s os).stream (Linux.so_fgetc s os).os = some (s', os') →
      Linux.so_feof s' ≠ 0 ∧
      readCalls os'.log = readCalls (Linux.so_fgetc s os).os.log ∧
      (Linux.so_fgetc s' os').val = SO_EOF ∧
      readCalls (Linux.so_fgetc s' os').os.log = readCalls os'.log ∧
      ∀ (ptr : Nat → Byte) (size nmemb : Nat),
        (Linux.so_fread ptr size nmemb s' os').val = 0 ∧
        readCalls (Linux.so_fread ptr size nmemb s' os').os.log = readCalls os'.log := by
  have hg : Linux.so_fgetc s os
      = { val := SO_EOF, stream := { s with was_written := 0, feof := 1 }
          os := (sys_read os s.fd FILE_BUFF_LEN).os } := by
    unfold Linux.so_fgetc
    simp only
    rw [if_neg (by simp [hfeof]), if_pos hrefill, if_neg (by omega), if_pos hzero]
  rw [hg]
  refine ⟨rfl, by simp [Linux.so_feof], ?_⟩
  intro fuel ops s' os' hrun
  obtain ⟨h1, h2⟩ := Linux.run_at_eof fuel ops _ _ s' os' (by simp) hrun
  refine ⟨h1, h2, ?_, ?_, ?_⟩
  · rw [Linux.so_fgetc_at_eof s' os' h1]
  · rw [Linux.so_fgetc_at_eof s' os' h1]
  · intro ptr size nmemb
    rw [Linux.so_fread_at_eof ptr size nmemb s' os' h1]
    exact ⟨rfl, rfl⟩

/-- Witness for `eof_is_sticky_for_reads`: a stream just opened `w+` on an
empty file; after the `so_fgetc` that meets the end of the file, a `so_fputc`, a
`so_fseek` to the start and a `so_fflush`, `so_fgetc` still returns `SO_EOF`. -/
theorem eof_is_sticky_for_reads_witness :
    Linux.fresh.feof = 0 ∧
    (Linux.fresh.cursor_buf_read = 0 ∨ Linux.fresh.cursor_buf_read = Linux.fresh.buffer_size) ∧
    (sys_read Linux.openedOs Linux.fresh.fd FILE_BUFF_LEN).ret = 0 ∧
    ∃ s' os',
      Linux.run 4096 [Linux.Op.fputc 65, Linux.Op.fseek 0 SEEK_SET, Linux.Op.fflush]
        Linux.atEof.stream Linux.atEof.os = some (s', os') ∧
      os'.data = [65] ∧
      (Linux.so_fgetc s' os').val = SO_EOF ∧
      readCalls (Linux.so_fgetc s' os').os.log = readCalls os'.log :=
  ⟨rfl, Or.inl rfl, by decide, _, _, rfl, by decide,
    ((eof_is_sticky_for_reads Linux.fresh Linux.openedOs rfl (Or.inl rfl)
      (by decide)).2.2 4096 [Linux.Op.fputc 65, Linux.Op.fseek 0 SEEK_SET, Linux.Op.fflush]
      _ _ rfl).2.2.1,
    ((eof_is_sticky_for_reads Linux.fresh Linux.openedOs rfl (Or.inl rfl)
      (by decide)).2.2 4096 [Linux.Op.fputc 65, Linux.Op.fseek 0 SEEK_SET, Linux.Op.fflush]
      _ _ rfl).2.2.2.1⟩

/-! ## C3: `so_fwrite` stores the whole block -/

/-- C3. Evaluation of `so_fwrite` of `src/Linux/so_stdio.c` at the failing
inputs, on a device where no write fails.  First input: a stream opened `w+`
on an empty file whose end-of-file flag was set by a `so_fgetc`; `so_fwrite`
of one element of one byte returns 0, not 1, and adds nothing to the stream's
output, although `so_fputc` on the same stream stores its byte.  Second input:
the freshly opened stream and a block of four bytes `0xFF`; `so_fwrite` with
`size = 1` and `nmemb = 4` stores the first byte and returns 0.  The top-level
variant returns 1 and 4 at these inputs and stores every byte. -/
theorem so_fwrite_refuses_after_eof :
    Linux.so_fopen "f" "w+" healthyOs = (some Linux.fresh, Linux.openedOs) ∧
    Linux.atEof.val = SO_EOF ∧
    Linux.atEof.stream.feof = 1 ∧
    (∃ r, Linux.so_fwrite 4096 blockOfB 1 1 Linux.atEof.stream Linux.atEof.os = some r ∧
      r.val = 0 ∧ r.val ≠ 1 ∧ failedWrites r.os.log = 0 ∧ output r.stream r.os = []) ∧
    (∃ p, Linux.so_fputc 4096 66 Linux.atEof.stream Linux.atEof.os = some p ∧
      p.val = 66 ∧ output p.stream p.os = [66]) ∧
    (∃ r, Linux.so_fwrite 4096 blockOfFF 1 4 Linux.fresh Linux.openedOs = some r ∧
      r.val = 0 ∧ failedWrites r.os.log = 0 ∧ output r.stream r.os = [255]) ∧
    Win.atEof.val = SO_EOF ∧
    Win.atEof.stream.feof = 1 ∧
    (∃ r, Win.so_fwrite 4096 blockOfB 1 1 Win.atEof.stream Win.atEof.os = some r ∧
      r.val = 1 ∧ failedWrites r.os.log = 0 ∧
      handed r.os.log ++ Win.pending r.stream = [66]) ∧
    ∃ r, Win.so_fwrite 4096 blockOfFF 1 4 Win.fresh Win.openedOs = some r ∧
      r.val = 4 ∧ failedWrites r.os.log = 0 ∧
      handed r.os.log ++ Win.pending r.stream = [255, 255, 255, 255] :=
  ⟨rfl, by decide, by decide, ⟨_, rfl, by decide, by decide, by decide, by decide⟩,
    ⟨_, rfl, by decide, by decide⟩,
    ⟨_, rfl, by decide, by decide, by decide⟩,
    by decide, by decide,
    ⟨_, rfl, by decide, by decide, by decide⟩,
    _, rfl, by decide, by decide, by decide⟩

/-! ## C4: `so_fwrite` counts complete elements -/

/-- Counterexample to C4 as stated. A freshly opened stream over a device that
accepts only ten bytes and fails every later write: `so_fwrite` with `size = 4`
and `nmemb = 3` issues no `write` and returns 3, not 2, in both variants.  The
bytes count against `so_fputc`, which buffers them; the failure shows at the
next `so_fflush`, after ten bytes were transferred.  (The last two parts show
why the amended claim has two conditions for `src/Linux/so_stdio.c`.  On the
stream reached from `so_fopen` by one `so_fgetc`, which sets the end-of-file
flag, and 4086 calls of `so_fputc`, `so_fputc` accepts exactly ten bytes of the
block and fails on the eleventh, yet `so_fwrite` returns 0, not 2.  And on the
freshly opened stream with a block of bytes `0xFF`, the `int` at the first
position is `SO_EOF`: `so_fputc` returns it for the first byte, although no
write call was issued and the byte was stored.) -/
theorem so_fwrite_after_eof_counts_nothing :
    (Linux.so_fopen "f" "w+" tenByteOs = (some Linux.fresh, Linux.openedTenByteOs) ∧
      ∃ r f, Linux.so_fwrite 4096 blockOfB 4 3 Linux.fresh Linux.openedTenByteOs = some r ∧
        r.val = 3 ∧ r.val ≠ 2 ∧ writeCalls r.os.log = 0 ∧
        Linux.so_fflush 4096 r.stream r.os = some f ∧
        f.val = SO_EOF ∧ (handed f.os.log).length = 10) ∧
    (Win.so_fopen "f" "w+" tenByteOs = (some Win.fresh, Win.openedTenByteOs) ∧
      ∃ r f, Win.so_fwrite 4096 blockOfB 4 3 Win.fresh Win.openedTenByteOs = some r ∧
        r.val = 3 ∧ r.val ≠ 2 ∧ writeCalls r.os.log = 0 ∧
        Win.so_fflush 4096 r.stream r.os = some f ∧
        f.val = SO_EOF ∧ (handed f.os.log).length = 10) ∧
    (Linux.so_fopen "f" "w+" brokenOs = (some Linux.fresh, Linux.openedBrokenOs) ∧
      Linux.run 1 (Linux.Op.fgetc :: List.replicate 4086 (Linux.Op.fputc 65)) Linux.fresh
          Linux.openedBrokenOs
        = some (Linux.nearlyFullAtEof, (Linux.so_fgetc Linux.fresh Linux.openedBrokenOs).os) ∧
      ∃ r1 r2,
        Linux.putInts 1 (Linux.srcInts blockOfB 0 10)
          { Linux.nearlyFullAtEof with was_written := 1 }
          (Linux.so_fgetc Linux.fresh Linux.openedBrokenOs).os = some r1 ∧
        (∀ v ∈ r1.val, v ≠ SO_EOF) ∧
        Linux.so_fputc 1 (loadInt blockOfB 10) r1.stream r1.os = some r2 ∧
        r2.val = SO_EOF ∧
        ∃ r, Linux.so_fwrite 1 blockOfB 4 3 Linux.nearlyFullAtEof
            (Linux.so_fgetc Linux.fresh Linux.openedBrokenOs).os = some r ∧
          r.val = 0 ∧ r.val ≠ 10 / 4) ∧
    (∃ r2 r,
      Linux.so_fputc 1 (loadInt blockOfFF 0) { Linux.fresh with was_written := 1 }
        Linux.openedOs = some r2 ∧
      loadInt blockOfFF 0 = SO_EOF ∧ r2.val = SO_EOF ∧
      Linux.so_fwrite 1 blockOfFF 1 4 Linux.fresh Linux.openedOs = some r ∧
      r.val = 0 ∧ writeCalls r.os.log = 0 ∧
      pending { Linux.fresh with was_written := 1 } = [] ∧ pending r.stream = [255]) :=
  ⟨⟨rfl, _, _, rfl, by decide, by decide, by decide, rfl, by decide, by decide⟩,
    ⟨rfl, _, _, rfl, by decide, by decide, by decide, rfl, by decide, by decide⟩,
    ⟨rfl, Linux.run_fgetc_fputc_fresh 1 Linux.openedBrokenOs 4085 (by decide) rfl,
      _, _, rfl, by decide, rfl, by decide, _, rfl, by decide, by decide⟩,
    ⟨_, _, rfl, by decide, by decide, rfl, by decide, by decide, by decide, by decide⟩⟩

/-- C4, as amended. `so_fwrite` counts complete elements only. For every state
of a stream reached from `so_fopen` by any sequence of operations, every `size`
and every `nmemb`: if `so_fputc` returns a value other than `SO_EOF` for each of
the first `k` source positions, with `k` less than the number of bytes
`so_fwrite` is to write (`size * nmemb` as `size_t` computes it), and returns
`SO_EOF` for the next one, then `so_fwrite` returns `k / size` (rounded down) in
the state that last `so_fputc` left, and nothing is rolled back: the `k`
accepted bytes were appended to the stream's output (the bytes transferred to
the descriptor followed by the pending bytes), the bytes transferred are still
transferred, a write call of the implicit flush of that last `so_fputc` failed
and the pending bytes are still pending.  In `src/so_stdio.c` this holds on
every such stream.  In `src/Linux/so_stdio.c` it holds on a stream whose
end-of-file flag is clear, the last part (a write call failed, the pending
bytes are still pending) when the `int` at source position `k` is not
`SO_EOF`. -/
theorem so_fwrite_counts_complete_elements :
    (∀ (fuel : Nat) (pathname mode : String) (os0 : Os) (s0 : SoFile) (os1 : Os)
        (ops : List Linux.Op) (s : SoFile) (os : Os) (ptr : Nat → Byte) (size nmemb k : Nat)
        (r1 : Ret (List Int)) (r2 : Ret Int),
      Linux.so_fopen pathname mode os0 = (some s0, os1) →
      Linux.run fuel ops s0 os1 = some (s, os) →
      s.feof = 0 → k < nmemb * size % 2 ^ 64 →
      Linux.putInts fuel (Linux.srcInts ptr 0 k) { s with was_written := 1 } os = some r1 →
      (∀ v ∈ r1.val, v ≠ SO_EOF) →
      Linux.so_fputc fuel (loadInt ptr k) r1.stream r1.os = some r2 →
      r2.val = SO_EOF →
      ∃ r, Linux.so_fwrite fuel ptr size nmemb s os = some r ∧
        r.val = k / size ∧ r.stream = r2.stream ∧ r.os = r2.os ∧
        output r1.stream r1.os = output s os ++ memRange ptr 0 k ∧
        handed r1.os.log <+: handed r.os.log ∧
        (loadInt ptr k ≠ SO_EOF →
          failedWrites r.os.log = failedWrites r1.os.log + 1 ∧
          pending r.stream = pending r1.stream)) ∧
    (∀ (fuel : Nat) (pathname mode : String) (os0 : Os) (s0 : Win.SoFile) (os1 : Os)
        (ops : List Win.Op) (s : Win.SoFile) (os : Os) (ptr : Nat → Byte) (size nmemb k : Nat)
        (r1 : Win.Ret (List Int)) (r2 : Win.Ret Int),
      Win.so_fopen pathname mode os0 = (some s0, os1) →
      Win.run fuel ops s0 os1 = some (s, os) →
      k < nmemb * size % 2 ^ 64 →
      Win.putInts fuel (Win.srcChars ptr 0 k) { s with was_written := 1 } os = some r1 →
      (∀ v ∈ r1.val, v ≠ SO_EOF) →
      Win.so_fputc fuel (loadChar ptr k) r1.stream r1.os = some r2 →
      r2.val = SO_EOF →
      ∃ r, Win.so_fwrite fuel ptr size nmemb s os = some r ∧
        r.val = k / size ∧ r.stream = r2.stream ∧ r.os = r2.os ∧
        handed r1.os.log ++ Win.pending r1.stream
          = handed os.log ++ Win.pending s ++ memRange ptr 0 k ∧
        handed r1.os.log <+: handed r.os.log ∧
        failedWrites r.os.log = failedWrites r1.os.log + 1 ∧
        Win.pending r.stream = Win.pending r1.stream) := by
  constructor
  · intro fuel pathname mode os0 s0 os1 ops s os ptr size nmemb k r1 r2 hopen hrun hfeof hk
      h1 hall h2 hv
    obtain ⟨hs0, -⟩ := Linux.so_fopen_some pathname mode os0 s0 os1 hopen
    have hb0 : Linux.CursorsInBounds s0 := by
      rw [hs0]
      exact ⟨le_refl 0, by show (0 : Int) ≤ (FILE_BUFF_LEN : Int); simp, le_refl 0, le_refl 0,
        by show (0 : Int) ≤ (FILE_BUFF_LEN : Int); simp⟩
    have hb := Linux.run_bounds fuel ops s0 os1 s os hb0 hrun
    have hloop := Linux.so_fwrite_loop_stops fuel ptr k (nmemb * size % 2 ^ 64) 0
      { s with was_written := 1 } os r1 r2 hk h1 hall (by simpa using h2) hv
    obtain ⟨hout, hc0, hc1⟩ := Linux.putInts_output fuel _ { s with was_written := 1 } os r1
      hb.cw0 hb.cw1 h1 hall
    rw [Linux.srcInts_bytes] at hout
    obtain ⟨_, hcase⟩ := Linux.so_fputc_effect fuel _ r1.stream r1.os r2 hc0 hc1 h2
    refine ⟨{ val := k / size, stream := r2.stream, os := r2.os }, ?_, rfl, rfl, rfl,
      by simpa [output, pending] using hout,
      Linux.so_fputc_handed fuel _ r1.stream r1.os r2 h2, ?_⟩
    · unfold Linux.so_fwrite
      simp only
      rw [if_neg (by simp [hfeof]), hloop]
      simp
    · intro hsrc
      rcases hcase with ⟨_, hfw, hs, _⟩ | ⟨hval, _⟩
      · exact ⟨hfw, by simp only [hs, pending]⟩
      · exact absurd (hval.symm.trans hv) hsrc
  · intro fuel pathname mode os0 s0 os1 ops s os ptr size nmemb k r1 r2 hopen hrun hk
      h1 hall h2 hv
    obtain ⟨hs0, -⟩ := Win.so_fopen_some_toplevel pathname mode os0 s0 os1 hopen
    obtain ⟨h0, hle⟩ := Win.run_cw_toplevel fuel ops s0 os1 s os
      (by rw [hs0]; exact le_refl 0)
      (by rw [hs0]; show (0 : Int) ≤ (FILE_BUFF_LEN : Int); simp) hrun
    have hloop := Win.so_fwrite_loop_stops_toplevel fuel ptr k (nmemb * size % 2 ^ 64) 0
      { s with was_written := 1 } os r1 r2 hk h1 hall (by simpa using h2) hv
    obtain ⟨hout, hc0, hc1⟩ := Win.putInts_output_toplevel fuel _
      { s with was_written := 1 } os r1 h0 hle h1 hall
    rw [Win.srcChars_bytes] at hout
    obtain ⟨_, hcase⟩ := Win.so_fputc_effect_toplevel fuel _ r1.stream r1.os r2 hc0 hc1 h2
    rcases hcase with ⟨_, hfw, hs, hpre⟩ | ⟨hval, _⟩
    · refine ⟨{ val := k / size, stream := r2.stream, os := r2.os }, ?_, rfl, rfl, rfl,
        by simpa [Win.pending] using hout, hpre, hfw, by simp only [hs, Win.pending]⟩
      unfold Win.so_fwrite
      simp only
      rw [hloop]
      simp
    · exfalso
      rw [hv] at hval
      have := (byteOfInt (loadChar ptr k)).isLt
      simp only [SO_EOF] at hval
      omega

/-- Witness for `so_fwrite_counts_complete_elements`: a stream opened `w+` on a
device whose writes fail, after 4086 calls `so_fputc('A', stream)`, so that
there is room for ten more bytes; `so_fwrite` with `size = 4` and `nmemb = 3`
returns 2 in both variants, after one failed write call. -/
theorem so_fwrite_counts_complete_elements_witness :
    (Linux.so_fopen "f" "w+" brokenOs = (some Linux.fresh, Linux.openedBrokenOs) ∧
      Linux.run 1 (List.replicate 4086 (Linux.Op.fputc 65)) Linux.fresh Linux.openedBrokenOs
        = some (Linux.nearlyFull, Linux.openedBrokenOs) ∧
      ∃ r1 r2,
        Linux.putInts 1 (Linux.srcInts blockOfB 0 10)
          { Linux.nearlyFull with was_written := 1 } Linux.openedBrokenOs = some r1 ∧
        (∀ v ∈ r1.val, v ≠ SO_EOF) ∧
        Linux.so_fputc 1 (loadInt blockOfB 10) r1.stream r1.os = some r2 ∧
        r2.val = SO_EOF ∧
        (∃ r, Linux.so_fwrite 1 blockOfB 4 3 Linux.nearlyFull Linux.openedBrokenOs = some r ∧
          r.val = 10 / 4 ∧ r.stream = r2.stream ∧ r.os = r2.os ∧
          output r1.stream r1.os
            = output Linux.nearlyFull Linux.openedBrokenOs ++ memRange blockOfB 0 10 ∧
          handed r1.os.log <+: handed r.os.log ∧
          (loadInt blockOfB 10 ≠ SO_EOF →
            failedWrites r.os.log = failedWrites r1.os.log + 1 ∧
            pending r.stream = pending r1.stream)) ∧
        ∃ r, Linux.so_fwrite 1 blockOfB 4 3 Linux.nearlyFull Linux.openedBrokenOs = some r ∧
          r.val = 2 ∧ failedWrites r.os.log = 1) ∧
    (Win.so_fopen "f" "w+" brokenOs = (some Win.fresh, Win.openedBrokenOs) ∧
      Win.run 1 (List.replicate 4086 (Win.Op.fputc 65)) Win.fresh Win.openedBrokenOs
        = some (Win.nearlyFull, Win.openedBrokenOs) ∧
      ∃ r1 r2,
        Win.putInts 1 (Win.srcChars blockOfB 0 10) { Win.nearlyFull with was_written := 1 }
          Win.openedBrokenOs = some r1 ∧
        (∀ v ∈ r1.val, v ≠ SO_EOF) ∧
        Win.so_fputc 1 (loadChar blockOfB 10) r1.stream r1.os = some r2 ∧
        r2.val = SO_EOF ∧
        (∃ r, Win.so_fwrite 1 blockOfB 4 3 Win.nearlyFull Win.openedBrokenOs = some r ∧
          r.val = 10 / 4 ∧ r.stream = r2.stream ∧ r.os = r2.os ∧
          handed r1.os.log ++ Win.pending r1.stream
            = handed Win.openedBrokenOs.log ++ Win.pending Win.nearlyFull
              ++ memRange blockOfB 0 10 ∧
          handed r1.os.log <+: handed r.os.log ∧
          failedWrites r.os.log = failedWrites r1.os.log + 1 ∧
          Win.pending r.stream = Win.pending r1.stream) ∧
        ∃ r, Win.so_fwrite 1 blockOfB 4 3 Win.nearlyFull Win.openedBrokenOs = some r ∧
          r.val = 2 ∧ failedWrites r.os.log = 1) :=
  ⟨⟨rfl, Linux.run_fputc_fresh 1 Linux.openedBrokenOs 4085 (by decide),
      _, _, rfl, by decide, rfl, by decide,
      so_fwrite_counts_complete_elements.1 1 "f" "w+" brokenOs Linux.fresh Linux.openedBrokenOs
        (List.replicate 4086 (Linux.Op.fputc 65)) Linux.nearlyFull Linux.openedBrokenOs
        blockOfB 4 3 10 _ _ rfl
        (Linux.run_fputc_fresh 1 Linux.openedBrokenOs 4085 (by decide))
        rfl (by decide) rfl (by decide) rfl (by decide),
      _, rfl, by decide, by decide⟩,
    ⟨rfl, Win.run_fputc_fresh_toplevel 1 Win.openedBrokenOs 4085 (by decide),
      _, _, rfl, by decide, rfl, by decide,
      so_fwrite_counts_complete_elements.2 1 "f" "w+" brokenOs Win.fresh Win.openedBrokenOs
        (List.replicate 4086 (Win.Op.fputc 65)) Win.nearlyFull Win.openedBrokenOs
        blockOfB 4 3 10 _ _ rfl
        (Win.run_fputc_fresh_toplevel 1 Win.openedBrokenOs 4085 (by decide))
        (by decide) rfl (by decide) rfl (by decide),
      _, rfl, by decide, by decide⟩⟩

/-! ## C5: what `so_fputc` returns -/

/-- C5. Evaluation of `so_fputc` of `src/Linux/so_stdio.c` at the failing
inputs: on a freshly opened stream `so_fputc(-1, stream)` stores the byte 255,
advances both cursors, attempts no flush and leaves the error flag clear, yet
returns `SO_EOF`; and `so_fputc(321, stream)` stores the byte 65 and returns
321. The top-level variant returns the stored byte, 255 and 65. -/
theorem so_fputc_returns_its_argument :
    (∃ r, Linux.so_fputc 4096 (-1) Linux.fresh Linux.openedOs = some r ∧
      r.val = SO_EOF ∧ r.stream.buffer 0 = 255 ∧ r.stream.cursor_buf_write = 1 ∧
      r.stream.cursor_fd = 1 ∧ r.stream.ferror = 0 ∧ writeCalls r.os.log = 0) ∧
    (∃ r, Linux.so_fputc 4096 321 Linux.fresh Linux.openedOs = some r ∧
      r.val = 321 ∧ r.stream.buffer 0 = 65) ∧
    (∃ r, Win.so_fputc 4096 (-1) Win.fresh Win.openedOs = some r ∧
      r.val = 255 ∧ r.stream.buffer 0 = 255) ∧
    (∃ r, Win.so_fputc 4096 321 Win.fresh Win.openedOs = some r ∧
      r.val = 65 ∧ r.stream.buffer 0 = 65) :=
  ⟨⟨_, rfl, by decide, by decide, by decide, by decide, by decide, by decide⟩,
    ⟨_, rfl, by decide, by decide⟩,
    ⟨_, rfl, by decide, by decide⟩,
    ⟨_, rfl, by decide, by decide⟩⟩

/-! ## C6: `so_fflush` drains the pending region -/

/-- C6. `so_fflush` drains the whole pending region, in both variants: on a
stream whose write cursor is between 0 and 4096, if every underlying write
call either fails or transfers at least one (and at most the requested number
of) bytes, the loop terminates within as many iterations as there are pending
bytes; and when no call failed during the flush, the bytes handed to the
descriptor are exactly the pending bytes `buffer[0 .. w)` in order, the buffer
is zeroed, the write cursor is 0 and the result is 0. -/
theorem so_fflush_drains_pending :
    (∀ (fuel : Nat) (s : SoFile) (os : Os),
      0 ≤ s.cursor_buf_write → s.cursor_buf_write ≤ FILE_BUFF_LEN →
      WritesProgress os → s.cursor_buf_write.toNat ≤ fuel →
      ∃ r, Linux.so_fflush fuel s os = some r ∧
        (failedWrites r.os.log = failedWrites os.log →
          handed r.os.log = handed os.log ++ pending s ∧
          (∀ i, i < FILE_BUFF_LEN → r.stream.buffer i = 0) ∧
          r.stream.cursor_buf_write = 0 ∧ r.val = 0)) ∧
    (∀ (fuel : Nat) (s : Win.SoFile) (os : Os),
      0 ≤ s.cursor_buf_write → s.cursor_buf_write ≤ FILE_BUFF_LEN →
      WritesProgress os → s.cursor_buf_write.toNat ≤ fuel →
      ∃ r, Win.so_fflush fuel s os = some r ∧
        (failedWrites r.os.log = failedWrites os.log →
          handed r.os.log = handed os.log ++ Win.pending s ∧
          (∀ i, i < FILE_BUFF_LEN → r.stream.buffer i = 0) ∧
          r.stream.cursor_buf_write = 0 ∧ r.val = 0)) := by
  constructor
  · intro fuel s os _ _ hp hf
    obtain ⟨r, hr⟩ := Linux.so_fflush_terminates fuel s os hp hf
    refine ⟨r, hr, ?_⟩
    intro hnf
    obtain ⟨D, O, n, L, hos, _, hcase⟩ := Linux.so_fflush_cases fuel s os r hr
    rw [hos, Os.wrote_log, failedWrites_append] at hnf
    rcases hcase with ⟨_, _, hL⟩ | ⟨hv, hs, _, hh, _⟩
    · omega
    · rw [hos, Os.wrote_log, handed_append, hh, hs]
      exact ⟨rfl, fun i hi => memset0_zero _ i hi, rfl, hv⟩
  · intro fuel s os _ _ hp hf
    obtain ⟨r, hr⟩ := Win.so_fflush_terminates_toplevel fuel s os hp hf
    refine ⟨r, hr, ?_⟩
    intro hnf
    obtain ⟨D, O, n, L, hos, _, hcase⟩ := Win.so_fflush_cases_toplevel fuel s os r hr
    rw [hos, Os.wrote_log, failedWrites_append] at hnf
    rcases hcase with ⟨_, _, hL⟩ | ⟨hv, hs, _, hh, _⟩
    · omega
    · rw [hos, Os.wrote_log, handed_append, hh, hs]
      exact ⟨rfl, fun i hi => memset0_zero _ i hi, rfl, hv⟩

/-- Witness for `so_fflush_drains_pending`: three pending bytes on a device that
transfers two bytes per call, in both variants; the flush takes two `write`
calls. -/
theorem so_fflush_drains_pending_witness :
    (WritesProgress Linux.openedOs ∧
      (∃ r, Linux.so_fflush 3 Linux.threePending Linux.openedOs = some r ∧
        (failedWrites r.os.log = failedWrites Linux.openedOs.log →
          handed r.os.log = handed Linux.openedOs.log ++ pending Linux.threePending ∧
          (∀ i, i < FILE_BUFF_LEN → r.stream.buffer i = 0) ∧
          r.stream.cursor_buf_write = 0 ∧ r.val = 0)) ∧
      ∃ r, Linux.so_fflush 3 Linux.threePending Linux.openedOs = some r ∧
        writeCalls r.os.log = 2 ∧ failedWrites r.os.log = 0 ∧
        handed r.os.log = [65, 66, 67]) ∧
    (WritesProgress Win.openedOs ∧
      (∃ r, Win.so_fflush 3 Win.threePending Win.openedOs = some r ∧
        (failedWrites r.os.log = failedWrites Win.openedOs.log →
          handed r.os.log = handed Win.openedOs.log ++ Win.pending Win.threePending ∧
          (∀ i, i < FILE_BUFF_LEN → r.stream.buffer i = 0) ∧
          r.stream.cursor_buf_write = 0 ∧ r.val = 0)) ∧
      ∃ r, Win.so_fflush 3 Win.threePending Win.openedOs = some r ∧
        writeCalls r.os.log = 2 ∧ failedWrites r.os.log = 0 ∧
        handed r.os.log = [65, 66, 67]) :=
  ⟨⟨fun _ => by show (some 2 : Option Nat) ≠ some 0; decide,
      so_fflush_drains_pending.1 3 Linux.threePending Linux.openedOs
        (by decide) (by decide) (fun _ => by show (some 2 : Option Nat) ≠ some 0; decide)
        (by decide),
      _, rfl, by decide, by decide, by decide⟩,
    ⟨fun _ => by show (some 2 : Option Nat) ≠ some 0; decide,
      so_fflush_drains_pending.2 3 Win.threePending Win.openedOs
        (by decide) (by decide) (fun _ => by show (some 2 : Option Nat) ≠ some 0; decide)
        (by decide),
      _, rfl, by decide, by decide, by decide⟩⟩

/-! ## C7: `so_fseek` after a failed flush -/

/-- C7. Evaluation of `so_fseek` of `src/Linux/so_stdio.c` at the failing input:
a stream opened `w+` on a device whose writes fail, after `so_fputc('A')`.  The
flush inside `so_fseek(stream, 0, SEEK_SET)` fails, yet `lseek` is called, the
position cursor moves from 1 to 0, the error flag stays clear and the result
is 0.  The top-level variant returns `SO_EOF`, sets the error flag, calls no
reposition and leaves the position cursor at 1. -/
theorem so_fseek_ignores_failed_flush :
    (∃ p r, Linux.so_fputc 1 65 Linux.fresh Linux.openedBrokenOs = some p ∧
      p.val = 65 ∧ p.stream.was_written = 1 ∧ p.stream.cursor_fd = 1 ∧
      Linux.so_fseek 1 p.stream p.os 0 SEEK_SET = some r ∧
      failedWrites r.os.log = 1 ∧ r.val = 0 ∧ r.stream.ferror = 0 ∧
      lseekCalls r.os.log = 1 ∧ r.stream.cursor_fd = 0) ∧
    (∃ p r, Win.so_fputc 1 65 Win.fresh Win.openedBrokenOs = some p ∧
      p.val = 65 ∧ p.stream.was_written = 1 ∧ p.stream.cursor_fd = 1 ∧
      Win.so_fseek 1 p.stream p.os 0 SEEK_SET = some r ∧
      failedWrites r.os.log = 1 ∧ r.val = SO_EOF ∧ r.stream.ferror = 1 ∧
      lseekCalls r.os.log = 0 ∧ r.stream.cursor_fd = 1) :=
  ⟨⟨_, _, rfl, by decide, by decide, by decide, rfl, by decide, by decide, by decide,
      by decide, by decide⟩,
    ⟨_, _, rfl, by decide, by decide, by decide, rfl, by decide, by decide, by decide,
      by decide, by decide⟩⟩

/-! ## C8: `so_fflush` and the error flag -/

/-- C8. Evaluation of `so_fflush` of `src/Linux/so_stdio.c` at the failing
input: a stream opened `w+` on a device whose writes fail, after
`so_fputc('A')`.  `so_fflush` returns `SO_EOF` and `so_ferror` still reports 0.
The top-level variant returns `SO_EOF` and `so_ferror` reports 1. -/
theorem so_fflush_failure_leaves_ferror_clear :
    (∃ p r, Linux.so_fputc 1 65 Linux.fresh Linux.openedBrokenOs = some p ∧
      p.val = 65 ∧ Linux.so_ferror p.stream = 0 ∧
      Linux.so_fflush 1 p.stream p.os = some r ∧
      failedWrites r.os.log = 1 ∧ r.val = SO_EOF ∧ Linux.so_ferror r.stream = 0) ∧
    (∃ p r, Win.so_fputc 1 65 Win.fresh Win.openedBrokenOs = some p ∧
      p.val = 65 ∧ Win.so_ferror p.stream = 0 ∧
      Win.so_fflush 1 p.stream p.os = some r ∧
      failedWrites r.os.log = 1 ∧ r.val = SO_EOF ∧ Win.so_ferror r.stream = 1) :=
  ⟨⟨_, _, rfl, by decide, by decide, rfl, by decide, by decide, by decide⟩,
    ⟨_, _, rfl, by decide, by decide, rfl, by decide, by decide, by decide⟩⟩

/-! ## C9: `so_fgetc` after a seek -/

/-- Counterexample to C9 as stated. A stream opened `r+` on the file `ABCDEFGH`:
after `so_fgetc` (which returns `A`), `so_fputc('x')` and a
`so_fseek(stream, 5, SEEK_SET)` that returns 0, the end-of-file flag is clear
and the byte at offset 5 of the file is `F`, yet the next `so_fgetc` issues no
read call and returns 0, the content of the zeroed buffer under the stale read
cursor. -/
theorem so_fgetc_after_write_and_seek_skips_refill :
    Linux.so_fopen "f" "r+" lettersOs = (some Linux.fresh, Linux.openedLettersOs) ∧
    Linux.afterReadA.val = 65 ∧
    ∃ p r,
      Linux.so_fputc 4096 120 Linux.afterReadA.stream Linux.afterReadA.os = some p ∧
      p.val = 120 ∧
      Linux.so_fseek 4096 p.stream p.os 5 SEEK_SET = some r ∧
      r.val = 0 ∧ r.stream.feof = 0 ∧ r.os.data[5]? = some 70 ∧
      (Linux.so_fgetc r.stream r.os).val = 0 ∧
      readCalls (Linux.so_fgetc r.stream r.os).os.log = readCalls r.os.log :=
  ⟨rfl, by decide, _, _, rfl, by decide, rfl, by decide, by decide, by decide, by decide,
    by decide⟩

/-- C9, as amended. In `src/Linux/so_stdio.c`, for every stream whose
end-of-file flag is clear and in which either the last operation was not a
write, or the read cursor is 0 or equal to the valid-byte count: after
`so_fseek(stream, p, SEEK_SET)` returns 0, if the next underlying read call
does not fail, the next `so_fgetc` issues a refill and returns the byte at
absolute offset `p` of the underlying file, or reports end of file when `p` is
at or past the file's length. -/
theorem so_fgetc_after_seek_set (fuel : Nat) (s : SoFile) (os : Os) (p : Int) (r : Ret Int)
    (hfeof : s.feof = 0)
    (hclean : s.was_written = 0 ∨ s.cursor_buf_read = 0 ∨ s.cursor_buf_read = s.buffer_size)
    (h : Linux.so_fseek fuel s os p SEEK_SET = some r) (hret : r.val = 0)
    (hread : os.readable = true) (hnofail : os.rsched os.nread ≠ none) :
    0 ≤ p ∧
    readCalls (Linux.so_fgetc r.stream r.os).os.log = readCalls r.os.log + 1 ∧
    (∀ b, r.os.data[p.toNat]? = some b → (Linux.so_fgetc r.stream r.os).val = (b.val : Int)) ∧
    (r.os.data.length ≤ p.toNat →
      (Linux.so_fgetc r.stream r.os).val = SO_EOF ∧
      Linux.so_feof (Linux.so_fgetc r.stream r.os).stream ≠ 0) ∧
    (s.was_written = 0 → r.os.data = os.data) := by
  obtain ⟨s1, os1, hr, hf, _, _, _, hrd, hrs, hnr, _, hcase⟩ :=
    Linux.so_fseek_cases fuel s os p SEEK_SET r h
  subst hr
  obtain ⟨hp0, hs, hos⟩ := Linux.reposition_set s1 os1 p hret
  obtain ⟨k, hk⟩ := Option.ne_none_iff_exists'.mp hnofail
  have hc : s1.cursor_buf_read = 0 ∨ s1.cursor_buf_read = s1.buffer_size := by
    rcases hcase with ⟨_, h1, _, _⟩ | ⟨hw, h1, h2⟩
    · exact Or.inl h1
    · rcases hclean with h0 | h0 | h0
      · exact absurd h0 hw
      · exact Or.inl (h1.trans h0)
      · exact Or.inr (by rw [h1, h2]; exact h0)
  have hdata_eq : s.was_written = 0 → os1.data = os.data := by
    intro hw
    rcases hcase with ⟨_, _, _, e⟩ | ⟨hw', _⟩
    · rw [e]
    · exact absurd hw hw'
  rw [hs, hos]
  have hfeof' : ({ s1 with cursor_fd := wrap32 p } : SoFile).feof = 0 := by
    show s1.feof = 0
    rw [hf, hfeof]
  have hr' : ({ os1 with
      off := p.toNat, log := os1.log ++ [Call.lseek s1.fd p SEEK_SET p] } : Os).readable
      = true := by
    show os1.readable = true
    rw [hrd, hread]
  have hk' : ({ os1 with
      off := p.toNat, log := os1.log ++ [Call.lseek s1.fd p SEEK_SET p] } : Os).rsched
      ({ os1 with
        off := p.toNat, log := os1.log ++ [Call.lseek s1.fd p SEEK_SET p] } : Os).nread
      = some k := by
    show os1.rsched os1.nread = some k
    rw [hrs, hnr, hk]
  refine ⟨hp0, ?_, ?_, ?_, hdata_eq⟩
  · cases hd : os1.data.drop p.toNat with
    | nil =>
      rw [Linux.so_fgetc_refill_eof _ _ k hfeof' hc hr' hk' hd]
      exact readCalls_read _ _ _ _
    | cons b t =>
      rw [Linux.so_fgetc_refill_byte _ _ k b t hfeof' hc hr' hk' hd]
      exact readCalls_read _ _ _ _
  · intro b hb
    have hlt : p.toNat < os1.data.length := by
      by_contra hge
      rw [List.getElem?_eq_none (by simpa using hge)] at hb
      simp at hb
    have hd : os1.data.drop p.toNat = b :: os1.data.drop (p.toNat + 1) := by
      rw [List.getElem?_eq_getElem hlt] at hb
      simp only [Option.some.injEq] at hb
      rw [← hb]
      exact List.drop_eq_getElem_cons hlt
    rw [Linux.so_fgetc_refill_byte _ _ k b _ hfeof' hc hr' hk' hd]
    simp only [Linux.fetch, Int.toNat_zero, blit_cons_zero]
  · intro hge
    have hd : os1.data.drop p.toNat = [] := List.drop_eq_nil_of_le hge
    rw [Linux.so_fgetc_refill_eof _ _ k hfeof' hc hr' hk' hd]
    simp [Linux.so_feof]

/-- Witness for `so_fgetc_after_seek_set`: a seek to offset 5 on a stream just
opened `r+` on the file `ABCDEFGH`; the next `so_fgetc` returns `F`. -/
theorem so_fgetc_after_seek_set_witness :
    Linux.fresh.feof = 0 ∧ Linux.fresh.was_written = 0 ∧
    Linux.openedLettersOs.readable = true ∧
    ∃ r, Linux.so_fseek 4096 Linux.fresh Linux.openedLettersOs 5 SEEK_SET = some r ∧
      r.val = 0 ∧ (Linux.so_fgetc r.stream r.os).val = 70 ∧
      ((0 : Int) ≤ 5 ∧
        readCalls (Linux.so_fgetc r.stream r.os).os.log = readCalls r.os.log + 1 ∧
        (∀ b, r.os.data[(5 : Int).toNat]? = some b →
          (Linux.so_fgetc r.stream r.os).val = (b.val : Int)) ∧
        (r.os.data.length ≤ (5 : Int).toNat →
          (Linux.so_fgetc r.stream r.os).val = SO_EOF ∧
          Linux.so_feof (Linux.so_fgetc r.stream r.os).stream ≠ 0) ∧
        (Linux.fresh.was_written = 0 → r.os.data = Linux.openedLettersOs.data)) :=
  ⟨rfl, rfl, by decide, _, rfl, by decide, by decide,
    so_fgetc_after_seek_set 4096 Linux.fresh Linux.openedLettersOs 5 _
      rfl (Or.inl rfl) rfl (by decide) (by decide) (by decide)⟩

/-! ## C10: `so_ftell` after a seek -/

/-- Counterexample to C10 as stated. On a stream opened `w+` on an empty file
whose end-of-file flag was set by a `so_fgetc`, `so_fseek(stream, 5, SEEK_SET)`
returns 0 and the following `so_ftell` returns -1, not 5.  (The last part
shows why the amended claim asks for an offset that fits in an `int`: on the
freshly opened stream a seek to `2 ^ 32` returns 0 and `so_ftell` returns 0.) -/
theorem so_ftell_after_eof_and_seek :
    Linux.atEof.val = SO_EOF ∧
    (∃ r, Linux.so_fseek 4096 Linux.atEof.stream Linux.atEof.os 5 SEEK_SET = some r ∧
      r.val = 0 ∧ Linux.so_ftell r.stream = -1 ∧ Linux.so_ftell r.stream ≠ 5) ∧
    ∃ r, Linux.so_fseek 4096 Linux.fresh Linux.openedOs 4294967296 SEEK_SET = some r ∧
      r.val = 0 ∧ r.os.off = 4294967296 ∧ Linux.so_ftell r.stream = 0 :=
  ⟨by decide, ⟨_, rfl, by decide, by decide, by decide⟩, _, rfl, by decide, by decide,
    by decide⟩

/-- C10, as amended. In `src/Linux/so_stdio.c`, for every stream whose
end-of-file flag is clear and every offset that fits in an `int`, if
`so_fseek(stream, offset, SEEK_SET)` returns 0 then the immediately following
`so_ftell(stream)` returns exactly `offset`. -/
theorem so_ftell_after_seek_set (fuel : Nat) (s : SoFile) (os : Os) (offset : Int) (r : Ret Int)
    (hfeof : s.feof = 0) (hlo : -(2 ^ 31) ≤ offset) (hhi : offset < 2 ^ 31)
    (h : Linux.so_fseek fuel s os offset SEEK_SET = some r) (hret : r.val = 0) :
    Linux.so_ftell r.stream = offset := by
  obtain ⟨s1, os1, hr, hf, _⟩ := Linux.so_fseek_cases fuel s os offset SEEK_SET r h
  subst hr
  obtain ⟨_, hs, _⟩ := Linux.reposition_set s1 os1 offset hret
  rw [hs]
  simp only [Linux.so_ftell, hf, hfeof, ne_eq, not_true_eq_false, ↓reduceIte]
  exact wrap32_of_range offset hlo hhi

/-- Witness for `so_ftell_after_seek_set`: a seek to offset 5 on a freshly
opened stream. -/
theorem so_ftell_after_seek_set_witness :
    Linux.fresh.feof = 0 ∧ -(2 ^ 31) ≤ (5 : Int) ∧ (5 : Int) < 2 ^ 31 ∧
    ∃ r, Linux.so_fseek 4096 Linux.fresh Linux.openedOs 5 SEEK_SET = some r ∧
      r.val = 0 ∧ Linux.so_ftell r.stream = 5 :=
  ⟨rfl, by decide, by decide, _, rfl, by decide,
    so_ftell_after_seek_set 4096 Linux.fresh Linux.openedOs 5 _
      rfl (by decide) (by decide) rfl (by decide)⟩

/-! ## C11: `so_fclose` releases exactly once -/

/-- C11. `so_fclose` releases exactly once on every path, in both variants.
For every stream state, on a device where no write call transfers zero bytes
(so that the flush returns), `so_fclose` returns, and the calls it issues are:
the write calls `W` of the flush, then one `close` of the stream's descriptor,
then one `free`.  With write cursor 0 there is no flush (`W` is empty); with a
nonzero write cursor the calls `W` are those of `so_fflush` on that stream (a
negative write cursor, which no operation produces, makes that flush issue no
call).  The result is `SO_EOF` exactly when a write of the flush failed or
`close` did not return 0, and it is 0 otherwise. -/
theorem so_fclose_releases_exactly_once :
    (∀ (fuel : Nat) (s : SoFile) (os : Os),
      WritesProgress os → s.cursor_buf_write.toNat ≤ fuel →
      ∃ r W c, Linux.so_fclose fuel s os = some r ∧
        r.os.log = os.log ++ W ++ [Call.close s.fd c, Call.free] ∧
        (∀ x ∈ W, x.isWrite = true) ∧
        closeCalls r.os.log = closeCalls os.log + 1 ∧
        freeCalls r.os.log = freeCalls os.log + 1 ∧
        (s.cursor_buf_write = 0 → W = []) ∧
        (s.cursor_buf_write ≠ 0 →
          ∃ fr, Linux.so_fflush fuel s os = some fr ∧ fr.os.log = os.log ++ W ∧
            (fr.val = SO_EOF ↔ failedWrites W ≠ 0)) ∧
        (c = if os.closeOk then 0 else -1) ∧
        (r.ret = SO_EOF ↔ failedWrites W ≠ 0 ∨ c ≠ 0) ∧
        (r.ret ≠ SO_EOF → r.ret = 0)) ∧
    (∀ (fuel : Nat) (s : Win.SoFile) (os : Os),
      WritesProgress os → s.cursor_buf_write.toNat ≤ fuel →
      ∃ r W c, Win.so_fclose fuel s os = some r ∧
        r.os.log = os.log ++ W ++ [Call.close s.fd c, Call.free] ∧
        (∀ x ∈ W, x.isWrite = true) ∧
        closeCalls r.os.log = closeCalls os.log + 1 ∧
        freeCalls r.os.log = freeCalls os.log + 1 ∧
        (s.cursor_buf_write = 0 → W = []) ∧
        (s.cursor_buf_write ≠ 0 →
          ∃ fr, Win.so_fflush fuel s os = some fr ∧ fr.os.log = os.log ++ W ∧
            (fr.val = SO_EOF ↔ failedWrites W ≠ 0)) ∧
        (c = if os.closeOk then 0 else -1) ∧
        (r.ret = SO_EOF ↔ failedWrites W ≠ 0 ∨ c ≠ 0) ∧
        (r.ret ≠ SO_EOF → r.ret = 0)) := by
  constructor
  · intro fuel s os hp hf
    obtain ⟨r, W, c, h1, h2, h3, h4, h5, h6, h7, h8⟩ := Linux.so_fclose_spec fuel s os hp hf
    exact ⟨r, W, c, h1, h2, h3, by rw [h2]; exact closeCalls_tail _ _ _ _ h3,
      by rw [h2]; exact freeCalls_tail _ _ _ _ h3, h4, h5, h6, h7, h8⟩
  · intro fuel s os hp hf
    obtain ⟨r, W, c, h1, h2, h3, h4, h5, h6, h7, h8⟩ :=
      Win.so_fclose_spec_toplevel fuel s os hp hf
    exact ⟨r, W, c, h1, h2, h3, by rw [h2]; exact closeCalls_tail _ _ _ _ h3,
      by rw [h2]; exact freeCalls_tail _ _ _ _ h3, h4, h5, h6, h7, h8⟩

/-- Witness for `so_fclose_releases_exactly_once`: the stream with three pending
bytes on the healthy device, in the Linux variant; evaluated, the call returns
0 after two writes, one `close` and one `free`.  On the device whose writes
fail and on the device whose `close` fails the result is `SO_EOF`, again with
one `close` and one `free`. -/
theorem so_fclose_releases_exactly_once_witness :
    WritesProgress Linux.openedOs ∧ Linux.threePending.cursor_buf_write.toNat ≤ 3 ∧
    (∃ r W c, Linux.so_fclose 3 Linux.threePending Linux.openedOs = some r ∧
        r.os.log = Linux.openedOs.log ++ W ++ [Call.close Linux.threePending.fd c, Call.free] ∧
        (∀ x ∈ W, x.isWrite = true) ∧
        closeCalls r.os.log = closeCalls Linux.openedOs.log + 1 ∧
        freeCalls r.os.log = freeCalls Linux.openedOs.log + 1 ∧
        (Linux.threePending.cursor_buf_write = 0 → W = []) ∧
        (Linux.threePending.cursor_buf_write ≠ 0 →
          ∃ fr, Linux.so_fflush 3 Linux.threePending Linux.openedOs = some fr ∧
            fr.os.log = Linux.openedOs.log ++ W ∧
            (fr.val = SO_EOF ↔ failedWrites W ≠ 0)) ∧
        (c = if Linux.openedOs.closeOk then 0 else -1) ∧
        (r.ret = SO_EOF ↔ failedWrites W ≠ 0 ∨ c ≠ 0) ∧
        (r.ret ≠ SO_EOF → r.ret = 0)) ∧
    (∃ r, Linux.so_fclose 3 Linux.threePending Linux.openedOs = some r ∧ r.ret = 0 ∧
      r.os.log = Linux.openedOs.log ++
        [Call.write 3 [65, 66, 67] 2, Call.write 3 [67] 1, Call.close 3 0, Call.free]) ∧
    (∃ r, Linux.so_fclose 3 Linux.threePending Linux.openedBrokenOs = some r ∧
      r.ret = SO_EOF ∧
      r.os.log = Linux.openedBrokenOs.log ++
        [Call.write 3 [65, 66, 67] (-1), Call.close 3 0, Call.free]) ∧
    (∃ r, Linux.so_fclose 3 Linux.threePending stuckCloseOs = some r ∧ r.ret = SO_EOF ∧
      r.os.log = stuckCloseOs.log ++
        [Call.write 3 [65, 66, 67] 2, Call.write 3 [67] 1, Call.close 3 (-1), Call.free]) ∧
    (∃ r, Win.so_fclose 3 Win.threePending stuckCloseOs = some r ∧ r.ret = SO_EOF ∧
      r.os.log = stuckCloseOs.log ++
        [Call.write 3 [65, 66, 67] 2, Call.write 3 [67] 1, Call.close 3 (-1), Call.free]) :=
  ⟨fun _ => by show (some 2 : Option Nat) ≠ some 0; decide, by decide,
    so_fclose_releases_exactly_once.1 3 Linux.threePending Linux.openedOs
      (fun _ => by show (some 2 : Option Nat) ≠ some 0; decide) (by decide),
    ⟨_, rfl, by decide, by decide⟩, ⟨_, rfl, by decide, by decide⟩,
    ⟨_, rfl, by decide, by decide⟩, ⟨_, rfl, by decide, by decide⟩⟩

/-! ## C12: `so_fopen` when the allocation fails -/

/-- C12. Evaluation of `so_fopen` of both variants at the failing input: a
device where `open` succeeds with descriptor 3 and `calloc` returns `NULL`.
For each of the six modes `so_fopen` returns `NULL`, and the calls it issued are
the `open` and the `calloc`: the descriptor obtained is never closed. -/
theorem so_fopen_leaks_handle_without_memory :
    (∀ mode ∈ ["r", "r+", "w", "w+", "a", "a+"],
      (Linux.so_fopen "f" mode noMemoryOs).1.isNone = true ∧
      (Linux.modeFlags mode).map (fun flags => [Call.open "f" flags 3, Call.calloc false])
        = some (Linux.so_fopen "f" mode noMemoryOs).2.log ∧
      closeCalls (Linux.so_fopen "f" mode noMemoryOs).2.log = 0) ∧
    (∀ mode ∈ ["r", "r+", "w", "w+", "a", "a+"],
      (Win.so_fopen "f" mode noMemoryOs).1.isNone = true ∧
      (Win.modeFlags mode).map (fun flags => [Call.open "f" flags 3, Call.calloc false])
        = some (Win.so_fopen "f" mode noMemoryOs).2.log ∧
      closeCalls (Win.so_fopen "f" mode noMemoryOs).2.log = 0) := by
  constructor <;> decide

/-! ## C13: `so_fread` at the end of the file -/

/-- Counterexample to C13 as stated, in both variants. A stream opened `w+` on
an empty file meets the end of the file in a `so_fgetc`; then `so_fputc('A')`
stores one pending byte and records a write as the last operation.  A
`so_fread` now returns 0 and records a read as the last operation.  Without
that `so_fread`, `so_fseek(stream, 0, SEEK_SET)` flushes: one write call, and
the file holds `A`.  After it, `so_fseek` issues no write call, the file stays
empty and the pending byte is zeroed in the buffer. -/
theorem so_fread_at_eof_resets_last_operation :
    (Linux.so_feof Linux.atEof.stream ≠ 0 ∧
      ∃ p k1 k2, Linux.so_fputc 4096 65 Linux.atEof.stream Linux.atEof.os = some p ∧
        p.stream.was_written = 1 ∧
        (Linux.so_fread blockOfB 1 1 p.stream p.os).val = 0 ∧
        (Linux.so_fread blockOfB 1 1 p.stream p.os).stream.was_written = 0 ∧
        Linux.so_fseek 4096 p.stream p.os 0 SEEK_SET = some k1 ∧
        writeCalls k1.os.log = 1 ∧ k1.os.data = [65] ∧
        Linux.so_fseek 4096 (Linux.so_fread blockOfB 1 1 p.stream p.os).stream
          (Linux.so_fread blockOfB 1 1 p.stream p.os).os 0 SEEK_SET = some k2 ∧
        writeCalls k2.os.log = 0 ∧ k2.os.data = [] ∧
        k2.stream.cursor_buf_write = 1 ∧ k2.stream.buffer 0 = 0) ∧
    (Win.so_feof Win.atEof.stream ≠ 0 ∧
      ∃ p k1 k2, Win.so_fputc 4096 65 Win.atEof.stream Win.atEof.os = some p ∧
        p.stream.was_written = 1 ∧
        (Win.so_fread blockOfB 1 1 p.stream p.os).val = 0 ∧
        (Win.so_fread blockOfB 1 1 p.stream p.os).stream.was_written = 0 ∧
        Win.so_fseek 4096 p.stream p.os 0 SEEK_SET = some k1 ∧
        writeCalls k1.os.log = 1 ∧ k1.os.data = [65] ∧
        Win.so_fseek 4096 (Win.so_fread blockOfB 1 1 p.stream p.os).stream
          (Win.so_fread blockOfB 1 1 p.stream p.os).os 0 SEEK_SET = some k2 ∧
        writeCalls k2.os.log = 0 ∧ k2.os.data = [] ∧
        k2.stream.cursor_buf_write = 1 ∧ k2.stream.buffer 0 = 0) :=
  ⟨⟨by decide, _, _, _, rfl, by decide, by decide, by decide, rfl, by decide, by decide, rfl,
      by decide, by decide, by decide, by decide⟩,
    ⟨by decide, _, _, _, rfl, by decide, by decide, by decide, rfl, by decide, by decide, rfl,
      by decide, by decide, by decide, by decide⟩⟩

/-- C13, as amended. In both variants, `so_fread` on a stream whose end-of-file
flag is set returns 0, leaves the destination block and the operating system
as they are (no underlying call is issued) and changes nothing in the stream
record except the last-operation flag, which it sets to "read".  When the last
operation was a read already, the record is unchanged; in any case a
`so_fseek` that follows takes the branch that discards the buffer, without a
flush. -/
theorem so_fread_at_eof_changes_only_last_operation :
    (∀ (ptr : Nat → Byte) (size nmemb : Nat) (s : SoFile) (os : Os), Linux.so_feof s ≠ 0 →
      Linux.so_fread ptr size nmemb s os
        = { val := 0, mem := ptr, stream := { s with was_written := 0 }, os := os } ∧
      (s.was_written = 0 → (Linux.so_fread ptr size nmemb s os).stream = s) ∧
      ∀ (fuel : Nat) (offset whence : Int),
        Linux.so_fseek fuel (Linux.so_fread ptr size nmemb s os).stream
            (Linux.so_fread ptr size nmemb s os).os offset whence
          = some (Linux.reposition
              { s with
                was_written := 0, buffer := memset0 s.buffer
                cursor_buf_read := 0, buffer_size := 0 }
              os offset whence)) ∧
    (∀ (ptr : Nat → Byte) (size nmemb : Nat) (s : Win.SoFile) (os : Os), Win.so_feof s ≠ 0 →
      Win.so_fread ptr size nmemb s os
        = { val := 0, mem := ptr, stream := { s with was_written := 0 }, os := os } ∧
      (s.was_written = 0 → (Win.so_fread ptr size nmemb s os).stream = s) ∧
      ∀ (fuel : Nat) (offset whence : Int),
        Win.so_fseek fuel (Win.so_fread ptr size nmemb s os).stream
            (Win.so_fread ptr size nmemb s os).os offset whence
          = some (Win.reposition
              { s with
                was_written := 0, buffer := memset0 s.buffer
                cursor_buf_read := 0, buffer_size := 0 }
              os offset whence)) := by
  constructor
  · intro ptr size nmemb s os h
    have e := Linux.so_fread_at_eof ptr size nmemb s os h
    refine ⟨e, fun hw => ?_, fun fuel offset whence => ?_⟩
    · rw [e]
      cases s
      simp only at hw
      simp only [hw]
    · rw [e]
      simp [Linux.so_fseek]
  · intro ptr size nmemb s os h
    have e := Win.so_fread_at_eof_toplevel ptr size nmemb s os h
    refine ⟨e, fun hw => ?_, fun fuel offset whence => ?_⟩
    · rw [e]
      cases s
      simp only at hw
      simp only [hw]
    · rw [e]
      simp [Win.so_fseek]

/-- Witness for `so_fread_at_eof_changes_only_last_operation`: the streams of
both variants that met the end of the empty file. -/
theorem so_fread_at_eof_changes_only_last_operation_witness :
    (Linux.so_feof Linux.atEof.stream ≠ 0 ∧
      (Linux.so_fread blockOfB 2 3 Linux.atEof.stream Linux.atEof.os
          = { val := 0, mem := blockOfB, stream := { Linux.atEof.stream with was_written := 0 }
              os := Linux.atEof.os } ∧
        (Linux.atEof.stream.was_written = 0 →
          (Linux.so_fread blockOfB 2 3 Linux.atEof.stream Linux.atEof.os).stream
            = Linux.atEof.stream) ∧
        ∀ (fuel : Nat) (offset whence : Int),
          Linux.so_fseek fuel (Linux.so_fread blockOfB 2 3 Linux.atEof.stream Linux.atEof.os).stream
              (Linux.so_fread blockOfB 2 3 Linux.atEof.stream Linux.atEof.os).os offset whence
            = some (Linux.reposition
                { Linux.atEof.stream with
                  was_written := 0, buffer := memset0 Linux.atEof.stream.buffer
                  cursor_buf_read := 0, buffer_size := 0 }
                Linux.atEof.os offset whence))) ∧
    (Win.so_feof Win.atEof.stream ≠ 0 ∧
      (Win.so_fread blockOfB 2 3 Win.atEof.stream Win.atEof.os
          = { val := 0, mem := blockOfB, stream := { Win.atEof.stream with was_written := 0 }
              os := Win.atEof.os } ∧
        (Win.atEof.stream.was_written = 0 →
          (Win.so_fread blockOfB 2 3 Win.atEof.stream Win.atEof.os).stream
            = Win.atEof.stream) ∧
        ∀ (fuel : Nat) (offset whence : Int),
          Win.so_fseek fuel (Win.so_fread blockOfB 2 3 Win.atEof.stream Win.atEof.os).stream
              (Win.so_fread blockOfB 2 3 Win.atEof.stream Win.atEof.os).os offset whence
            = some (Win.reposition
                { Win.atEof.stream with
                  was_written := 0, buffer := memset0 Win.atEof.stream.buffer
                  cursor_buf_read := 0, buffer_size := 0 }
                Win.atEof.os offset whence))) :=
  ⟨⟨by decide,
      so_fread_at_eof_changes_only_last_operation.1 blockOfB 2 3 Linux.atEof.stream Linux.atEof.os
        (by decide)⟩,
    ⟨by decide,
      so_fread_at_eof_changes_only_last_operation.2 blockOfB 2 3 Win.atEof.stream Win.atEof.os
        (by decide)⟩⟩

/-! ## C14: `so_pclose` -/

/-- Counterexample to C14 as stated. The stream `so_popen("true", "r")` returns
when the child is process 100.  When `waitpid` fails, `so_pclose` closes and
frees (the `so_fclose` sequence returns 0), issues `waitpid(100, _, 0)` and
returns -1, which is the value of `SO_EOF`; when instead `close` fails,
`so_pclose` issues no `waitpid` and returns `SO_EOF`: the two failures return
the same value. -/
theorem so_pclose_wait_failure_is_so_eof :
    Linux.so_popen "true" "r" healthyOs lostChildProcs = some (some Linux.piped, Linux.pipedOs) ∧
    (∃ c r, Linux.so_fclose 0 Linux.piped Linux.pipedOs = some c ∧ c.ret = 0 ∧
      Linux.so_pclose 0 Linux.piped Linux.pipedOs lostChildProcs = some r ∧
      r.os.log = c.os.log ++ [Call.waitpid 100 0 (-1)] ∧ r.ret = -1 ∧ r.ret = SO_EOF) ∧
    (∃ r, Linux.so_pclose 0 Linux.piped { Linux.pipedOs with closeOk := false } healthyProcs
        = some r ∧
      waitCalls r.os.log = 0 ∧ r.ret = SO_EOF) :=
  ⟨rfl, ⟨_, _, rfl, by decide, rfl, by decide, by decide, by decide⟩,
    ⟨_, rfl, by decide, by decide⟩⟩

/-- C14, as amended. In `src/Linux/so_stdio.c`, for a stream returned by
`so_popen` and any operations on it since, on a device where no write call
transfers zero bytes: `so_pclose` performs the `so_fclose` sequence first; if
that returns `SO_EOF` it returns `SO_EOF` and has issued no `waitpid`;
otherwise it issues exactly one `waitpid`, with options 0 (blocking), for the
process identifier that `fork` returned to `so_popen`, and returns the status
that call stored, or -1 if the call returned a negative value; -1 is the value
of `SO_EOF`. -/
theorem so_pclose_waits_for_stored_pid (fuel : Nat) (command type : String) (os0 : Os)
    (pr : Procs) (s0 : SoFile) (os1 : Os) (ops : List Linux.Op) (s : SoFile) (os : Os)
    (hopen : Linux.so_popen command type os0 pr = some (some s0, os1))
    (hrun : Linux.run fuel ops s0 os1 = some (s, os))
    (hp : WritesProgress os) (hf : s.cursor_buf_write.toNat ≤ fuel) :
    ∃ c r, Linux.so_fclose fuel s os = some c ∧ Linux.so_pclose fuel s os pr = some r ∧
      (c.ret = SO_EOF → r.ret = SO_EOF ∧ r.os = c.os ∧ waitCalls r.os.log = waitCalls os.log) ∧
      (c.ret ≠ SO_EOF →
        r.os.log = c.os.log ++ [Call.waitpid pr.forkRet 0 (pr.waitRet pr.forkRet)] ∧
        waitCalls r.os.log = waitCalls os.log + 1 ∧
        (0 ≤ pr.waitRet pr.forkRet → r.ret = pr.waitStatus pr.forkRet) ∧
        (pr.waitRet pr.forkRet < 0 → r.ret = -1 ∧ r.ret = SO_EOF)) := by
  obtain ⟨hpid0, -⟩ := Linux.so_popen_pid command type os0 pr s0 os1 hopen
  have hpid : s.pid = pr.forkRet := by
    rw [Linux.run_pid fuel ops s0 os1 s os hrun, hpid0]
  obtain ⟨c, W, k, hc, hlog, hW, -⟩ := Linux.so_fclose_spec fuel s os hp hf
  obtain ⟨r, hr, h1, h2⟩ := Linux.so_pclose_spec fuel s os pr c hc
  have hwc : waitCalls c.os.log = waitCalls os.log := by
    rw [hlog]; exact waitCalls_tail _ _ _ _ hW
  refine ⟨c, r, hc, hr, ?_, ?_⟩
  · intro he
    obtain ⟨e1, e2⟩ := h1 he
    exact ⟨e1, e2, by rw [e2, hwc]⟩
  · intro hne
    obtain ⟨e1, e2, e3⟩ := h2 hne
    rw [hpid] at e1 e2 e3
    refine ⟨e1, ?_, e2, fun h => ⟨e3 h, e3 h⟩⟩
    rw [e1]
    unfold waitCalls at hwc ⊢
    rw [List.countP_append, hwc]
    simp [Call.isWait]

/-- Witness for `so_pclose_waits_for_stored_pid`: the stream of
`so_popen("true", "r")` after one `so_fgetc`; `so_pclose` waits for process 100
and returns its status 0. -/
theorem so_pclose_waits_for_stored_pid_witness :
    Linux.so_popen "true" "r" healthyOs healthyProcs = some (some Linux.piped, Linux.pipedOs) ∧
    (∃ s os, Linux.run 0 [Linux.Op.fgetc] Linux.piped Linux.pipedOs = some (s, os) ∧
      WritesProgress os ∧ s.cursor_buf_write.toNat ≤ 0 ∧
      (∃ r, Linux.so_pclose 0 s os healthyProcs = some r ∧ r.ret = 0 ∧
        r.os.log = os.log ++ [Call.close 3 0, Call.free, Call.waitpid 100 0 100]) ∧
      ∃ c r, Linux.so_fclose 0 s os = some c ∧ Linux.so_pclose 0 s os healthyProcs = some r ∧
        (c.ret = SO_EOF →
          r.ret = SO_EOF ∧ r.os = c.os ∧ waitCalls r.os.log = waitCalls os.log) ∧
        (c.ret ≠ SO_EOF →
          r.os.log = c.os.log ++
            [Call.waitpid healthyProcs.forkRet 0 (healthyProcs.waitRet healthyProcs.forkRet)] ∧
          waitCalls r.os.log = waitCalls os.log + 1 ∧
          (0 ≤ healthyProcs.waitRet healthyProcs.forkRet →
            r.ret = healthyProcs.waitStatus healthyProcs.forkRet) ∧
          (healthyProcs.waitRet healthyProcs.forkRet < 0 → r.ret = -1 ∧ r.ret = SO_EOF))) :=
  ⟨rfl, _, _, rfl, fun _ => by show (some 2 : Option Nat) ≠ some 0; decide, by decide,
    ⟨_, rfl, by decide, by decide⟩,
    so_pclose_waits_for_stored_pid 0 "true" "r" healthyOs healthyProcs Linux.piped Linux.pipedOs
      [Linux.Op.fgetc] _ _ rfl rfl (fun _ => by show (some 2 : Option Nat) ≠ some 0; decide)
      (by decide)⟩

/-! ## C15: the number of implicit flushes -/

/-- C15. Implicit flush count, in both variants. On a stream freshly returned
by `so_fopen` in a mode that permits writing, on a device whose write calls
never fail and each transfer at least one byte, `n ≥ 1` consecutive calls of
`so_fputc` all return and perform exactly `(n - 1) / 4096` implicit flushes
(rounded down), each transferring exactly 4096 bytes.  Afterwards the bytes
handed to the descriptor are the first `4096 * ((n - 1) / 4096)` bytes
written, the pending bytes are the remaining ones, and the write cursor is
`(n - 1) % 4096 + 1`. -/
theorem implicit_flush_count :
    (∀ (fuel : Nat) (pathname mode : String) (os0 : Os) (s : SoFile) (os : Os) (cs : List Int),
      Linux.so_fopen pathname mode os0 = (some s, os) → os.writable = true →
      WritesSucceed os → FILE_BUFF_LEN ≤ fuel → 1 ≤ cs.length →
      ∃ r, Linux.putInts fuel cs s os = some r ∧
        Linux.flushSizes fuel cs s os = some (List.replicate ((cs.length - 1) / 4096) 4096) ∧
        r.stream.cursor_buf_write = (((cs.length - 1) % 4096 + 1 : Nat) : Int) ∧
        handed r.os.log
          = handed os.log ++ (cs.map byteOfInt).take (4096 * ((cs.length - 1) / 4096)) ∧
        pending r.stream = (cs.map byteOfInt).drop (4096 * ((cs.length - 1) / 4096))) ∧
    (∀ (fuel : Nat) (pathname mode : String) (os0 : Os) (s : Win.SoFile) (os : Os)
        (cs : List Int),
      Win.so_fopen pathname mode os0 = (some s, os) → os.writable = true →
      WritesSucceed os → FILE_BUFF_LEN ≤ fuel → 1 ≤ cs.length →
      ∃ r, Win.putInts fuel cs s os = some r ∧
        Win.flushSizes fuel cs s os = some (List.replicate ((cs.length - 1) / 4096) 4096) ∧
        r.stream.cursor_buf_write = (((cs.length - 1) % 4096 + 1 : Nat) : Int) ∧
        handed r.os.log
          = handed os.log ++ (cs.map byteOfInt).take (4096 * ((cs.length - 1) / 4096)) ∧
        Win.pending r.stream = (cs.map byteOfInt).drop (4096 * ((cs.length - 1) / 4096))) := by
  constructor
  · intro fuel pathname mode os0 s os cs hopen hwr hws hf hn
    obtain ⟨hs, -⟩ := Linux.so_fopen_some pathname mode os0 s os hopen
    have hcw : s.cursor_buf_write = 0 := by rw [hs]; rfl
    have hp : pending s = [] := by rw [hs]; rfl
    obtain ⟨r, hr, hfs, hc, hout, hlen⟩ := Linux.putInts_flushes fuel hf cs s os
      (by rw [hcw]) (by rw [hcw]; show (0 : Int) ≤ (FILE_BUFF_LEN : Int); simp) hwr hws
    rw [hcw] at hfs hc hlen
    simp only [Int.toNat_zero, Nat.zero_add] at hfs hc hlen
    rw [hp, List.append_nil] at hout
    obtain ⟨e1, e2⟩ := split_at_length _ _ _ _ _ hout hlen
    exact ⟨r, hr, hfs, hc (by intro h; rw [h] at hn; simp at hn), e1, e2⟩
  · intro fuel pathname mode os0 s os cs hopen hwr hws hf hn
    obtain ⟨hs, -⟩ := Win.so_fopen_some_toplevel pathname mode os0 s os hopen
    have hcw : s.cursor_buf_write = 0 := by rw [hs]; rfl
    have hp : Win.pending s = [] := by rw [hs]; rfl
    obtain ⟨r, hr, hfs, hc, hout, hlen⟩ := Win.putInts_flushes_toplevel fuel hf cs s os
      (by rw [hcw]) (by rw [hcw]; show (0 : Int) ≤ (FILE_BUFF_LEN : Int); simp) hwr hws
    rw [hcw] at hfs hc hlen
    simp only [Int.toNat_zero, Nat.zero_add] at hfs hc hlen
    rw [hp, List.append_nil] at hout
    obtain ⟨e1, e2⟩ := split_at_length _ _ _ _ _ hout hlen
    exact ⟨r, hr, hfs, hc (by intro h; rw [h] at hn; simp at hn), e1, e2⟩

/-- Witness for `implicit_flush_count`: 4097 bytes `A` written to a stream just
opened `w` by `src/Linux/so_stdio.c`, on a device that transfers at most 1000
bytes per write call.  There is exactly one implicit flush, of 4096 bytes; the
bytes handed to the descriptor are the first 4096, and the write cursor is 1.
With 4096 bytes there is no flush and the write cursor is 4096: the flush
happens before the 4097th byte is stored. -/
theorem implicit_flush_count_witness :
    Linux.so_fopen "f" "w" thousandOs = (some Linux.fresh, (Linux.so_fopen "f" "w" thousandOs).2) ∧
    (Linux.so_fopen "f" "w" thousandOs).2.writable = true ∧
    WritesSucceed (Linux.so_fopen "f" "w" thousandOs).2 ∧
    (∃ r, Linux.putInts 4096 (List.replicate 4097 65) Linux.fresh
          (Linux.so_fopen "f" "w" thousandOs).2 = some r ∧
      Linux.flushSizes 4096 (List.replicate 4097 65) Linux.fresh
          (Linux.so_fopen "f" "w" thousandOs).2 = some [4096] ∧
      r.stream.cursor_buf_write = 1 ∧
      handed r.os.log = List.replicate 4096 65 ∧
      pending r.stream = [65]) ∧
    (∃ r, Linux.putInts 4096 (List.replicate 4096 65) Linux.fresh
          (Linux.so_fopen "f" "w" thousandOs).2 = some r ∧
      Linux.flushSizes 4096 (List.replicate 4096 65) Linux.fresh
          (Linux.so_fopen "f" "w" thousandOs).2 = some [] ∧
      r.stream.cursor_buf_write = 4096 ∧
      handed r.os.log = []) := by
  have hw : WritesSucceed (Linux.so_fopen "f" "w" thousandOs).2 :=
    fun _ => ⟨1000, rfl, by decide⟩
  have hb : byteOfInt 65 = (65 : Byte) := by decide
  have hlog : handed (Linux.so_fopen "f" "w" thousandOs).2.log = [] := by decide
  have a1 : (4097 - 1) / 4096 = 1 := by decide
  have a2 : (4097 - 1) % 4096 + 1 = 1 := by decide
  have a3 : min (4096 * 1) 4097 = 4096 := by decide
  have a4 : 4097 - 4096 * 1 = 1 := by decide
  have b1 : (4096 - 1) / 4096 = 0 := by decide
  have b2 : (4096 - 1) % 4096 + 1 = 4096 := by decide
  refine ⟨rfl, by decide, hw, ?_, ?_⟩
  · obtain ⟨r, h1, h2, h3, h4, h5⟩ :=
      implicit_flush_count.1 4096 "f" "w" thousandOs Linux.fresh
        (Linux.so_fopen "f" "w" thousandOs).2 (List.replicate 4097 65) rfl (by decide) hw
        (by decide) (by rw [List.length_replicate]; decide)
    rw [List.length_replicate, a1] at h2 h4 h5
    rw [List.length_replicate, a2] at h3
    rw [List.map_replicate, hb, List.take_replicate, a3, hlog, List.nil_append] at h4
    rw [List.map_replicate, hb, List.drop_replicate, a4] at h5
    exact ⟨r, h1, h2, h3, h4, h5⟩
  · obtain ⟨r, h1, h2, h3, h4, -⟩ :=
      implicit_flush_count.1 4096 "f" "w" thousandOs Linux.fresh
        (Linux.so_fopen "f" "w" thousandOs).2 (List.replicate 4096 65) rfl (by decide) hw
        (by decide) (by rw [List.length_replicate]; decide)
    rw [List.length_replicate, b1] at h2 h4
    rw [List.length_replicate, b2] at h3
    rw [hlog, List.nil_append, Nat.mul_zero, List.take_zero] at h4
    exact ⟨r, h1, h2, h3, h4⟩

/-! ## C16: switching between reading and writing -/

/-- Counterexample to C16 as stated. A stream opened `r+` on the file
`ABCDEFGH`.  After `so_fgetc` (which returns `A`) and `so_fputc('x')` the
buffer holds one pending write byte and seven unconsumed read bytes: the
`so_fputc` did not discard the read buffer.  And after `so_fputc('x')` on the
fresh stream, `so_fgetc` issues no write call, refills the buffer over the
pending byte and returns `A`, and the write cursor is still 1. -/
theorem direction_switch_leaves_both_in_buffer :
    Linux.so_fopen "f" "r+" lettersOs = (some Linux.fresh, Linux.openedLettersOs) ∧
    Linux.afterReadA.val = 65 ∧
    (∃ p, Linux.so_fputc 4096 120 Linux.afterReadA.stream Linux.afterReadA.os = some p ∧
      p.val = 120 ∧
      (0 < p.stream.cursor_buf_write ∧ p.stream.cursor_buf_read < p.stream.buffer_size) ∧
      p.stream.cursor_buf_write = 1 ∧ p.stream.cursor_buf_read = 1 ∧
      p.stream.buffer_size = 8) ∧
    (∃ p, Linux.so_fputc 4096 120 Linux.fresh Linux.openedLettersOs = some p ∧
      p.stream.cursor_buf_write = 1 ∧ p.stream.buffer 0 = 120 ∧
      (Linux.so_fgetc p.stream p.os).val = 65 ∧
      writeCalls (Linux.so_fgetc p.stream p.os).os.log = 0 ∧
      (Linux.so_fgetc p.stream p.os).stream.buffer 0 = 65 ∧
      (0 < (Linux.so_fgetc p.stream p.os).stream.cursor_buf_write ∧
        (Linux.so_fgetc p.stream p.os).stream.cursor_buf_read
          < (Linux.so_fgetc p.stream p.os).stream.buffer_size)) :=
  ⟨rfl, by decide,
    ⟨_, rfl, by decide, by decide, by decide, by decide, by decide⟩,
    ⟨_, rfl, by decide, by decide, by decide, by decide, by decide, by decide⟩⟩

/-- C16, as amended. In `src/Linux/so_stdio.c` the direction is switched by
`so_fseek` (and, for pending writes, by `so_fflush`), not by `so_fgetc`,
`so_fread`, `so_fputc` or `so_fwrite`.  On a stream returned by `so_fopen` in a
mode that permits writing, on a device whose write calls succeed, in every
state reached by a sequence of operations in which no read follows a write
without a `so_fflush` or `so_fseek` in between and no write follows a read
without a `so_fseek` in between: the buffer does not hold both pending write
bytes and unconsumed read bytes.  Called in that state, `so_fseek` leaves the
write cursor at 0 if the last operation was a write, and the read cursor and
the valid-byte count at 0 if not; `so_fflush` leaves the write cursor at 0;
`so_fputc` leaves the read cursor and the valid-byte count as they are; and
`so_fgetc` leaves the write cursor as it is and issues no write call. -/
theorem direction_switch_discipline (fuel : Nat) (pathname mode : String) (os0 : Os)
    (s0 : SoFile) (os1 : Os) (ops : List Linux.Op) (s : SoFile) (os : Os)
    (hopen : Linux.so_fopen pathname mode os0 = (some s0, os1))
    (hwr : os1.writable = true) (hws : WritesSucceed os1)
    (hdisc : Linux.disciplined Linux.Dir.idle ops = true)
    (hrun : Linux.run fuel ops s0 os1 = some (s, os)) :
    ¬ (0 < s.cursor_buf_write ∧ s.cursor_buf_read < s.buffer_size) ∧
    (∀ (offset whence : Int) (r : Ret Int),
      Linux.so_fseek fuel s os offset whence = some r →
      (s.was_written ≠ 0 → r.stream.cursor_buf_write = 0) ∧
      (s.was_written = 0 → r.stream.cursor_buf_read = 0 ∧ r.stream.buffer_size = 0)) ∧
    (∀ r : Ret Int, Linux.so_fflush fuel s os = some r → r.stream.cursor_buf_write = 0) ∧
    (∀ (c : Int) (r : Ret Int), Linux.so_fputc fuel c s os = some r →
      r.stream.cursor_buf_read = s.cursor_buf_read ∧ r.stream.buffer_size = s.buffer_size) ∧
    (Linux.so_fgetc s os).stream.cursor_buf_write = s.cursor_buf_write ∧
    writeCalls (Linux.so_fgetc s os).os.log = writeCalls os.log := by
  obtain ⟨hs0, -⟩ := Linux.so_fopen_some pathname mode os0 s0 os1 hopen
  have h0 : Linux.DirInv Linux.Dir.idle s0 := by
    rw [hs0]
    exact ⟨rfl, by show ¬ (0 : Int) < 0; decide⟩
  obtain ⟨⟨d, hd⟩, hwr1, hws1⟩ :=
    Linux.run_switch fuel ops Linux.Dir.idle s0 os1 s os hdisc h0 hwr hws hrun
  refine ⟨hd.apart, ?_, ?_, ?_, Linux.so_fgetc_cw s os, Linux.so_fgetc_writeCalls s os⟩
  · intro offset whence r hr
    obtain ⟨k1, k2, -⟩ := Linux.so_fseek_switch fuel s os offset whence r hwr1 hws1 hr
    exact ⟨fun h => (k1 h).1, fun h => ⟨(k2 h).2.1, (k2 h).2.2⟩⟩
  · intro r hr
    exact (Linux.so_fflush_switch fuel s os r hwr1 hws1 hr).1
  · intro c r hr
    obtain ⟨p1, p2, -⟩ := Linux.so_fputc_switch fuel c s os r hr
    exact ⟨p1, p2⟩

/-- Witness for `direction_switch_discipline`: on the file `ABCDEFGH` opened
`r+`, a `so_fgetc`, a seek to the start, a `so_fputc('x')`, a `so_fflush` and a
`so_fgetc`; the file then starts with `x` and nothing is pending. -/
theorem direction_switch_discipline_witness :
    Linux.so_fopen "f" "r+" lettersOs = (some Linux.fresh, Linux.openedLettersOs) ∧
    Linux.openedLettersOs.writable = true ∧ WritesSucceed Linux.openedLettersOs ∧
    Linux.disciplined Linux.Dir.idle
      [Linux.Op.fgetc, Linux.Op.fseek 0 SEEK_SET, Linux.Op.fputc 120, Linux.Op.fflush,
        Linux.Op.fgetc] = true ∧
    ∃ s os,
      Linux.run 4096
        [Linux.Op.fgetc, Linux.Op.fseek 0 SEEK_SET, Linux.Op.fputc 120, Linux.Op.fflush,
          Linux.Op.fgetc]
        Linux.fresh Linux.openedLettersOs = some (s, os) ∧
      os.data = [120, 66, 67, 68, 69, 70, 71, 72] ∧ s.cursor_buf_write = 0 ∧
      (¬ (0 < s.cursor_buf_write ∧ s.cursor_buf_read < s.buffer_size) ∧
        (∀ (offset whence : Int) (r : Ret Int),
          Linux.so_fseek 4096 s os offset whence = some r →
          (s.was_written ≠ 0 → r.stream.cursor_buf_write = 0) ∧
          (s.was_written = 0 →
            r.stream.cursor_buf_read = 0 ∧ r.stream.buffer_size = 0)) ∧
        (∀ r : Ret Int, Linux.so_fflush 4096 s os = some r → r.stream.cursor_buf_write = 0) ∧
        (∀ (c : Int) (r : Ret Int), Linux.so_fputc 4096 c s os = some r →
          r.stream.cursor_buf_read = s.cursor_buf_read ∧
          r.stream.buffer_size = s.buffer_size) ∧
        (Linux.so_fgetc s os).stream.cursor_buf_write = s.cursor_buf_write ∧
        writeCalls (Linux.so_fgetc s os).os.log = writeCalls os.log) :=
  ⟨rfl, by decide, fun _ => ⟨4096, rfl, by decide⟩, by decide, _, _, rfl, by decide, by decide,
    direction_switch_discipline 4096 "f" "r+" lettersOs Linux.fresh Linux.openedLettersOs
      [Linux.Op.fgetc, Linux.Op.fseek 0 SEEK_SET, Linux.Op.fputc 120, Linux.Op.fflush,
        Linux.Op.fgetc] _ _ rfl (by decide) (fun _ => ⟨4096, rfl, by decide⟩) (by decide) rfl⟩

/-! ## C17: the cursors stay within their bounds -/

/-- C17. Cursor bounds in `src/Linux/so_stdio.c`. In every state reached from
the record returned by `so_fopen` by any sequence of operations (`so_fgetc`,
`so_fputc`, `so_fread`, `so_fwrite`, `so_fflush`, `so_fseek` and the
accessors), the write cursor is between 0 and 4096 and the read cursor is
between 0 and the valid-byte count, which is at most 4096; and a `so_fgetc` or
a `so_fputc` called in that state accesses the buffer at an index between 0
and 4095.  (A `read` call of the model never delivers more bytes than it is
asked for.) -/
theorem cursors_stay_in_bounds (fuel : Nat) (pathname mode : String) (os0 : Os) (s0 : SoFile)
    (os1 : Os) (ops : List Linux.Op) (s : SoFile) (os : Os)
    (hopen : Linux.so_fopen pathname mode os0 = (some s0, os1))
    (hrun : Linux.run fuel ops s0 os1 = some (s, os)) :
    (0 ≤ s.cursor_buf_write ∧ s.cursor_buf_write ≤ 4096 ∧
      0 ≤ s.cursor_buf_read ∧ s.cursor_buf_read ≤ s.buffer_size ∧ s.buffer_size ≤ 4096) ∧
    (∀ i, Linux.so_fgetc_index s os = some i → 0 ≤ i ∧ i < 4096) ∧
    (∀ i, Linux.so_fputc_index fuel s os = some (some i) → 0 ≤ i ∧ i < 4096) := by
  obtain ⟨hs0, -⟩ := Linux.so_fopen_some pathname mode os0 s0 os1 hopen
  have hb0 : Linux.CursorsInBounds s0 := by
    rw [hs0]
    exact ⟨le_refl 0, by show (0 : Int) ≤ (FILE_BUFF_LEN : Int); simp, le_refl 0, le_refl 0,
      by show (0 : Int) ≤ (FILE_BUFF_LEN : Int); simp⟩
  have hb := Linux.run_bounds fuel ops s0 os1 s os hb0 hrun
  exact ⟨⟨hb.cw0, hb.cw1, hb.cbr0, hb.cbr1, hb.bsz1⟩,
    fun i hi => Linux.so_fgetc_index_bound s os hb i hi,
    fun i hi => Linux.so_fputc_index_bound fuel s os hb i hi⟩

/-- Witness for `cursors_stay_in_bounds`: on the file `ABCDEFGH` opened `r+`,
after a `so_fgetc`, a `so_fputc`, a `so_fflush`, a seek to offset 2 and two
more `so_fgetc`; the next `so_fgetc` reads index 3 and the next `so_fputc`
writes index 0. -/
theorem cursors_stay_in_bounds_witness :
    Linux.so_fopen "f" "r+" lettersOs = (some Linux.fresh, Linux.openedLettersOs) ∧
    ∃ s os,
      Linux.run 4096
        [Linux.Op.fgetc, Linux.Op.fputc 120, Linux.Op.fflush, Linux.Op.fseek 2 SEEK_SET,
          Linux.Op.fgetc, Linux.Op.fgetc]
        Linux.fresh Linux.openedLettersOs = some (s, os) ∧
      Linux.so_fgetc_index s os = some 3 ∧ Linux.so_fputc_index 4096 s os = some (some 0) ∧
      ((0 ≤ s.cursor_buf_write ∧ s.cursor_buf_write ≤ 4096 ∧
          0 ≤ s.cursor_buf_read ∧ s.cursor_buf_read ≤ s.buffer_size ∧ s.buffer_size ≤ 4096) ∧
        (∀ i, Linux.so_fgetc_index s os = some i → 0 ≤ i ∧ i < 4096) ∧
        (∀ i, Linux.so_fputc_index 4096 s os = some (some i) → 0 ≤ i ∧ i < 4096)) :=
  ⟨rfl, _, _, rfl, by decide, by decide,
    cursors_stay_in_bounds 4096 "f" "r+" lettersOs Linux.fresh Linux.openedLettersOs
      [Linux.Op.fgetc, Linux.Op.fputc 120, Linux.Op.fflush, Linux.Op.fseek 2 SEEK_SET,
        Linux.Op.fgetc, Linux.Op.fgetc] _ _ rfl rfl⟩

/-! ## C18: the read cursor and the valid-byte count (top-level variant) -/

/-- C18. Evaluation of `src/so_stdio.c` at the failing input: a stream opened
`r+` on the file `ABCDEFGH`, after one `so_fgetc` (which returns `A`) and one
`so_fflush` (which returns 0).  The flush sets the valid-byte count to 0 and
leaves the read cursor at 1.  The next `so_fgetc` issues no read call and
reads the buffer at index 1, beyond the valid-byte count; and after 4095 more
calls, none of which issues a read call, `so_fgetc` reads the buffer at index
4096, beyond its capacity. -/
theorem so_fflush_strands_read_cursor :
    Win.so_fopen "f" "r+" lettersOs = (some Win.fresh, Win.openedLettersOs) ∧
    Win.afterReadA.val = 65 ∧
    ∃ f, Win.so_fflush 0 Win.afterReadA.stream Win.afterReadA.os = some f ∧ f.val = 0 ∧
      f.stream.cursor_buf_read = 1 ∧ f.stream.buffer_size = 0 ∧
      Win.so_fgetc_index f.stream f.os = some 1 ∧
      (Win.so_fgetc f.stream f.os).val = 0 ∧
      readCalls (Win.so_fgetc f.stream f.os).os.log = readCalls f.os.log ∧
      (Win.getBytes 4095 f.stream f.os).stream.cursor_buf_read = 4096 ∧
      (Win.getBytes 4095 f.stream f.os).stream.buffer_size = 0 ∧
      (Win.getBytes 4095 f.stream f.os).os = f.os ∧
      Win.so_fgetc_index (Win.getBytes 4095 f.stream f.os).stream
        (Win.getBytes 4095 f.stream f.os).os = some 4096 :=
  ⟨rfl, by decide, _, rfl, by decide, by decide, by decide, by decide, by decide, by decide,
    (Win.getBytes_runaway 4095 _ _ (by decide) (by decide) (by decide) (by decide)).1,
    (Win.getBytes_runaway 4095 _ _ (by decide) (by decide) (by decide) (by decide)).2.1,
    (Win.getBytes_runaway 4095 _ _ (by decide) (by decide) (by decide) (by decide)).2.2.2.1,
    (Win.getBytes_runaway 4095 _ _ (by decide) (by decide) (by decide) (by decide)).2.2.2.2⟩

/-! ## C19: both flags are sticky -/

/-- C19. Both flags are sticky in `src/Linux/so_stdio.c`. For every stream
state, every state of the operating system and every operation that keeps the
stream open (`so_fgetc`, `so_fputc`, `so_fread`, `so_fwrite`, `so_fflush`,
`so_fseek`, `so_ftell`, `so_feof`, `so_ferror`, `so_fileno`): if `so_feof`
reports a nonzero value before the operation it reports a nonzero value after
it, and likewise for `so_ferror`. -/
theorem flags_are_sticky (fuel : Nat) (op : Linux.Op) (s : SoFile) (os : Os) (s1 : SoFile)
    (os1 : Os) (h : Linux.step fuel op s os = some (s1, os1)) :
    (Linux.so_feof s ≠ 0 → Linux.so_feof s1 ≠ 0) ∧
    (Linux.so_ferror s ≠ 0 → Linux.so_ferror s1 ≠ 0) :=
  Linux.step_flags fuel op s os s1 os1 h

/-- Witness for `flags_are_sticky`: on the stream that met the end of the empty
file, `so_fseek(stream, 0, SEEK_SET)` returns 0 and the end-of-file flag is
still set. -/
theorem flags_are_sticky_witness :
    Linux.so_feof Linux.atEof.stream ≠ 0 ∧
    (Linux.so_fseek 4096 Linux.atEof.stream Linux.atEof.os 0 SEEK_SET).map (fun r => r.val)
      = some 0 ∧
    ∃ s1 os1,
      Linux.step 4096 (Linux.Op.fseek 0 SEEK_SET) Linux.atEof.stream Linux.atEof.os
        = some (s1, os1) ∧
      Linux.so_feof s1 = 1 ∧
      ((Linux.so_feof Linux.atEof.stream ≠ 0 → Linux.so_feof s1 ≠ 0) ∧
        (Linux.so_ferror Linux.atEof.stream ≠ 0 → Linux.so_ferror s1 ≠ 0)) :=
  ⟨by decide, by decide, _, _, rfl, by decide,
    flags_are_sticky 4096 (Linux.Op.fseek 0 SEEK_SET) Linux.atEof.stream Linux.atEof.os _ _ rfl⟩

/-! ## C20: `so_fflush` with nothing pending -/

/-- Counterexample to C20 as stated. A stream opened `r+` on the file
`ABCDEFGH`, after one `so_fgetc` that returned `A`: the write cursor is 0 and
seven bytes of the refilled buffer are unconsumed.  The next three `so_fgetc`
calls return `B`, `C`, `D`; when `so_fflush` is called first (it returns 0 and
issues no write call), they return 0, 0, 0. -/
theorem so_fflush_zeroes_unread_bytes :
    Linux.afterReadA.val = 65 ∧ Linux.afterReadA.stream.cursor_buf_write = 0 ∧
    Linux.afterReadA.stream.cursor_buf_read = 1 ∧ Linux.afterReadA.stream.buffer_size = 8 ∧
    (Linux.getBytes 3 Linux.afterReadA.stream Linux.afterReadA.os).val = [66, 67, 68] ∧
    ∃ f, Linux.so_fflush 0 Linux.afterReadA.stream Linux.afterReadA.os = some f ∧
      f.val = 0 ∧ writeCalls f.os.log = 0 ∧
      (Linux.getBytes 3 f.stream f.os).val = [0, 0, 0] :=
  ⟨by decide, by decide, by decide, by decide, by decide, _, rfl, by decide, by decide,
    by decide⟩

/-- C20, as amended. In `src/Linux/so_stdio.c`, `so_fflush` on a stream with
write cursor 0 returns 0, issues no underlying call and changes no cursor and
no flag, but it zeroes the buffer.  For every stream whose end-of-file flag is
clear and that has consumed some but not all bytes of a refilled buffer, with
`m` bytes unconsumed: each of the next `m` calls of `so_fgetc` returns 0 after
the flush, where it returns the buffered byte without the flush; the values
returned by the calls after these `m` are the same with and without the
flush. -/
theorem so_fflush_without_pending_zeroes_buffer (fuel : Nat) (s : SoFile) (os : Os)
    (hcw : s.cursor_buf_write = 0) (hfe : s.feof = 0) (h0 : 0 < s.cursor_buf_read)
    (h1 : s.cursor_buf_read < s.buffer_size) (h2 : s.buffer_size ≤ (FILE_BUFF_LEN : Int)) :
    ∃ f, Linux.so_fflush fuel s os = some f ∧ f.val = 0 ∧ f.os = os ∧
      f.stream = { s with buffer := memset0 s.buffer } ∧
      (∀ k, k ≤ (s.buffer_size - s.cursor_buf_read).toNat →
        (Linux.getBytes k f.stream f.os).val = List.replicate k 0 ∧
        (Linux.getBytes k s os).val
          = (memRange s.buffer s.cursor_buf_read.toNat k).map (fun x => (x.val : Int))) ∧
      ∀ n, ∃ rest,
        (Linux.getBytes ((s.buffer_size - s.cursor_buf_read).toNat + n) f.stream f.os).val
          = List.replicate (s.buffer_size - s.cursor_buf_read).toNat 0 ++ rest ∧
        (Linux.getBytes ((s.buffer_size - s.cursor_buf_read).toNat + n) s os).val
          = (memRange s.buffer s.cursor_buf_read.toNat
              (s.buffer_size - s.cursor_buf_read).toNat).map (fun x => (x.val : Int))
            ++ rest := by
  have hF : (FILE_BUFF_LEN : Int) = 4096 := rfl
  have hFn : FILE_BUFF_LEN = 4096 := rfl
  refine ⟨_, Linux.so_fflush_nothing fuel s os hcw, rfl, rfl, rfl, ?_, ?_⟩
  · intro k hk
    obtain ⟨a1, -⟩ := Linux.getBytes_buffered k { s with buffer := memset0 s.buffer } os hfe h0
      (by show s.cursor_buf_read + (k : Int) ≤ s.buffer_size; omega) h2
    obtain ⟨b1, -⟩ := Linux.getBytes_buffered k s os hfe h0 (by omega) h2
    refine ⟨?_, b1⟩
    rw [a1]
    show List.map _ (memRange (memset0 s.buffer) s.cursor_buf_read.toNat k) = _
    rw [memRange_memset0 _ _ _ (by omega)]
    simp
  · intro n
    obtain ⟨a1, a2, -⟩ := Linux.getBytes_buffered (s.buffer_size - s.cursor_buf_read).toNat
      { s with buffer := memset0 s.buffer } os hfe h0
      (by show s.cursor_buf_read + (((s.buffer_size - s.cursor_buf_read).toNat : Nat) : Int)
            ≤ s.buffer_size; omega) h2
    obtain ⟨b1, b2, b3, b4, b5, b6⟩ := Linux.getBytes_buffered
      (s.buffer_size - s.cursor_buf_read).toNat s os hfe h0 (by omega) h2
    refine ⟨(Linux.getBytes n (Linux.getBytes (s.buffer_size - s.cursor_buf_read).toNat s os).stream
      os).val, ?_, ?_⟩
    · rw [Linux.getBytes_add, a1, a2, b6 (memset0 s.buffer)]
      have e : List.map (fun x : Byte => (x.val : Int))
          (memRange ({ s with buffer := memset0 s.buffer } : SoFile).buffer
            ({ s with buffer := memset0 s.buffer } : SoFile).cursor_buf_read.toNat
            (s.buffer_size - s.cursor_buf_read).toNat)
          = List.replicate (s.buffer_size - s.cursor_buf_read).toNat 0 := by
        show List.map _ (memRange (memset0 s.buffer) s.cursor_buf_read.toNat _) = _
        rw [memRange_memset0 _ _ _ (by omega)]
        simp
      rw [e]
      congr 1
      exact Linux.getBytes_shadow n _ (memset0 s.buffer) os (by rw [b3]; omega)
        (by rw [b3, b4]; omega) (by rw [b4]; exact h2)
        (fun i hi1 hi2 => by rw [b3] at hi1; rw [b4] at hi2; omega)
    · rw [Linux.getBytes_add, b1, b2]

/-- Witness for `so_fflush_without_pending_zeroes_buffer`: the stream opened
`r+` on `ABCDEFGH` after one `so_fgetc`; seven bytes are unconsumed. -/
theorem so_fflush_without_pending_zeroes_buffer_witness :
    Linux.afterReadA.stream.cursor_buf_write = 0 ∧ Linux.afterReadA.stream.feof = 0 ∧
    0 < Linux.afterReadA.stream.cursor_buf_read ∧
    Linux.afterReadA.stream.cursor_buf_read < Linux.afterReadA.stream.buffer_size ∧
    Linux.afterReadA.stream.buffer_size ≤ (FILE_BUFF_LEN : Int) ∧
    (∃ f, Linux.so_fflush 0 Linux.afterReadA.stream Linux.afterReadA.os = some f ∧
      (Linux.getBytes 8 f.stream f.os).val = [0, 0, 0, 0, 0, 0, 0, SO_EOF] ∧
      (Linux.getBytes 8 Linux.afterReadA.stream Linux.afterReadA.os).val
        = [66, 67, 68, 69, 70, 71, 72, SO_EOF]) ∧
    ∃ f, Linux.so_fflush 0 Linux.afterReadA.stream Linux.afterReadA.os = some f ∧ f.val = 0 ∧
      f.os = Linux.afterReadA.os ∧
      f.stream = { Linux.afterReadA.stream with
        buffer := memset0 Linux.afterReadA.stream.buffer } ∧
      (∀ k, k ≤ (Linux.afterReadA.stream.buffer_size
            - Linux.afterReadA.stream.cursor_buf_read).toNat →
        (Linux.getBytes k f.stream f.os).val = List.replicate k 0 ∧
        (Linux.getBytes k Linux.afterReadA.stream Linux.afterReadA.os).val
          = (memRange Linux.afterReadA.stream.buffer
              Linux.afterReadA.stream.cursor_buf_read.toNat k).map (fun x => (x.val : Int))) ∧
      ∀ n, ∃ rest,
        (Linux.getBytes ((Linux.afterReadA.stream.buffer_size
            - Linux.afterReadA.stream.cursor_buf_read).toNat + n) f.stream f.os).val
          = List.replicate (Linux.afterReadA.stream.buffer_size
              - Linux.afterReadA.stream.cursor_buf_read).toNat 0 ++ rest ∧
        (Linux.getBytes ((Linux.afterReadA.stream.buffer_size
            - Linux.afterReadA.stream.cursor_buf_read).toNat + n)
            Linux.afterReadA.stream Linux.afterReadA.os).val
          = (memRange Linux.afterReadA.stream.buffer
              Linux.afterReadA.stream.cursor_buf_read.toNat
              (Linux.afterReadA.stream.buffer_size
                - Linux.afterReadA.stream.cursor_buf_read).toNat).map
              (fun x => (x.val : Int))
            ++ rest :=
  ⟨by decide, by decide, by decide, by decide, by decide,
    ⟨_, rfl, by decide, by decide⟩,
    so_fflush_without_pending_zeroes_buffer 0 Linux.afterReadA.stream Linux.afterReadA.os
      (by decide) (by decide) (by decide) (by decide) (by decide)⟩
